import Mathlib

/-! # Discrete-event queueing simulators (CS-556): embedding and verification

Three programs are embedded, one namespace per source file:

* `Src1` : `1.cpp`, class `Q2`, four server slots with a time-varying number of
  active slots and an unbounded queue;
* `Src2` : `2.cpp`, class `Q2`, one server and a queue bounded by `capacity`;
* `Src3` : `3.cpp`, class `Q3`, one server, unbounded queue, run for `ARRIVALS`
  arrivals and then drained.

Modelling conventions, shared by the three embeddings.

* A `double` holding a simulated time or a duration is an exact rational `ℚ`
  (rounding is not modelled; the embeddings `Src1.Dbl`, `Src2.Dbl` and `Src3.Dbl`
  of the section on double arithmetic round every operation).
* `numeric_limits<double>::max()` is only ever used as the "no departure
  scheduled" sentinel.  It is represented by `none : Option ℚ`, which compares
  above every time (`ltSentinel`, `minSentinel`; in the embeddings `Dbl` it is
  the finite number `dblMax`).
* The generator `gen` is a stream `draws : ℕ → ℚ` of durations together with the
  number `rng` of draws consumed so far; the `k`-th call of `getExponential`
  returns `draws k`, whatever its rate argument.
* `std::queue<Customer>` is a `List Customer` whose head is `front()`; `push`
  appends at the end.  `std::vector` is a `List`.
* `int` counters are natural numbers (signed overflow is not modelled).
* A division of doubles is `divDouble`, which returns `none` when the divisor is
  zero (the IEEE result is then NaN or an infinity, not a number).
* One loop iteration is a function `step : State → Option State`; `none` stands
  for behaviour that C++ leaves undefined (`front()` of an empty queue,
  dereferencing a null `currentCustomer`, index `-1`) or for the sentinel being
  used as a time.
-/

/-- Result of running a loop with a bound on the number of iterations. -/
inductive Run (σ : Type) where
  | finished (s : σ)
  | fault
  | outOfFuel
deriving DecidableEq, Repr

/-- The comparison `a < b` of the source when `b` may hold the sentinel
`numeric_limits<double>::max()` (represented by `none`). -/
def ltSentinel (a : ℚ) : Option ℚ → Bool
  | none => true
  | some d => decide (a < d)

/-- The call `std::min(a, b)` (which returns `b` when `b < a` and `a` otherwise)
when `b` may hold the sentinel. -/
def minSentinel (a : ℚ) : Option ℚ → ℚ
  | none => a
  | some d => if d < a then d else a

/-- Conversion of an `int` to `size_t` (64 bits), as performed by the usual
arithmetic conversions when an `int` is compared with `q.size()`. -/
def toSizeT (n : Int) : Nat := (n % 2 ^ 64).toNat

/-- The division `a / b` of two doubles; `none` stands for the result of a
division by zero, which is NaN or an infinity. -/
def divDouble (a b : ℚ) : Option ℚ := if b = 0 then none else some (a / b)

/-- The addition `a + b` of two doubles that may be non-finite: a non-finite
operand gives a non-finite sum. -/
def addDouble : Option ℚ → Option ℚ → Option ℚ
  | some a, some b => some (a + b)
  | _, _ => none

/-- The body of `getExponential`, the same in the three files:
`-log(1.0 - u) / rate`, where `u` is the value drawn by `dis(gen)` from
`uniform_real_distribution<>(0.0, 1.0)`.  The library function `log` is a
parameter; numbers are elements of an ordered field. -/
def getExponential {α : Type} [LinearOrderedField α] (log : α → α) (rate u : α) : α :=
  -log (1 - u) / rate

/-- Draws that produce an exact tie in each of the three programs: the first
customer arrives at time 1 and is served for 2 hours, and the second arrival
is due 2 hours after the first, so both events are scheduled at time 3. -/
def drawsTie : ℕ → ℚ
  | 0 => 1
  | 1 => 2
  | 2 => 2
  | _ => 100

/-! ## `2.cpp`: single server, bounded queue with rejection -/

namespace Src2

/-- Source constant `SIMULATION_TIME` (hours). -/
def SIMULATION_TIME : ℚ := 1000

/-- Source `struct Customer`. -/
structure Customer where
  arrivalTime : ℚ
  serviceStartTime : ℚ
  serviceTime : ℚ
  departureTime : ℚ
deriving DecidableEq, Repr

/-- Source constructor `Customer(double arrTime)`. -/
def Customer.mk1 (arrTime : ℚ) : Customer :=
  { arrivalTime := arrTime, serviceStartTime := 0, serviceTime := 0, departureTime := 0 }

/-- Local variables of `Q2::runSimulation` that live across loop iterations. -/
structure State where
  q : List Customer
  completedCustomers : List Customer
  currentTime : ℚ
  nextArrival : ℚ
  nextDeparture : Option ℚ
  rejectedCustomers : Nat
  totalArrivals : Nat
  busyTime : ℚ
  queueLengthTimeProduct : ℚ
  fullSystemTime : ℚ
  lastEventTime : ℚ
  rng : Nat
deriving DecidableEq, Repr

/-- Declarations before the loop of `Q2::runSimulation`; the first draw is the
first interarrival time. -/
def init (draws : ℕ → ℚ) : State :=
  { q := [], completedCustomers := [], currentTime := 0, nextArrival := draws 0,
    nextDeparture := none, rejectedCustomers := 0, totalArrivals := 0, busyTime := 0,
    queueLengthTimeProduct := 0, fullSystemTime := 0, lastEventTime := 0, rng := 1 }

/-- The block that starts the service of `q.front()` at `currentTime`: it
overwrites the three service fields of the head with one draw and returns the
new queue together with the head's departure time. -/
def startService (draws : ℕ → ℚ) (rng : Nat) (currentTime : ℚ) :
    List Customer → Option (List Customer × ℚ)
  | [] => none
  | c :: rest =>
    some ({ c with serviceStartTime := currentTime, serviceTime := draws rng,
                   departureTime := currentTime + draws rng } :: rest,
          currentTime + draws rng)

/-- The arrival branch of the loop body (`if (nextArrival < nextDeparture)`). -/
def arrival (capacity : Int) (draws : ℕ → ℚ) (s : State) : Option State :=
  let currentTime := s.nextArrival
  let qltp := s.queueLengthTimeProduct + (s.q.length : ℚ) * (currentTime - s.lastEventTime)
  let full := if s.q.length = toSizeT capacity then
      s.fullSystemTime + (currentTime - s.lastEventTime) else s.fullSystemTime
  if s.q.length < toSizeT capacity then
    let q1 := s.q ++ [Customer.mk1 currentTime]
    if q1.length = 1 then
      match startService draws s.rng currentTime q1 with
      | none => none
      | some (q2, dep) =>
        some { s with q := q2, currentTime := currentTime, totalArrivals := s.totalArrivals + 1,
                      queueLengthTimeProduct := qltp, fullSystemTime := full,
                      nextDeparture := some dep,
                      nextArrival := currentTime + draws (s.rng + 1),
                      lastEventTime := currentTime, rng := s.rng + 2 }
    else
      some { s with q := q1, currentTime := currentTime, totalArrivals := s.totalArrivals + 1,
                    queueLengthTimeProduct := qltp, fullSystemTime := full,
                    nextArrival := currentTime + draws s.rng,
                    lastEventTime := currentTime, rng := s.rng + 1 }
  else
    some { s with currentTime := currentTime, totalArrivals := s.totalArrivals + 1,
                  queueLengthTimeProduct := qltp, fullSystemTime := full,
                  rejectedCustomers := s.rejectedCustomers + 1,
                  nextArrival := currentTime + draws s.rng,
                  lastEventTime := currentTime, rng := s.rng + 1 }

/-- The departure branch of the loop body (the `else` of the event test). -/
def departure (capacity : Int) (draws : ℕ → ℚ) (s : State) : Option State :=
  match s.nextDeparture, s.q with
  | some currentTime, served :: rest =>
    let qltp := s.queueLengthTimeProduct + (s.q.length : ℚ) * (currentTime - s.lastEventTime)
    let full := if s.q.length = toSizeT capacity then
        s.fullSystemTime + (currentTime - s.lastEventTime) else s.fullSystemTime
    match startService draws s.rng currentTime rest with
    | some (q2, dep) =>
      some { s with q := q2, completedCustomers := s.completedCustomers ++ [served],
                    currentTime := currentTime, queueLengthTimeProduct := qltp,
                    fullSystemTime := full, busyTime := s.busyTime + served.serviceTime,
                    nextDeparture := some dep, lastEventTime := currentTime,
                    rng := s.rng + 1 }
    | none =>
      some { s with q := rest, completedCustomers := s.completedCustomers ++ [served],
                    currentTime := currentTime, queueLengthTimeProduct := qltp,
                    fullSystemTime := full, busyTime := s.busyTime + served.serviceTime,
                    nextDeparture := none, lastEventTime := currentTime }
  | _, _ => none

/-- The event test of the loop body: `nextArrival < nextDeparture`. -/
def isArrivalEvent (s : State) : Bool := ltSentinel s.nextArrival s.nextDeparture

/-- One iteration of the body of `while (currentTime < SIMULATION_TIME)`. -/
def step (capacity : Int) (draws : ℕ → ℚ) (s : State) : Option State :=
  if isArrivalEvent s then arrival capacity draws s else departure capacity draws s

/-- The loop `while (currentTime < SIMULATION_TIME)` run for at most `fuel`
iterations from state `s`. -/
def eventLoop (capacity : Int) (draws : ℕ → ℚ) : Nat → State → Run State
  | 0, s => if s.currentTime < SIMULATION_TIME then Run.outOfFuel else Run.finished s
  | fuel + 1, s =>
    if s.currentTime < SIMULATION_TIME then
      match step capacity draws s with
      | none => Run.fault
      | some s1 => eventLoop capacity draws fuel s1
    else Run.finished s

/-- The event loop of `Q2::runSimulation` from its initial state. -/
def runSimulation (capacity : Int) (draws : ℕ → ℚ) (fuel : Nat) : Run State :=
  eventLoop capacity draws fuel (init draws)

/-- The state at the head of the loop after exactly `n` iterations; `none` when
the loop has exited before or an iteration has faulted. -/
def stateAfter (capacity : Int) (draws : ℕ → ℚ) : Nat → Option State
  | 0 => some (init draws)
  | n + 1 =>
    match stateAfter capacity draws n with
    | some s => if s.currentTime < SIMULATION_TIME then step capacity draws s else none
    | none => none

/-- Draws used to exhibit a run that ends with a customer still in service:
first arrival at time 1, service of 2000 hours, second arrival at time 1501. -/
def drawsLongService : ℕ → ℚ
  | 0 => 1
  | 1 => 2000
  | 2 => 1500
  | _ => 0

/-- Source `struct SimulationResults`; every field is the result of a division of
doubles. -/
structure SimulationResults where
  avgWaitingTime : Option ℚ
  avgSystemTime : Option ℚ
  utilizationRate : Option ℚ
  avgQueueLength : Option ℚ
  probSystemFull : Option ℚ
  probRejection : Option ℚ
deriving DecidableEq, Repr

/-- The accumulation of `totalWaitingTime` over `completedCustomers`. -/
def totalWaitingTime (cs : List Customer) : ℚ :=
  cs.foldl (fun acc c => acc + (c.serviceStartTime - c.arrivalTime)) 0

/-- The accumulation of `totalSystemTime` over `completedCustomers`. -/
def totalSystemTime (cs : List Customer) : ℚ :=
  cs.foldl (fun acc c => acc + (c.departureTime - c.arrivalTime)) 0

/-- The block "Calculate performance measures" of `Q2::runSimulation`, applied to
the state in which the loop has exited.  No division is guarded. -/
def performanceMeasures (s : State) : SimulationResults :=
  { avgWaitingTime :=
      divDouble (totalWaitingTime s.completedCustomers) (s.completedCustomers.length : ℚ),
    avgSystemTime :=
      divDouble (totalSystemTime s.completedCustomers) (s.completedCustomers.length : ℚ),
    utilizationRate := divDouble s.busyTime s.currentTime,
    avgQueueLength := divDouble s.queueLengthTimeProduct s.currentTime,
    probSystemFull := divDouble s.fullSystemTime s.currentTime,
    probRejection := divDouble (s.rejectedCustomers : ℚ) (s.totalArrivals : ℚ) }

/-- Source constant `SIMULATIONS`, the number of replications. -/
def SIMULATIONS : Nat := 1000

/-- Source default constructor `SimulationResults()`: every field is `0.0`. -/
def SimulationResults.mk0 : SimulationResults :=
  { avgWaitingTime := some 0, avgSystemTime := some 0, utilizationRate := some 0,
    avgQueueLength := some 0, probSystemFull := some 0, probRejection := some 0 }

/-- The six statements `avgResults.f += results.f` of `runMultipleSimulations`. -/
def SimulationResults.add (a r : SimulationResults) : SimulationResults :=
  { avgWaitingTime := addDouble a.avgWaitingTime r.avgWaitingTime,
    avgSystemTime := addDouble a.avgSystemTime r.avgSystemTime,
    utilizationRate := addDouble a.utilizationRate r.utilizationRate,
    avgQueueLength := addDouble a.avgQueueLength r.avgQueueLength,
    probSystemFull := addDouble a.probSystemFull r.probSystemFull,
    probRejection := addDouble a.probRejection r.probRejection }

/-- The six statements `avgResults.f /= validSimulations`. -/
def SimulationResults.divide (a : SimulationResults) (validSimulations : Nat) :
    SimulationResults :=
  { avgWaitingTime := a.avgWaitingTime.bind (fun v => divDouble v validSimulations),
    avgSystemTime := a.avgSystemTime.bind (fun v => divDouble v validSimulations),
    utilizationRate := a.utilizationRate.bind (fun v => divDouble v validSimulations),
    avgQueueLength := a.avgQueueLength.bind (fun v => divDouble v validSimulations),
    probSystemFull := a.probSystemFull.bind (fun v => divDouble v validSimulations),
    probRejection := a.probRejection.bind (fun v => divDouble v validSimulations) }

/-- The `for` loop of `runMultipleSimulations` with `n` replications left; the
generator is shared, so a replication reads the stream from the offset `off`
where the previous one stopped.  Returns the sums and `validSimulations`. -/
def replications (capacity : Int) (draws : ℕ → ℚ) (fuel : Nat) :
    Nat → Nat → SimulationResults → Nat → Run (SimulationResults × Nat)
  | 0, _, acc, valid => Run.finished (acc, valid)
  | n + 1, off, acc, valid =>
    match runSimulation capacity (fun i => draws (off + i)) fuel with
    | Run.finished s =>
      replications capacity draws fuel n (off + s.rng) (acc.add (performanceMeasures s))
        (valid + 1)
    | Run.fault => Run.fault
    | Run.outOfFuel => Run.outOfFuel

/-- Source `Q2::runMultipleSimulations`, each replication with at most `fuel`
loop iterations. -/
def runMultipleSimulations (capacity : Int) (draws : ℕ → ℚ) (fuel : Nat) :
    Run SimulationResults :=
  match replications capacity draws fuel SIMULATIONS 0 SimulationResults.mk0 0 with
  | Run.finished (acc, valid) => Run.finished (acc.divide valid)
  | Run.fault => Run.fault
  | Run.outOfFuel => Run.outOfFuel

/-- Members of class `Q2` other than the generator. -/
structure Q2 where
  lambda : ℚ
  mu : ℚ
  capacity : Int
deriving DecidableEq, Repr

/-- Source constructor `Q2(double l, double m, int cap)`: it stores its arguments
and seeds the generator; `none` would be a construction that fails, and the
constructor has no such path. -/
def Q2.construct (l m : ℚ) (cap : Int) : Option Q2 :=
  some { lambda := l, mu := m, capacity := cap }

/-- What `analyzeCapacityEffect` does for one capacity, up to the event loop of the
first replication: construct the object, then run the loop. -/
def constructAndRun (l m : ℚ) (cap : Int) (draws : ℕ → ℚ) (fuel : Nat) :
    Option (Run State) :=
  match Q2.construct l m cap with
  | none => none
  | some sim => some (runSimulation sim.capacity draws fuel)

/-- Draws of a replication without any completion: the first customer arrives
at time 1000, which ends the loop. -/
def drawsLateArrival : ℕ → ℚ
  | 0 => 1000
  | _ => 1

/-- The state in which the run on `drawsLateArrival` with capacity 3 leaves the
loop: one arrival, in service, and no completed customer. -/
def endLateArrival : State :=
  { q := [{ arrivalTime := 1000, serviceStartTime := 1000, serviceTime := 1,
            departureTime := 1001 }],
    completedCustomers := [], currentTime := 1000, nextArrival := 1001,
    nextDeparture := some 1001, rejectedCustomers := 0, totalArrivals := 1, busyTime := 0,
    queueLengthTimeProduct := 0, fullSystemTime := 0, lastEventTime := 1000, rng := 3 }

/-- The state at the head of the loop after `n` iterations of the run on `draws`
(the initial state when the run does not get that far). -/
def stateAt (capacity : Int) (draws : ℕ → ℚ) (n : Nat) : State :=
  (stateAfter capacity draws n).getD (init draws)

/-- The loop invariant of `Q2::runSimulation`: every arrival is rejected,
completed or still in the queue; the queue holds at most `capacity` customers;
a departure is scheduled exactly when the queue is not empty. -/
def Inv (capacity : Int) (s : State) : Prop :=
  s.rejectedCustomers + s.completedCustomers.length + s.q.length = s.totalArrivals ∧
  s.q.length ≤ toSizeT capacity ∧
  (s.nextDeparture = none ↔ s.q = [])

end Src2

/-! ## `3.cpp`: single server, unbounded queue, fixed number of arrivals -/

namespace Src3

/-- Source constant `ARRIVALS`. -/
def ARRIVALS : Nat := 500

/-- Source `struct Customer`. -/
structure Customer where
  arrivalTime : ℚ
  serviceStartTime : ℚ
  serviceTime : ℚ
  departureTime : ℚ
deriving DecidableEq, Repr

/-- Source constructor `Customer(double arrTime)`. -/
def Customer.mk1 (arrTime : ℚ) : Customer :=
  { arrivalTime := arrTime, serviceStartTime := 0, serviceTime := 0, departureTime := 0 }

/-- Local variables of `Q3::runSimulation` that live across loop iterations. -/
structure State where
  q : List Customer
  completedCustomers : List Customer
  currentTime : ℚ
  nextArrival : ℚ
  nextDeparture : Option ℚ
  busyTime : ℚ
  queueLengthTimeProduct : ℚ
  emptyQueueTime : ℚ
  lastEventTime : ℚ
  totalArrivals : Nat
  maxQueueLength : Nat
  rng : Nat
deriving DecidableEq, Repr

/-- Declarations before the loops of `Q3::runSimulation`. -/
def init (draws : ℕ → ℚ) : State :=
  { q := [], completedCustomers := [], currentTime := 0, nextArrival := draws 0,
    nextDeparture := none, busyTime := 0, queueLengthTimeProduct := 0, emptyQueueTime := 0,
    lastEventTime := 0, totalArrivals := 0, maxQueueLength := 0, rng := 1 }

/-- The block that starts the service of `q.front()` at `currentTime`. -/
def startService (draws : ℕ → ℚ) (rng : Nat) (currentTime : ℚ) :
    List Customer → Option (List Customer × ℚ)
  | [] => none
  | c :: rest =>
    some ({ c with serviceStartTime := currentTime, serviceTime := draws rng,
                   departureTime := currentTime + draws rng } :: rest,
          currentTime + draws rng)

/-- The arrival branch of the first loop. -/
def arrival (draws : ℕ → ℚ) (s : State) : Option State :=
  let currentTime := s.nextArrival
  let qltp := s.queueLengthTimeProduct + (s.q.length : ℚ) * (currentTime - s.lastEventTime)
  let empty := if s.q.isEmpty then s.emptyQueueTime + (currentTime - s.lastEventTime)
    else s.emptyQueueTime
  let q1 := s.q ++ [Customer.mk1 currentTime]
  let maxLen := max s.maxQueueLength q1.length
  if q1.length = 1 then
    match startService draws s.rng currentTime q1 with
    | none => none
    | some (q2, dep) =>
      some { s with q := q2, currentTime := currentTime, totalArrivals := s.totalArrivals + 1,
                    queueLengthTimeProduct := qltp, emptyQueueTime := empty,
                    maxQueueLength := maxLen, nextDeparture := some dep,
                    nextArrival := currentTime + draws (s.rng + 1),
                    lastEventTime := currentTime, rng := s.rng + 2 }
  else
    some { s with q := q1, currentTime := currentTime, totalArrivals := s.totalArrivals + 1,
                  queueLengthTimeProduct := qltp, emptyQueueTime := empty,
                  maxQueueLength := maxLen,
                  nextArrival := currentTime + draws s.rng,
                  lastEventTime := currentTime, rng := s.rng + 1 }

/-- The departure branch of the first loop; the body of the second (drain) loop
is the same text. -/
def departure (draws : ℕ → ℚ) (s : State) : Option State :=
  match s.nextDeparture, s.q with
  | some currentTime, served :: rest =>
    let qltp := s.queueLengthTimeProduct + (s.q.length : ℚ) * (currentTime - s.lastEventTime)
    let empty := if s.q.isEmpty then s.emptyQueueTime + (currentTime - s.lastEventTime)
      else s.emptyQueueTime
    match startService draws s.rng currentTime rest with
    | some (q2, dep) =>
      some { s with q := q2, completedCustomers := s.completedCustomers ++ [served],
                    currentTime := currentTime, queueLengthTimeProduct := qltp,
                    emptyQueueTime := empty, busyTime := s.busyTime + served.serviceTime,
                    nextDeparture := some dep, lastEventTime := currentTime,
                    rng := s.rng + 1 }
    | none =>
      some { s with q := rest, completedCustomers := s.completedCustomers ++ [served],
                    currentTime := currentTime, queueLengthTimeProduct := qltp,
                    emptyQueueTime := empty, busyTime := s.busyTime + served.serviceTime,
                    nextDeparture := none, lastEventTime := currentTime }
  | _, _ => none

/-- The event test of the first loop: `nextArrival < nextDeparture`. -/
def isArrivalEvent (s : State) : Bool := ltSentinel s.nextArrival s.nextDeparture

/-- One iteration of the body of `while (totalArrivals < ARRIVALS)`. -/
def step (draws : ℕ → ℚ) (s : State) : Option State :=
  if isArrivalEvent s then arrival draws s else departure draws s

/-- The loop `while (totalArrivals < ARRIVALS)` with at most `fuel` iterations. -/
def arrivalLoop (draws : ℕ → ℚ) : Nat → State → Run State
  | 0, s => if s.totalArrivals < ARRIVALS then Run.outOfFuel else Run.finished s
  | fuel + 1, s =>
    if s.totalArrivals < ARRIVALS then
      match step draws s with
      | none => Run.fault
      | some s1 => arrivalLoop draws fuel s1
    else Run.finished s

/-- The loop `while (!q.empty())` with at most `fuel` iterations. -/
def drainLoop (draws : ℕ → ℚ) : Nat → State → Run State
  | 0, s => if !s.q.isEmpty then Run.outOfFuel else Run.finished s
  | fuel + 1, s =>
    if !s.q.isEmpty then
      match departure draws s with
      | none => Run.fault
      | some s1 => drainLoop draws fuel s1
    else Run.finished s

/-- The two loops of `Q3::runSimulation` in sequence, each with at most `fuel`
iterations. -/
def runSimulation (draws : ℕ → ℚ) (fuel : Nat) : Run State :=
  match arrivalLoop draws fuel (init draws) with
  | Run.finished s => drainLoop draws fuel s
  | Run.fault => Run.fault
  | Run.outOfFuel => Run.outOfFuel

/-- The state at the head of the first loop after exactly `n` iterations; `none`
when the loop has exited before or an iteration has faulted. -/
def stateAfter (draws : ℕ → ℚ) : Nat → Option State
  | 0 => some (init draws)
  | n + 1 =>
    match stateAfter draws n with
    | some s => if s.totalArrivals < ARRIVALS then step draws s else none
    | none => none

/-- The state at the head of the first loop after `n` iterations of the run on
`draws` (the initial state when the run does not get that far). -/
def stateAt (draws : ℕ → ℚ) (n : Nat) : State :=
  (stateAfter draws n).getD (init draws)

/-- Source `struct SimulationResults`; a field computed by a division of doubles
is an `Option ℚ`. -/
structure SimulationResults where
  avgWaitingTime : Option ℚ
  avgSystemTime : Option ℚ
  utilizationFactor : Option ℚ
  idleTimeFraction : Option ℚ
  avgQueueLength : Option ℚ
  maxQueueLength : Nat
  emptyQueueProbability : Option ℚ
deriving DecidableEq, Repr

/-- The accumulation of `totalWaitingTime` over `completedCustomers`. -/
def totalWaitingTime (cs : List Customer) : ℚ :=
  cs.foldl (fun acc c => acc + (c.serviceStartTime - c.arrivalTime)) 0

/-- The accumulation of `totalSystemTime` over `completedCustomers`. -/
def totalSystemTime (cs : List Customer) : ℚ :=
  cs.foldl (fun acc c => acc + (c.departureTime - c.arrivalTime)) 0

/-- The block "Calculate performance measures" of `Q3::runSimulation`, applied to
the state after the drain loop; `totalSimulationTime` is `currentTime`, and
`idleTimeFraction` is `1.0 - utilizationFactor`. -/
def performanceMeasures (s : State) : SimulationResults :=
  { avgWaitingTime :=
      divDouble (totalWaitingTime s.completedCustomers) (s.completedCustomers.length : ℚ),
    avgSystemTime :=
      divDouble (totalSystemTime s.completedCustomers) (s.completedCustomers.length : ℚ),
    utilizationFactor := divDouble s.busyTime s.currentTime,
    idleTimeFraction := (divDouble s.busyTime s.currentTime).map (fun u => 1 - u),
    avgQueueLength := divDouble s.queueLengthTimeProduct s.currentTime,
    maxQueueLength := s.maxQueueLength,
    emptyQueueProbability := divDouble s.emptyQueueTime s.currentTime }

/-- Members of class `Q3` other than the generator. -/
structure Q3 where
  lambda : ℚ
  mu : ℚ
deriving DecidableEq, Repr

/-- Source constructor `Q3(double l, double m)`: it stores its arguments and seeds
the generator; `none` would be a construction that fails, and the constructor
has no such path. -/
def Q3.construct (l m : ℚ) : Option Q3 :=
  some { lambda := l, mu := m }

/-- What `runSimulationAnalysis` does up to the loops of the single replication:
construct the object, then run. -/
def constructAndRun (l m : ℚ) (draws : ℕ → ℚ) (fuel : Nat) : Option (Run State) :=
  match Q3.construct l m with
  | none => none
  | some _ => some (runSimulation draws fuel)

/-- The loop invariant of `Q3::runSimulation`: a departure is scheduled exactly
when the queue is not empty, and every arrival is either completed or in the
queue. -/
def Inv (s : State) : Prop :=
  (s.nextDeparture = none ↔ s.q = []) ∧
  s.completedCustomers.length + s.q.length = s.totalArrivals

end Src3

/-! ## `1.cpp`: four server slots, time-varying number of active slots -/

namespace Src1

/-- Source constant `SIMULATION_TIME` (hours). -/
def SIMULATION_TIME : ℚ := 8

/-- Member `maxServers`, set to 4 by the constructor `Q2(double, double)`; the
vector `servers` is created with exactly this many slots. -/
def maxServers : Nat := 4

/-- Source `struct Customer`. -/
structure Customer where
  arrivalTime : ℚ
  serviceStartTime : ℚ
  serviceTime : ℚ
  departureTime : ℚ
  serverId : Int
deriving DecidableEq, Repr

/-- Source constructor `Customer(double arrTime)`. -/
def Customer.mk1 (arrTime : ℚ) : Customer :=
  { arrivalTime := arrTime, serviceStartTime := 0, serviceTime := 0, departureTime := 0,
    serverId := -1 }

/-- Source `struct Server`; a null `currentCustomer` is `none`. -/
structure Server where
  isBusy : Bool
  currentCustomer : Option Customer
  busyUntil : ℚ
deriving DecidableEq, Repr

/-- Source constructor `Server()`. -/
def Server.mk0 : Server := { isBusy := false, currentCustomer := none, busyUntil := 0 }

/-- Source `struct PeriodResults`. -/
structure PeriodResults where
  totalWaitingTime : ℚ
  totalSystemTime : ℚ
  totalBusyTime : ℚ
  queueLengthTimeProduct : ℚ
  allBusyTime : ℚ
  completedCustomers : Nat
  periodDuration : ℚ
deriving DecidableEq, Repr

/-- Source constructor `PeriodResults(double duration)`. -/
def PeriodResults.mk1 (duration : ℚ) : PeriodResults :=
  { totalWaitingTime := 0, totalSystemTime := 0, totalBusyTime := 0,
    queueLengthTimeProduct := 0, allBusyTime := 0, completedCustomers := 0,
    periodDuration := duration }

/-- Source `PeriodResults::addCustomer`. -/
def PeriodResults.addCustomer (r : PeriodResults) (c : Customer) : PeriodResults :=
  { r with totalWaitingTime := r.totalWaitingTime + (c.serviceStartTime - c.arrivalTime),
           totalSystemTime := r.totalSystemTime + (c.departureTime - c.arrivalTime),
           completedCustomers := r.completedCustomers + 1 }

/-- Source `PeriodResults::addBusyTime`. -/
def PeriodResults.addBusyTime (r : PeriodResults) (time : ℚ) : PeriodResults :=
  { r with totalBusyTime := r.totalBusyTime + time }

/-- Source `PeriodResults::addQueueLengthTime`. -/
def PeriodResults.addQueueLengthTime (r : PeriodResults) (queueLength time : ℚ) :
    PeriodResults :=
  { r with queueLengthTimeProduct := r.queueLengthTimeProduct + queueLength * time }

/-- Source `PeriodResults::addAllBusyTime`. -/
def PeriodResults.addAllBusyTime (r : PeriodResults) (time : ℚ) : PeriodResults :=
  { r with allBusyTime := r.allBusyTime + time }

/-- Source `PeriodResults::getAvgWaitingTime`. -/
def PeriodResults.getAvgWaitingTime (r : PeriodResults) : Option ℚ :=
  if r.completedCustomers > 0 then divDouble r.totalWaitingTime (r.completedCustomers : ℚ)
  else some 0

/-- Source `PeriodResults::getAvgSystemTime`. -/
def PeriodResults.getAvgSystemTime (r : PeriodResults) : Option ℚ :=
  if r.completedCustomers > 0 then divDouble r.totalSystemTime (r.completedCustomers : ℚ)
  else some 0

/-- Source `PeriodResults::getUtilizationRate`. -/
def PeriodResults.getUtilizationRate (r : PeriodResults) (servers : Int) : Option ℚ :=
  divDouble r.totalBusyTime (r.periodDuration * (servers : ℚ))

/-- Source `PeriodResults::getAvgQueueLength`. -/
def PeriodResults.getAvgQueueLength (r : PeriodResults) : Option ℚ :=
  divDouble r.queueLengthTimeProduct r.periodDuration

/-- Source `PeriodResults::getProbAllBusy`. -/
def PeriodResults.getProbAllBusy (r : PeriodResults) : Option ℚ :=
  divDouble r.allBusyTime r.periodDuration

/-- The variable `serverCount` of the report loop "Results for each period". -/
def serverCount (i : Nat) : Int :=
  if i = 0 then 2 else if i = 1 then 4 else 3

/-- Source `Q2::getActiveServers`. -/
def getActiveServers (currentTime : ℚ) : Nat :=
  if currentTime < 2 then 2 else if currentTime < 5 then 4 else 3

/-- Source `Q2::getPeriod`. -/
def getPeriod (time : ℚ) : Nat :=
  if time < 2 then 0 else if time < 5 then 1 else 2

/-- The loop of `Q2::findAvailableServer` from index `i` on, over the remaining
slots and with `k` iterations left; `none` is the return value `-1`. -/
def findAvailableServerFrom : List Server → Nat → Nat → Option Nat
  | [], _, _ => none
  | _ :: _, 0, _ => none
  | sv :: rest, k + 1, i =>
    if !sv.isBusy then some i else findAvailableServerFrom rest k (i + 1)

/-- Source `Q2::findAvailableServer`: the lowest index below `activeServers` whose
slot is idle. -/
def findAvailableServer (servers : List Server) (activeServers : Nat) : Option Nat :=
  findAvailableServerFrom servers activeServers 0

/-- Source `Q2::countBusyServers`. -/
def countBusyServers : List Server → Nat → Nat
  | [], _ => 0
  | _ :: _, 0 => 0
  | sv :: rest, k + 1 => (if sv.isBusy then 1 else 0) + countBusyServers rest k

/-- The loop "Find earliest departure among active servers" from index `i` on,
with `k` iterations left; the accumulator is the pair
`(nextDeparture, departingServer)`, where `departingServer = none` is `-1`. -/
def earliestDepartureFrom :
    List Server → Nat → Nat → Option ℚ × Option Nat → Option ℚ × Option Nat
  | sv :: rest, k + 1, i, acc =>
    if sv.isBusy && ltSentinel sv.busyUntil acc.1 then
      earliestDepartureFrom rest k (i + 1) (some sv.busyUntil, some i)
    else earliestDepartureFrom rest k (i + 1) acc
  | _, _, _, acc => acc

/-- The pair `(nextDeparture, departingServer)` after the scan of the first
`activeServers` slots. -/
def earliestDeparture (servers : List Server) (activeServers : Nat) :
    Option ℚ × Option Nat :=
  earliestDepartureFrom servers activeServers 0 (none, none)

/-- The update `v[i].f()` of one element of a vector. -/
def updateAt {α : Type} (f : α → α) : List α → Nat → List α
  | [], _ => []
  | x :: xs, 0 => f x :: xs
  | x :: xs, i + 1 => x :: updateAt f xs i

/-- Local variables of `Q2::runSimulation` that live across loop iterations. -/
structure State where
  q : List Customer
  completedCustomers : List Customer
  servers : List Server
  periodResults : List PeriodResults
  entireDayResults : PeriodResults
  currentTime : ℚ
  nextArrival : ℚ
  lastEventTime : ℚ
  totalArrivals : Nat
  rng : Nat
deriving DecidableEq, Repr

/-- Declarations before the loop of `Q2::runSimulation`. -/
def init (draws : ℕ → ℚ) : State :=
  { q := [], completedCustomers := [], servers := List.replicate maxServers Server.mk0,
    periodResults := [PeriodResults.mk1 2, PeriodResults.mk1 3, PeriodResults.mk1 3],
    entireDayResults := PeriodResults.mk1 SIMULATION_TIME,
    currentTime := 0, nextArrival := draws 0, lastEventTime := 0, totalArrivals := 0,
    rng := 1 }

/-- The blocks "Update metrics for time interval" and "Advance time": the
interval metrics are credited with the state before the event, then the clock
is set to `nextEventTime`. -/
def advanceClock (activeServers : Nat) (nextEventTime : ℚ) (s : State) : State :=
  let currentPeriod := getPeriod s.currentTime
  let timeInterval := nextEventTime - s.currentTime
  if timeInterval > 0 then
    let pr1 := updateAt (fun r => r.addQueueLengthTime (s.q.length : ℚ) timeInterval)
      s.periodResults currentPeriod
    let ed1 := s.entireDayResults.addQueueLengthTime (s.q.length : ℚ) timeInterval
    if countBusyServers s.servers activeServers = activeServers then
      { s with periodResults := updateAt (fun r => r.addAllBusyTime timeInterval) pr1 currentPeriod,
               entireDayResults := ed1.addAllBusyTime timeInterval,
               currentTime := nextEventTime, lastEventTime := nextEventTime }
    else
      { s with periodResults := pr1, entireDayResults := ed1,
               currentTime := nextEventTime, lastEventTime := nextEventTime }
  else
    { s with currentTime := nextEventTime, lastEventTime := nextEventTime }

/-- The block "Handle arrival"; `s.currentTime` is already the event time. -/
def handleArrival (draws : ℕ → ℚ) (activeServers : Nat) (s : State) : Option State :=
  match findAvailableServer s.servers activeServers with
  | some availableServer =>
    let customer : Customer :=
      { arrivalTime := s.currentTime, serviceStartTime := s.currentTime,
        serviceTime := draws s.rng, departureTime := s.currentTime + draws s.rng,
        serverId := (availableServer : Int) }
    some { s with totalArrivals := s.totalArrivals + 1,
                  servers := s.servers.set availableServer
                    { isBusy := true, currentCustomer := some customer,
                      busyUntil := customer.departureTime },
                  nextArrival := s.currentTime + draws (s.rng + 1), rng := s.rng + 2 }
  | none =>
    some { s with totalArrivals := s.totalArrivals + 1,
                  q := s.q ++ [Customer.mk1 s.currentTime],
                  nextArrival := s.currentTime + draws s.rng, rng := s.rng + 1 }

/-- The statements "Free the server" applied to one slot. -/
def Server.free (sv : Server) : Server :=
  { sv with isBusy := false, currentCustomer := none }

/-- The block "Handle departure"; `s.currentTime` is already the event time and
`departingServer` is the index found by the scan (`none` for `-1`). -/
def handleDeparture (draws : ℕ → ℚ) (activeServers : Nat) (departingServer : Option Nat)
    (s : State) : Option State :=
  match departingServer with
  | none => none
  | some d =>
    match s.servers[d]? with
    | none => none
    | some sv =>
      match sv.currentCustomer with
      | none => none
      | some served =>
        let departurePeriod := getPeriod served.departureTime
        let pr := updateAt (fun r => (r.addCustomer served).addBusyTime served.serviceTime)
          s.periodResults departurePeriod
        let ed := (s.entireDayResults.addCustomer served).addBusyTime served.serviceTime
        let servers1 := s.servers.set d sv.free
        let s1 : State :=
          { s with completedCustomers := s.completedCustomers ++ [served],
                   periodResults := pr, entireDayResults := ed, servers := servers1 }
        match s.q with
        | [] => some s1
        | nextCustomer :: rest =>
          match findAvailableServer servers1 activeServers with
          | some availableServer =>
            let c : Customer :=
              { nextCustomer with serviceStartTime := s.currentTime,
                                  serviceTime := draws s.rng,
                                  departureTime := s.currentTime + draws s.rng,
                                  serverId := (availableServer : Int) }
            some { s1 with q := rest,
                           servers := servers1.set availableServer
                             { isBusy := true, currentCustomer := some c,
                               busyUntil := c.departureTime },
                           rng := s.rng + 1 }
          | none => some { s1 with q := rest ++ [nextCustomer] }

/-- The loop "Handle server reduction" over the slots from index `activeServers`
to the end of the vector (`maxServers` is its size): `k` counts the slots still
to be skipped.  Returns the new slots and the new queue. -/
def serverReductionFrom :
    List Server → Nat → List Customer → Option (List Server × List Customer)
  | [], _, q => some ([], q)
  | sv :: rest, k + 1, q =>
    match serverReductionFrom rest k q with
    | none => none
    | some (rest1, q1) => some (sv :: rest1, q1)
  | sv :: rest, 0, q =>
    if sv.isBusy then
      match sv.currentCustomer with
      | none => none
      | some interrupted =>
        match serverReductionFrom rest 0 (q ++ [interrupted]) with
        | none => none
        | some (rest1, q1) => some (sv.free :: rest1, q1)
    else
      match serverReductionFrom rest 0 q with
      | none => none
      | some (rest1, q1) => some (sv :: rest1, q1)

/-- The block "Handle server reduction". -/
def handleServerReduction (activeServers : Nat) (s : State) : Option State :=
  match serverReductionFrom s.servers activeServers s.q with
  | none => none
  | some (servers1, q1) => some { s with servers := servers1, q := q1 }

/-- The flag `isArrivalEvent` of an iteration started in state `s`. -/
def isArrivalEvent (s : State) : Bool :=
  ltSentinel s.nextArrival (earliestDeparture s.servers (getActiveServers s.currentTime)).1

/-- The first part of one iteration of the loop body, up to and including the
arrival or departure handler.  `activeServers` is computed once, from the clock
at the top of the iteration; the scan, the metrics and the handlers use this
value although the clock advances in between. -/
def handleEvent (draws : ℕ → ℚ) (s : State) : Option State :=
  let activeServers := getActiveServers s.currentTime
  let scan := earliestDeparture s.servers activeServers
  let nextEventTime := minSentinel s.nextArrival scan.1
  let s1 := advanceClock activeServers nextEventTime s
  if isArrivalEvent s then handleArrival draws activeServers s1
  else handleDeparture draws activeServers scan.2 s1

/-- One iteration of the body of `while (currentTime < SIMULATION_TIME)`: the
event, then the server-reduction loop, which still uses the `activeServers`
computed at the top of the iteration. -/
def step (draws : ℕ → ℚ) (s : State) : Option State :=
  match handleEvent draws s with
  | none => none
  | some s2 => handleServerReduction (getActiveServers s.currentTime) s2

/-- The loop `while (currentTime < SIMULATION_TIME)` with at most `fuel`
iterations. -/
def eventLoop (draws : ℕ → ℚ) : Nat → State → Run State
  | 0, s => if s.currentTime < SIMULATION_TIME then Run.outOfFuel else Run.finished s
  | fuel + 1, s =>
    if s.currentTime < SIMULATION_TIME then
      match step draws s with
      | none => Run.fault
      | some s1 => eventLoop draws fuel s1
    else Run.finished s

/-- The event loop of `Q2::runSimulation` from its initial state. -/
def runSimulation (draws : ℕ → ℚ) (fuel : Nat) : Run State :=
  eventLoop draws fuel (init draws)

/-- The state at the head of the loop after exactly `n` iterations; `none` when
the loop has exited before or an iteration has faulted. -/
def stateAfter (draws : ℕ → ℚ) : Nat → Option State
  | 0 => some (init draws)
  | n + 1 =>
    match stateAfter draws n with
    | some s => if s.currentTime < SIMULATION_TIME then step draws s else none
    | none => none

/-- The local `entireDayUtilization` of the report: `totalBusyTime / 25.0`. -/
def entireDayUtilization (s : State) : Option ℚ :=
  divDouble s.entireDayResults.totalBusyTime 25

/-- Members of class `Q2` other than the generator. -/
structure Q2 where
  lambda : ℚ
  mu : ℚ
  maxServers : Nat
deriving DecidableEq, Repr

/-- Source constructor `Q2(double l, double m)`: it stores its arguments, sets
`maxServers` to 4 and seeds the generator; `none` would be a construction that
fails, and the constructor has no such path. -/
def Q2.construct (l m : ℚ) : Option Q2 :=
  some { lambda := l, mu := m, maxServers := 4 }

/-- What `analyzeServerEffect` does up to the event loop: construct the object,
then run. -/
def constructAndRun (l m : ℚ) (draws : ℕ → ℚ) (fuel : Nat) : Option (Run State) :=
  match Q2.construct l m with
  | none => none
  | some _ => some (runSimulation draws fuel)

/-- The state at the head of the loop after `n` iterations of the run on `draws`
(the initial state when the run does not get that far). -/
def stateAt (draws : ℕ → ℚ) (n : Nat) : State :=
  (stateAfter draws n).getD (init draws)

/-- The state inside iteration `n + 1` of the run on `draws`, after the event
handler and before the server-reduction loop (the initial state when the run
does not get that far). -/
def midStateAt (draws : ℕ → ℚ) (n : Nat) : State :=
  (handleEvent draws (stateAt draws n)).getD (init draws)

/-- The occupants of the busy slots with index at least `k`, in index order:
the customers that the server-reduction loop displaces. -/
def displaced (servers : List Server) (k : Nat) : List Customer :=
  ((servers.drop k).filter (fun sv => sv.isBusy)).filterMap (fun sv => sv.currentCustomer)

/-- Draws of a run in which four customers arrive at time 3 and occupy the four
slots until time 13, a fifth arrives at time 5 and a sixth at time 6. -/
def drawsShrinkQueued : ℕ → ℚ
  | 0 => 3
  | 1 => 10
  | 2 => 0
  | 3 => 10
  | 4 => 0
  | 5 => 10
  | 6 => 0
  | 7 => 10
  | 8 => 2
  | 9 => 1
  | _ => 100

/-- Draws of a run in which four customers arrive at time 3 with services ending
at times 6, 7, 5 and 13 on slots 0 to 3, and no other customer arrives before
time 103; the customer displaced from slot 3 is served again for one hour. -/
def drawsShrinkIdle : ℕ → ℚ
  | 0 => 3
  | 1 => 3
  | 2 => 0
  | 3 => 4
  | 4 => 0
  | 5 => 2
  | 6 => 0
  | 7 => 10
  | 8 => 100
  | 9 => 1
  | _ => 100

/-- Draws of a run in which two customers arrive at time 1 and are served for
ten hours each, and a third arrives at time 3. -/
def drawsGrow : ℕ → ℚ
  | 0 => 1
  | 1 => 10
  | 2 => 0
  | 3 => 10
  | 4 => 2
  | _ => 100

/-- The fourth customer of the runs on `drawsShrinkQueued` and `drawsShrinkIdle`,
as recorded by slot 3: arrived and started at time 3 for a service of 10 hours. -/
def fourthCustomer : Customer :=
  { arrivalTime := 3, serviceStartTime := 3, serviceTime := 10, departureTime := 13,
    serverId := 3 }

/-- The slot record written by a handler that assigns customer `c` to slot `i` at
time `t` with the drawn service time `st`. -/
def assigned (c : Customer) (i : Nat) (t st : ℚ) : Server :=
  { isBusy := true,
    currentCustomer := some { c with serviceStartTime := t, serviceTime := st,
                                     departureTime := t + st, serverId := (i : Int) },
    busyUntil := t + st }

/-- Draws of a run inside the horizon that credits 13 server-hours to the period
2-5h: one customer is served from time 0 to time 2, then four customers arrive
at time 2 and are served for 2.75 hours each; the next arrival is at time 102. -/
def drawsBusyPeriod : ℕ → ℚ
  | 0 => 0
  | 1 => 2
  | 2 => 2
  | 3 => 11 / 4
  | 4 => 0
  | 5 => 11 / 4
  | 6 => 0
  | 7 => 11 / 4
  | 8 => 0
  | 9 => 11 / 4
  | _ => 100

/-- Draws of a run in which two customers arrive at time 1 and are served for
ten hours each, and the next arrival is at time 6. -/
def drawsAllBusy : ℕ → ℚ
  | 0 => 1
  | 1 => 10
  | 2 => 0
  | 3 => 10
  | 4 => 5
  | _ => 100

/-- Draws of a run within the range of `getExponential` for the rates of `main`
(an interarrival time is at most `53 ln 2 / 40 > 7/8` and a service time at
most `53 ln 2 / 15 > 9/4`): two customers arrive at time 0, every service
takes `9/4` hours and the later arrivals are `7/8` hours apart. -/
def drawsAllBusyShort : ℕ → ℚ :=
  fun i => ([0, 9 / 4, 0, 9 / 4, 7 / 8, 7 / 8, 7 / 8, 9 / 4, 9 / 4, 9 / 4, 7 / 8, 9 / 4,
    7 / 8, 7 / 8, 9 / 4, 9 / 4, 7 / 8, 9 / 4, 7 / 8, 9 / 4, 7 / 8, 9 / 4, 7 / 8,
    9 / 4] : List ℚ).getD i (7 / 8)

/-- Draws of a run whose only departure is processed after the horizon: the
customer arrives at time 1 and is served for 1000 hours. -/
def drawsLateDeparture : ℕ → ℚ
  | 0 => 1
  | 1 => 1000
  | _ => 2000

/-- The completed customers whose departure time falls in period `p` according to
`getPeriod`. -/
def attributed (cs : List Customer) (p : Nat) : List Customer :=
  cs.filter (fun c => decide (getPeriod c.departureTime = p))

/-- The part of the loop invariant of `Q2::runSimulation` about the bounds of the
accumulators: the period durations are 2, 3, 3 and 8; busy times and all-busy
times are non-negative; the all-busy time of a period is at most the whole-day
all-busy time, which is at most the clock. -/
def MetricsInv (s : State) : Prop :=
  s.periodResults.map (fun r => r.periodDuration) = [2, 3, 3] ∧
  s.entireDayResults.periodDuration = SIMULATION_TIME ∧
  (∀ r ∈ s.periodResults, 0 ≤ r.totalBusyTime ∧ 0 ≤ r.allBusyTime ∧
      r.allBusyTime ≤ s.entireDayResults.allBusyTime) ∧
  0 ≤ s.entireDayResults.totalBusyTime ∧
  s.entireDayResults.allBusyTime ≤ s.currentTime

/-- The part of the loop invariant of `Q2::runSimulation` about attribution: there
are three period records, record `p` counts exactly the completed customers
with `getPeriod departureTime = p` and sums their service times, and the
whole-day record counts all completed customers. -/
def AttribInv (s : State) : Prop :=
  s.periodResults.length = 3 ∧
  (∀ p r, s.periodResults[p]? = some r →
      r.completedCustomers = (attributed s.completedCustomers p).length ∧
      r.totalBusyTime = ((attributed s.completedCustomers p).map (fun c => c.serviceTime)).sum) ∧
  s.entireDayResults.completedCustomers = s.completedCustomers.length ∧
  s.entireDayResults.totalBusyTime = (s.completedCustomers.map (fun c => c.serviceTime)).sum

/-- Draws of a run in which a new arrival overtakes a waiting customer: two
customers arrive at time 1 and are served for ten hours each, a third arrives at
time 3 and a fourth at time 4. -/
def drawsOvertake : ℕ → ℚ
  | 0 => 1
  | 1 => 10
  | 2 => 0
  | 3 => 10
  | 4 => 2
  | 5 => 1
  | 6 => 1
  | _ => 100

/-- The part of the loop invariant of `Q2::runSimulation` about occupancy: a busy
slot holds a customer (`currentCustomer` is not null) whose `departureTime` is
the slot's `busyUntil`. -/
def OccInv (s : State) : Prop :=
  ∀ sv ∈ s.servers, sv.isBusy = true →
    ∃ c, sv.currentCustomer = some c ∧ c.departureTime = sv.busyUntil

/-- The timestamps of a customer whose service has started are consistent:
`arrivalTime ≤ serviceStartTime ≤ departureTime` and
`serviceTime = departureTime - serviceStartTime`. -/
def Customer.Served (c : Customer) : Prop :=
  c.arrivalTime ≤ c.serviceStartTime ∧ c.serviceStartTime ≤ c.departureTime ∧
  c.serviceTime = c.departureTime - c.serviceStartTime

/-- The invariant after the clock has advanced inside an iteration that uses
`activeServers = k`: completed customers and slot occupants have consistent
timestamps, nobody in the system arrived after the clock, the busy slots among
the first `k` end their service at or after the clock, and the next arrival is
not in the past. -/
def MidInv (k : Nat) (s : State) : Prop :=
  (∀ c ∈ s.completedCustomers, c.Served) ∧
  (∀ sv ∈ s.servers, ∀ c, sv.currentCustomer = some c →
      c.Served ∧ c.arrivalTime ≤ s.currentTime) ∧
  (∀ sv ∈ s.servers.take k, sv.isBusy = true → s.currentTime ≤ sv.busyUntil) ∧
  s.currentTime ≤ s.nextArrival ∧
  (∀ c ∈ s.q, c.arrivalTime ≤ s.currentTime)

/-- The loop invariant of `Q2::runSimulation`: as `MidInv`, for all slots. -/
def Inv (s : State) : Prop :=
  (∀ c ∈ s.completedCustomers, c.Served) ∧
  (∀ sv ∈ s.servers, ∀ c, sv.currentCustomer = some c →
      c.Served ∧ c.arrivalTime ≤ s.currentTime) ∧
  (∀ sv ∈ s.servers, sv.isBusy = true → s.currentTime ≤ sv.busyUntil) ∧
  s.currentTime ≤ s.nextArrival ∧
  (∀ c ∈ s.q, c.arrivalTime ≤ s.currentTime)

end Src1

/-! ## Double arithmetic: the finite sentinel and rounding

The embeddings above take a `double` for an exact rational and the sentinel
for a value above every time.  The embeddings `Src1.Dbl`, `Src2.Dbl` and
`Src3.Dbl` below repeat the three loops with the two features of `double` that
the programs can observe:

* `numeric_limits<double>::max()` is the finite number `dblMax`, so that the test
  `nextArrival < nextDeparture` is false when `nextArrival` has reached it
  (`ltMax`, `minMax`; `none` still stands for "the variable holds the sentinel");
* the result of every `+`, `-`, `*` and `/` on doubles is rounded by a function
  `fl : ℚ → ℚ`, a parameter of the embedding.  With `fl = id` the arithmetic is
  exact; `roundDouble` is rounding to the nearest double, ties to even.  The
  theorems about rounded runs hold for every `fl` that is monotone and leaves
  its own results and the doubles unchanged (`IsRounding`), as `id` and
  `roundDouble` do.

Conversions of `int` and `size_t` counters to `double` are exact for the values
that occur (below `2 ^ 53`) and are not rounded.  Overflow to an infinity is not
modelled: `roundDouble` is meant for values of magnitude at most `dblMax`.
-/

/-- The value of `numeric_limits<double>::max()`: `(2 ^ 53 - 1) * 2 ^ 971`. -/
def dblMax : ℚ := (2 ^ 53 - 1) * 2 ^ 971

/-- The comparison `a < b` of the source when `b` may hold the sentinel, which is
the number `dblMax`. -/
def ltMax (a : ℚ) : Option ℚ → Bool
  | none => decide (a < dblMax)
  | some d => decide (a < d)

/-- The call `std::min(a, b)` (which returns `b` when `b < a` and `a` otherwise)
when `b` may hold the sentinel, which is the number `dblMax`. -/
def minMax (a : ℚ) : Option ℚ → ℚ
  | none => if dblMax < a then dblMax else a
  | some d => if d < a then d else a

/-- The number of halvings that bring `n` below 2, with at most `fuel` steps:
the position of the leading binary digit of `n` when `fuel ≥ n`. -/
def log2Fuel : Nat → Nat → Nat
  | 0, _ => 0
  | fuel + 1, n => if 2 ≤ n then log2Fuel fuel (n / 2) + 1 else 0

/-- The exponent `e` with `2 ^ e ≤ |x| < 2 ^ (e + 1)` of a rational `x ≠ 0`,
computed from the leading binary digits of its numerator and denominator. -/
def binade (x : ℚ) : ℤ :=
  let e : ℤ := (log2Fuel x.num.natAbs x.num.natAbs : ℤ) - (log2Fuel x.den x.den : ℤ)
  if (2 : ℚ) ^ e ≤ |x| then e else e - 1

/-- The distance between consecutive doubles around `x`: 53 significant binary
digits, and the fixed spacing `2 ^ (-1074)` in the subnormal range. -/
def ulp (x : ℚ) : ℚ := 2 ^ (max (binade x) (-1022) - 52)

/-- Rounding to the nearest integer, ties to the even one. -/
def roundHalfEven (x : ℚ) : ℤ :=
  if x - ⌊x⌋ < 1 / 2 then ⌊x⌋
  else if 1 / 2 < x - ⌊x⌋ then ⌊x⌋ + 1
  else if ⌊x⌋ % 2 = 0 then ⌊x⌋ else ⌊x⌋ + 1

/-- Rounding to the nearest `double` (IEEE 754 binary64, round to nearest, ties
to even) of a rational of magnitude at most `dblMax`. -/
def roundDouble (x : ℚ) : ℚ := if x = 0 then 0 else roundHalfEven (x / ulp x) * ulp x

/-- The stream of draws all equal to `numeric_limits<double>::max()`. -/
def drawsMax : ℕ → ℚ := fun _ => dblMax

/-- The properties of rounding to the nearest double on which the proofs about
rounded runs rest: rounding is monotone, it leaves its own results unchanged,
and it leaves unchanged every number `m * 2 ^ j` with `|m| ≤ 2 ^ 53` and
`j ≥ -1074` (the doubles are of this form; so are 0 and 1).  Exact arithmetic
(`id`) and `roundDouble` have them. -/
def IsRounding (fl : ℚ → ℚ) : Prop :=
  Monotone fl ∧ (∀ x, fl (fl x) = fl x) ∧
  ∀ m j : ℤ, |m| ≤ 2 ^ 53 → -1074 ≤ j → fl ((m : ℚ) * 2 ^ j) = (m : ℚ) * 2 ^ j

/-- The body of `getExponential`, `-log(1.0 - u) / rate`, with the difference and
the quotient rounded by `fl`; the library function `log`, from doubles to
doubles, is a parameter. -/
def Dbl.getExponential (fl : ℚ → ℚ) (log : ℚ → ℚ) (rate u : ℚ) : ℚ :=
  fl (-log (fl (1 - u)) / rate)

namespace Src2.Dbl

/-- The block that starts the service of `q.front()` at `currentTime`, the sum
`currentTime + c.serviceTime` being rounded. -/
def startService (fl : ℚ → ℚ) (draws : ℕ → ℚ) (rng : Nat) (currentTime : ℚ) :
    List Customer → Option (List Customer × ℚ)
  | [] => none
  | c :: rest =>
    some ({ c with serviceStartTime := currentTime, serviceTime := draws rng,
                   departureTime := fl (currentTime + draws rng) } :: rest,
          fl (currentTime + draws rng))

/-- The arrival branch of the loop body, every operation on doubles rounded. -/
def arrival (fl : ℚ → ℚ) (capacity : Int) (draws : ℕ → ℚ) (s : State) : Option State :=
  let currentTime := s.nextArrival
  let qltp := fl (s.queueLengthTimeProduct +
    fl ((s.q.length : ℚ) * fl (currentTime - s.lastEventTime)))
  let full := if s.q.length = toSizeT capacity then
      fl (s.fullSystemTime + fl (currentTime - s.lastEventTime)) else s.fullSystemTime
  if s.q.length < toSizeT capacity then
    let q1 := s.q ++ [Customer.mk1 currentTime]
    if q1.length = 1 then
      match startService fl draws s.rng currentTime q1 with
      | none => none
      | some (q2, dep) =>
        some { s with q := q2, currentTime := currentTime, totalArrivals := s.totalArrivals + 1,
                      queueLengthTimeProduct := qltp, fullSystemTime := full,
                      nextDeparture := some dep,
                      nextArrival := fl (currentTime + draws (s.rng + 1)),
                      lastEventTime := currentTime, rng := s.rng + 2 }
    else
      some { s with q := q1, currentTime := currentTime, totalArrivals := s.totalArrivals + 1,
                    queueLengthTimeProduct := qltp, fullSystemTime := full,
                    nextArrival := fl (currentTime + draws s.rng),
                    lastEventTime := currentTime, rng := s.rng + 1 }
  else
    some { s with currentTime := currentTime, totalArrivals := s.totalArrivals + 1,
                  queueLengthTimeProduct := qltp, fullSystemTime := full,
                  rejectedCustomers := s.rejectedCustomers + 1,
                  nextArrival := fl (currentTime + draws s.rng),
                  lastEventTime := currentTime, rng := s.rng + 1 }

/-- The departure branch of the loop body, every operation on doubles rounded. -/
def departure (fl : ℚ → ℚ) (capacity : Int) (draws : ℕ → ℚ) (s : State) : Option State :=
  match s.nextDeparture, s.q with
  | some currentTime, served :: rest =>
    let qltp := fl (s.queueLengthTimeProduct +
      fl ((s.q.length : ℚ) * fl (currentTime - s.lastEventTime)))
    let full := if s.q.length = toSizeT capacity then
        fl (s.fullSystemTime + fl (currentTime - s.lastEventTime)) else s.fullSystemTime
    match startService fl draws s.rng currentTime rest with
    | some (q2, dep) =>
      some { s with q := q2, completedCustomers := s.completedCustomers ++ [served],
                    currentTime := currentTime, queueLengthTimeProduct := qltp,
                    fullSystemTime := full, busyTime := fl (s.busyTime + served.serviceTime),
                    nextDeparture := some dep, lastEventTime := currentTime,
                    rng := s.rng + 1 }
    | none =>
      some { s with q := rest, completedCustomers := s.completedCustomers ++ [served],
                    currentTime := currentTime, queueLengthTimeProduct := qltp,
                    fullSystemTime := full, busyTime := fl (s.busyTime + served.serviceTime),
                    nextDeparture := none, lastEventTime := currentTime }
  | _, _ => none

/-- The event test of the loop body, `nextArrival < nextDeparture`, where
`nextDeparture` holds `dblMax` when no departure is scheduled. -/
def isArrivalEvent (s : State) : Bool := ltMax s.nextArrival s.nextDeparture

/-- One iteration of the body of `while (currentTime < SIMULATION_TIME)`. -/
def step (fl : ℚ → ℚ) (capacity : Int) (draws : ℕ → ℚ) (s : State) : Option State :=
  if isArrivalEvent s then arrival fl capacity draws s else departure fl capacity draws s

/-- The loop `while (currentTime < SIMULATION_TIME)` run for at most `fuel`
iterations from state `s`. -/
def eventLoop (fl : ℚ → ℚ) (capacity : Int) (draws : ℕ → ℚ) : Nat → State → Run State
  | 0, s => if s.currentTime < SIMULATION_TIME then Run.outOfFuel else Run.finished s
  | fuel + 1, s =>
    if s.currentTime < SIMULATION_TIME then
      match step fl capacity draws s with
      | none => Run.fault
      | some s1 => eventLoop fl capacity draws fuel s1
    else Run.finished s

/-- The event loop of `Q2::runSimulation` from its initial state. -/
def runSimulation (fl : ℚ → ℚ) (capacity : Int) (draws : ℕ → ℚ) (fuel : Nat) : Run State :=
  eventLoop fl capacity draws fuel (init draws)

/-- The accumulation of `totalWaitingTime` over `completedCustomers`. -/
def totalWaitingTime (fl : ℚ → ℚ) (cs : List Customer) : ℚ :=
  cs.foldl (fun acc c => fl (acc + fl (c.serviceStartTime - c.arrivalTime))) 0

/-- The accumulation of `totalSystemTime` over `completedCustomers`. -/
def totalSystemTime (fl : ℚ → ℚ) (cs : List Customer) : ℚ :=
  cs.foldl (fun acc c => fl (acc + fl (c.departureTime - c.arrivalTime))) 0

/-- The block "Calculate performance measures" of `Q2::runSimulation`, every
quotient rounded. -/
def performanceMeasures (fl : ℚ → ℚ) (s : State) : SimulationResults :=
  { avgWaitingTime :=
      (divDouble (totalWaitingTime fl s.completedCustomers)
        (s.completedCustomers.length : ℚ)).map fl,
    avgSystemTime :=
      (divDouble (totalSystemTime fl s.completedCustomers)
        (s.completedCustomers.length : ℚ)).map fl,
    utilizationRate := (divDouble s.busyTime s.currentTime).map fl,
    avgQueueLength := (divDouble s.queueLengthTimeProduct s.currentTime).map fl,
    probSystemFull := (divDouble s.fullSystemTime s.currentTime).map fl,
    probRejection := (divDouble (s.rejectedCustomers : ℚ) (s.totalArrivals : ℚ)).map fl }

end Src2.Dbl

namespace Src2.Dbl

/-- The part of the loop invariant of `Q2::runSimulation` that survives rounding,
for non-negative draws: the clock is non-negative, equals `lastEventTime` and is
not after the next arrival, which is a double; the head of the queue is the
customer in service, its departure time is the rounded sum of its service start
and service time, and the busy time so far fits before its service start; the
accumulators are non-negative; rejected and queued customers are among the
arrivals. -/
def RoundedInv (fl : ℚ → ℚ) (s : State) : Prop :=
  s.lastEventTime = s.currentTime ∧
  0 ≤ s.currentTime ∧ s.currentTime ≤ s.nextArrival ∧ fl s.nextArrival = s.nextArrival ∧
  0 ≤ s.busyTime ∧
  (match s.q with
    | [] => s.busyTime ≤ s.currentTime
    | c :: _ => s.nextDeparture = some c.departureTime ∧
        c.departureTime = fl (c.serviceStartTime + c.serviceTime) ∧ 0 ≤ c.serviceTime ∧
        s.busyTime ≤ c.serviceStartTime ∧ c.serviceStartTime ≤ s.currentTime ∧
        s.currentTime ≤ c.departureTime) ∧
  0 ≤ s.fullSystemTime ∧ 0 ≤ s.queueLengthTimeProduct ∧
  s.rejectedCustomers + s.q.length ≤ s.totalArrivals ∧
  (s.totalArrivals = 0 → s.currentTime = 0)

end Src2.Dbl

namespace Src3.Dbl

/-- The block that starts the service of `q.front()` at `currentTime`, the sum
`currentTime + c.serviceTime` being rounded. -/
def startService (fl : ℚ → ℚ) (draws : ℕ → ℚ) (rng : Nat) (currentTime : ℚ) :
    List Customer → Option (List Customer × ℚ)
  | [] => none
  | c :: rest =>
    some ({ c with serviceStartTime := currentTime, serviceTime := draws rng,
                   departureTime := fl (currentTime + draws rng) } :: rest,
          fl (currentTime + draws rng))

/-- The arrival branch of the first loop, every operation on doubles rounded. -/
def arrival (fl : ℚ → ℚ) (draws : ℕ → ℚ) (s : State) : Option State :=
  let currentTime := s.nextArrival
  let qltp := fl (s.queueLengthTimeProduct +
    fl ((s.q.length : ℚ) * fl (currentTime - s.lastEventTime)))
  let empty := if s.q.isEmpty then fl (s.emptyQueueTime + fl (currentTime - s.lastEventTime))
    else s.emptyQueueTime
  let q1 := s.q ++ [Customer.mk1 currentTime]
  let maxLen := max s.maxQueueLength q1.length
  if q1.length = 1 then
    match startService fl draws s.rng currentTime q1 with
    | none => none
    | some (q2, dep) =>
      some { s with q := q2, currentTime := currentTime, totalArrivals := s.totalArrivals + 1,
                    queueLengthTimeProduct := qltp, emptyQueueTime := empty,
                    maxQueueLength := maxLen, nextDeparture := some dep,
                    nextArrival := fl (currentTime + draws (s.rng + 1)),
                    lastEventTime := currentTime, rng := s.rng + 2 }
  else
    some { s with q := q1, currentTime := currentTime, totalArrivals := s.totalArrivals + 1,
                  queueLengthTimeProduct := qltp, emptyQueueTime := empty,
                  maxQueueLength := maxLen,
                  nextArrival := fl (currentTime + draws s.rng),
                  lastEventTime := currentTime, rng := s.rng + 1 }

/-- The departure branch of the first loop and the body of the drain loop, every
operation on doubles rounded. -/
def departure (fl : ℚ → ℚ) (draws : ℕ → ℚ) (s : State) : Option State :=
  match s.nextDeparture, s.q with
  | some currentTime, served :: rest =>
    let qltp := fl (s.queueLengthTimeProduct +
      fl ((s.q.length : ℚ) * fl (currentTime - s.lastEventTime)))
    let empty := if s.q.isEmpty then fl (s.emptyQueueTime + fl (currentTime - s.lastEventTime))
      else s.emptyQueueTime
    match startService fl draws s.rng currentTime rest with
    | some (q2, dep) =>
      some { s with q := q2, completedCustomers := s.completedCustomers ++ [served],
                    currentTime := currentTime, queueLengthTimeProduct := qltp,
                    emptyQueueTime := empty, busyTime := fl (s.busyTime + served.serviceTime),
                    nextDeparture := some dep, lastEventTime := currentTime,
                    rng := s.rng + 1 }
    | none =>
      some { s with q := rest, completedCustomers := s.completedCustomers ++ [served],
                    currentTime := currentTime, queueLengthTimeProduct := qltp,
                    emptyQueueTime := empty, busyTime := fl (s.busyTime + served.serviceTime),
                    nextDeparture := none, lastEventTime := currentTime }
  | _, _ => none

/-- The event test of the first loop, `nextArrival < nextDeparture`, where
`nextDeparture` holds `dblMax` when no departure is scheduled. -/
def isArrivalEvent (s : State) : Bool := ltMax s.nextArrival s.nextDeparture

/-- One iteration of the body of `while (totalArrivals < ARRIVALS)`. -/
def step (fl : ℚ → ℚ) (draws : ℕ → ℚ) (s : State) : Option State :=
  if isArrivalEvent s then arrival fl draws s else departure fl draws s

/-- The loop `while (totalArrivals < ARRIVALS)` with at most `fuel` iterations. -/
def arrivalLoop (fl : ℚ → ℚ) (draws : ℕ → ℚ) : Nat → State → Run State
  | 0, s => if s.totalArrivals < ARRIVALS then Run.outOfFuel else Run.finished s
  | fuel + 1, s =>
    if s.totalArrivals < ARRIVALS then
      match step fl draws s with
      | none => Run.fault
      | some s1 => arrivalLoop fl draws fuel s1
    else Run.finished s

/-- The loop `while (!q.empty())` with at most `fuel` iterations. -/
def drainLoop (fl : ℚ → ℚ) (draws : ℕ → ℚ) : Nat → State → Run State
  | 0, s => if !s.q.isEmpty then Run.outOfFuel else Run.finished s
  | fuel + 1, s =>
    if !s.q.isEmpty then
      match departure fl draws s with
      | none => Run.fault
      | some s1 => drainLoop fl draws fuel s1
    else Run.finished s

/-- The two loops of `Q3::runSimulation` in sequence, each with at most `fuel`
iterations. -/
def runSimulation (fl : ℚ → ℚ) (draws : ℕ → ℚ) (fuel : Nat) : Run State :=
  match arrivalLoop fl draws fuel (init draws) with
  | Run.finished s => drainLoop fl draws fuel s
  | Run.fault => Run.fault
  | Run.outOfFuel => Run.outOfFuel

/-- The accumulation of `totalWaitingTime` over `completedCustomers`. -/
def totalWaitingTime (fl : ℚ → ℚ) (cs : List Customer) : ℚ :=
  cs.foldl (fun acc c => fl (acc + fl (c.serviceStartTime - c.arrivalTime))) 0

/-- The accumulation of `totalSystemTime` over `completedCustomers`. -/
def totalSystemTime (fl : ℚ → ℚ) (cs : List Customer) : ℚ :=
  cs.foldl (fun acc c => fl (acc + fl (c.departureTime - c.arrivalTime))) 0

/-- The block "Calculate performance measures" of `Q3::runSimulation`, every
quotient and the difference `1.0 - utilizationFactor` rounded. -/
def performanceMeasures (fl : ℚ → ℚ) (s : State) : SimulationResults :=
  { avgWaitingTime :=
      (divDouble (totalWaitingTime fl s.completedCustomers)
        (s.completedCustomers.length : ℚ)).map fl,
    avgSystemTime :=
      (divDouble (totalSystemTime fl s.completedCustomers)
        (s.completedCustomers.length : ℚ)).map fl,
    utilizationFactor := (divDouble s.busyTime s.currentTime).map fl,
    idleTimeFraction := (divDouble s.busyTime s.currentTime).map (fun u => fl (1 - fl u)),
    avgQueueLength := (divDouble s.queueLengthTimeProduct s.currentTime).map fl,
    maxQueueLength := s.maxQueueLength,
    emptyQueueProbability := (divDouble s.emptyQueueTime s.currentTime).map fl }

/-- Draws of a run in which every customer arrives at time 1 and is served for
`2 ^ (-53)` hours: the first interarrival time is 1, the others are 0.  An
arrival that finds the system empty consumes two draws, its service time
first, so the service times are the draws of odd index. -/
def drawsTinyService : ℕ → ℚ :=
  fun i => if i = 0 then 1 else if i % 2 = 1 then 1 / 2 ^ 53 else 0

end Src3.Dbl

namespace Src3

/-- A bound on the scheduled times of `Q3::runSimulation` when every draw is at
most `B`: the next arrival and the next departure are at most `B` times the
number of draws consumed, and at most `1 + 2 * totalArrivals +
completedCustomers.size()` draws have been consumed. -/
def TimeBound (B : ℚ) (s : State) : Prop :=
  s.nextArrival ≤ B * (s.rng : ℚ) ∧
  (∀ d, s.nextDeparture = some d → d ≤ B * (s.rng : ℚ)) ∧
  s.rng ≤ 1 + 2 * s.totalArrivals + s.completedCustomers.length

/-- The part of the invariant of the loops of `Q3::runSimulation` about the
accumulated times that survives rounding, for non-negative draws: the clock
equals `lastEventTime`, the busy time and the empty-queue time are non-negative,
the head of the queue is the customer in service, its departure time is the
rounded sum of its service start and service time, and the busy time so far
fits before its service start (before the clock when the queue is empty). -/
def Dbl.RoundedInv (fl : ℚ → ℚ) (s : State) : Prop :=
  s.lastEventTime = s.currentTime ∧ 0 ≤ s.busyTime ∧ 0 ≤ s.emptyQueueTime ∧
  (match s.q with
    | [] => s.busyTime ≤ s.currentTime
    | c :: _ => s.nextDeparture = some c.departureTime ∧
        c.departureTime = fl (c.serviceStartTime + c.serviceTime) ∧ 0 ≤ c.serviceTime ∧
        s.busyTime ≤ c.serviceStartTime ∧ c.serviceStartTime ≤ s.currentTime ∧
        s.currentTime ≤ c.departureTime)

end Src3

namespace Src1.Dbl

/-- Source `PeriodResults::addCustomer`, the differences and sums rounded. -/
def addCustomer (fl : ℚ → ℚ) (r : PeriodResults) (c : Customer) : PeriodResults :=
  { r with totalWaitingTime := fl (r.totalWaitingTime + fl (c.serviceStartTime - c.arrivalTime)),
           totalSystemTime := fl (r.totalSystemTime + fl (c.departureTime - c.arrivalTime)),
           completedCustomers := r.completedCustomers + 1 }

/-- Source `PeriodResults::addBusyTime`, the sum rounded. -/
def addBusyTime (fl : ℚ → ℚ) (r : PeriodResults) (time : ℚ) : PeriodResults :=
  { r with totalBusyTime := fl (r.totalBusyTime + time) }

/-- Source `PeriodResults::addQueueLengthTime`, the product and the sum rounded. -/
def addQueueLengthTime (fl : ℚ → ℚ) (r : PeriodResults) (queueLength time : ℚ) :
    PeriodResults :=
  { r with queueLengthTimeProduct := fl (r.queueLengthTimeProduct + fl (queueLength * time)) }

/-- Source `PeriodResults::addAllBusyTime`, the sum rounded. -/
def addAllBusyTime (fl : ℚ → ℚ) (r : PeriodResults) (time : ℚ) : PeriodResults :=
  { r with allBusyTime := fl (r.allBusyTime + time) }

/-- The loop "Find earliest departure among active servers" from index `i` on,
with `k` iterations left; `nextDeparture` starts at the sentinel, which is the
number `dblMax`. -/
def earliestDepartureFrom :
    List Server → Nat → Nat → Option ℚ × Option Nat → Option ℚ × Option Nat
  | sv :: rest, k + 1, i, acc =>
    if sv.isBusy && ltMax sv.busyUntil acc.1 then
      earliestDepartureFrom rest k (i + 1) (some sv.busyUntil, some i)
    else earliestDepartureFrom rest k (i + 1) acc
  | _, _, _, acc => acc

/-- The pair `(nextDeparture, departingServer)` after the scan of the first
`activeServers` slots. -/
def earliestDeparture (servers : List Server) (activeServers : Nat) :
    Option ℚ × Option Nat :=
  earliestDepartureFrom servers activeServers 0 (none, none)

/-- The blocks "Update metrics for time interval" and "Advance time", the
difference `nextEventTime - currentTime` and the accumulations rounded. -/
def advanceClock (fl : ℚ → ℚ) (activeServers : Nat) (nextEventTime : ℚ) (s : State) : State :=
  let currentPeriod := getPeriod s.currentTime
  let timeInterval := fl (nextEventTime - s.currentTime)
  if timeInterval > 0 then
    let pr1 := updateAt (fun r => addQueueLengthTime fl r (s.q.length : ℚ) timeInterval)
      s.periodResults currentPeriod
    let ed1 := addQueueLengthTime fl s.entireDayResults (s.q.length : ℚ) timeInterval
    if countBusyServers s.servers activeServers = activeServers then
      { s with periodResults := updateAt (fun r => addAllBusyTime fl r timeInterval) pr1
                 currentPeriod,
               entireDayResults := addAllBusyTime fl ed1 timeInterval,
               currentTime := nextEventTime, lastEventTime := nextEventTime }
    else
      { s with periodResults := pr1, entireDayResults := ed1,
               currentTime := nextEventTime, lastEventTime := nextEventTime }
  else
    { s with currentTime := nextEventTime, lastEventTime := nextEventTime }

/-- The block "Handle arrival", the sums `currentTime + serviceTime` and
`currentTime + getExponential(lambda)` rounded. -/
def handleArrival (fl : ℚ → ℚ) (draws : ℕ → ℚ) (activeServers : Nat) (s : State) :
    Option State :=
  match findAvailableServer s.servers activeServers with
  | some availableServer =>
    let customer : Customer :=
      { arrivalTime := s.currentTime, serviceStartTime := s.currentTime,
        serviceTime := draws s.rng, departureTime := fl (s.currentTime + draws s.rng),
        serverId := (availableServer : Int) }
    some { s with totalArrivals := s.totalArrivals + 1,
                  servers := s.servers.set availableServer
                    { isBusy := true, currentCustomer := some customer,
                      busyUntil := customer.departureTime },
                  nextArrival := fl (s.currentTime + draws (s.rng + 1)), rng := s.rng + 2 }
  | none =>
    some { s with totalArrivals := s.totalArrivals + 1,
                  q := s.q ++ [Customer.mk1 s.currentTime],
                  nextArrival := fl (s.currentTime + draws s.rng), rng := s.rng + 1 }

/-- The block "Handle departure", the accumulations and the sum
`currentTime + serviceTime` rounded. -/
def handleDeparture (fl : ℚ → ℚ) (draws : ℕ → ℚ) (activeServers : Nat)
    (departingServer : Option Nat) (s : State) : Option State :=
  match departingServer with
  | none => none
  | some d =>
    match s.servers[d]? with
    | none => none
    | some sv =>
      match sv.currentCustomer with
      | none => none
      | some served =>
        let departurePeriod := getPeriod served.departureTime
        let pr := updateAt
          (fun r => addBusyTime fl (addCustomer fl r served) served.serviceTime)
          s.periodResults departurePeriod
        let ed := addBusyTime fl (addCustomer fl s.entireDayResults served) served.serviceTime
        let servers1 := s.servers.set d sv.free
        let s1 : State :=
          { s with completedCustomers := s.completedCustomers ++ [served],
                   periodResults := pr, entireDayResults := ed, servers := servers1 }
        match s.q with
        | [] => some s1
        | nextCustomer :: rest =>
          match findAvailableServer servers1 activeServers with
          | some availableServer =>
            let c : Customer :=
              { nextCustomer with serviceStartTime := s.currentTime,
                                  serviceTime := draws s.rng,
                                  departureTime := fl (s.currentTime + draws s.rng),
                                  serverId := (availableServer : Int) }
            some { s1 with q := rest,
                           servers := servers1.set availableServer
                             { isBusy := true, currentCustomer := some c,
                               busyUntil := c.departureTime },
                           rng := s.rng + 1 }
          | none => some { s1 with q := rest ++ [nextCustomer] }

/-- The flag `isArrivalEvent` of an iteration started in state `s`:
`nextArrival < nextDeparture`, where `nextDeparture` holds `dblMax` when the scan
has found no slot. -/
def isArrivalEvent (s : State) : Bool :=
  ltMax s.nextArrival (earliestDeparture s.servers (getActiveServers s.currentTime)).1

/-- The first part of one iteration of the loop body, up to and including the
arrival or departure handler. -/
def handleEvent (fl : ℚ → ℚ) (draws : ℕ → ℚ) (s : State) : Option State :=
  let activeServers := getActiveServers s.currentTime
  let scan := earliestDeparture s.servers activeServers
  let nextEventTime := minMax s.nextArrival scan.1
  let s1 := advanceClock fl activeServers nextEventTime s
  if isArrivalEvent s then handleArrival fl draws activeServers s1
  else handleDeparture fl draws activeServers scan.2 s1

/-- One iteration of the body of `while (currentTime < SIMULATION_TIME)`: the
event, then the server-reduction loop. -/
def step (fl : ℚ → ℚ) (draws : ℕ → ℚ) (s : State) : Option State :=
  match handleEvent fl draws s with
  | none => none
  | some s2 => handleServerReduction (getActiveServers s.currentTime) s2

/-- The state at the head of the loop after exactly `n` iterations; `none` when
the loop has exited before or an iteration has faulted. -/
def stateAfter (fl : ℚ → ℚ) (draws : ℕ → ℚ) : Nat → Option State
  | 0 => some (init draws)
  | n + 1 =>
    match stateAfter fl draws n with
    | some s => if s.currentTime < SIMULATION_TIME then step fl draws s else none
    | none => none

/-- Draws of a run in which a service time is lost in the rounding of the
departure time: the first customer arrives at time 1 and is served for
`2 ^ (-53)` hours; the next arrival is 100 hours later. -/
def drawsShortService : ℕ → ℚ
  | 0 => 1
  | 1 => 1 / 2 ^ 53
  | _ => 100

end Src1.Dbl

namespace Src1

/-- The part of the loop invariant of `Q2::runSimulation` about the stored departure
times, for the arithmetic rounded by `fl`: the `departureTime` of every completed
customer and of every slot occupant is the rounded sum
`serviceStartTime + serviceTime`. -/
def SumInv (fl : ℚ → ℚ) (s : State) : Prop :=
  (∀ c ∈ s.completedCustomers, c.departureTime = fl (c.serviceStartTime + c.serviceTime)) ∧
  (∀ sv ∈ s.servers, ∀ c, sv.currentCustomer = some c →
    c.departureTime = fl (c.serviceStartTime + c.serviceTime))

/-- The timestamps of a customer whose service has started are in order:
`arrivalTime ≤ serviceStartTime ≤ departureTime`. -/
def Customer.Ordered (c : Customer) : Prop :=
  c.arrivalTime ≤ c.serviceStartTime ∧ c.serviceStartTime ≤ c.departureTime

/-- The invariant of the rounded loop after the clock has advanced inside an
iteration that uses `activeServers = k`: completed customers and slot occupants
have ordered timestamps, nobody in the system arrived after the clock, the busy
slots among the first `k` end their service at or after the clock, the next
arrival is not in the past, and the scheduled times and the clock are results
of the rounding `fl`. -/
def Dbl.RoundedMid (fl : ℚ → ℚ) (k : Nat) (s : State) : Prop :=
  (∀ c ∈ s.completedCustomers, c.Ordered) ∧
  (∀ sv ∈ s.servers, ∀ c, sv.currentCustomer = some c →
      c.Ordered ∧ c.arrivalTime ≤ s.currentTime) ∧
  (∀ sv ∈ s.servers.take k, sv.isBusy = true → s.currentTime ≤ sv.busyUntil) ∧
  s.currentTime ≤ s.nextArrival ∧
  (∀ c ∈ s.q, c.arrivalTime ≤ s.currentTime) ∧
  fl s.nextArrival = s.nextArrival ∧
  (∀ sv ∈ s.servers, sv.isBusy = true → fl sv.busyUntil = sv.busyUntil) ∧
  fl s.currentTime = s.currentTime

/-- The invariant of the rounded loop at its head: as `Dbl.RoundedMid`, for all
slots, without the condition on the clock. -/
def Dbl.RoundedInv (fl : ℚ → ℚ) (s : State) : Prop :=
  (∀ c ∈ s.completedCustomers, c.Ordered) ∧
  (∀ sv ∈ s.servers, ∀ c, sv.currentCustomer = some c →
      c.Ordered ∧ c.arrivalTime ≤ s.currentTime) ∧
  (∀ sv ∈ s.servers, sv.isBusy = true → s.currentTime ≤ sv.busyUntil) ∧
  s.currentTime ≤ s.nextArrival ∧
  (∀ c ∈ s.q, c.arrivalTime ≤ s.currentTime) ∧
  fl s.nextArrival = s.nextArrival ∧
  (∀ sv ∈ s.servers, sv.isBusy = true → fl sv.busyUntil = sv.busyUntil)

end Src1

/-! # Theorems -/


/-! ## Properties of the bounded-queue simulator (`2.cpp`) -/

namespace Src2

end Src2

/-! ## Properties of the arrival-count simulator (`3.cpp`) -/

namespace Src3

theorem counted_init_inv (draws : ℕ → ℚ) : Inv (init draws) := by
  simp [Inv, init]

end Src3

/-! ## Properties of the multi-server simulator (`1.cpp`) -/

namespace Src1

theorem earliestDepartureFrom_spec (l : List Server) :
    ∀ (k i : Nat) (acc : Option ℚ × Option Nat),
      (∀ a, acc.1 = some a → ∃ d, (earliestDepartureFrom l k i acc).1 = some d ∧ d ≤ a) ∧
      (∀ sv ∈ l.take k, sv.isBusy = true →
        ∃ d, (earliestDepartureFrom l k i acc).1 = some d ∧ d ≤ sv.busyUntil) ∧
      ((earliestDepartureFrom l k i acc).1 = acc.1 ∨
        ∃ sv ∈ l.take k, sv.isBusy = true ∧
          (earliestDepartureFrom l k i acc).1 = some sv.busyUntil) := by
  induction l with
  | nil =>
    intro k i acc
    refine ⟨fun a ha => ⟨a, ?_, le_refl a⟩, ?_, Or.inl ?_⟩
    · cases k <;> simpa [earliestDepartureFrom] using ha
    · intro sv hsv
      simp at hsv
    · cases k <;> simp [earliestDepartureFrom]
  | cons sv rest ih =>
    intro k i acc
    cases k with
    | zero =>
      refine ⟨fun a ha => ⟨a, by simpa [earliestDepartureFrom] using ha, le_refl a⟩, ?_,
        Or.inl (by simp [earliestDepartureFrom])⟩
      intro x hx
      simp at hx
    | succ k =>
      by_cases hc : (sv.isBusy && ltSentinel sv.busyUntil acc.1) = true
      · have e : earliestDepartureFrom (sv :: rest) (k + 1) i acc =
            earliestDepartureFrom rest k (i + 1) (some sv.busyUntil, some i) := by
          simp only [earliestDepartureFrom, hc, if_true]
        rw [e]
        obtain ⟨h1, h2, h3⟩ := ih k (i + 1) (some sv.busyUntil, some i)
        obtain ⟨d0, hd0, hle0⟩ := h1 sv.busyUntil rfl
        simp only [Bool.and_eq_true] at hc
        refine ⟨?_, ?_, ?_⟩
        · intro a ha
          refine ⟨d0, hd0, le_trans hle0 ?_⟩
          have := hc.2
          rw [ha] at this
          simp [ltSentinel] at this
          exact le_of_lt this
        · intro x hx hb
          simp only [List.take_succ_cons, List.mem_cons] at hx
          rcases hx with rfl | hx
          · exact ⟨d0, hd0, hle0⟩
          · exact h2 x hx hb
        · right
          rcases h3 with h3 | ⟨x, hx, hb, hx2⟩
          · exact ⟨sv, by simp, hc.1, h3⟩
          · exact ⟨x, by simp [hx], hb, hx2⟩
      · have e : earliestDepartureFrom (sv :: rest) (k + 1) i acc =
            earliestDepartureFrom rest k (i + 1) acc := by
          simp only [earliestDepartureFrom, hc]
          simp
        rw [e]
        obtain ⟨h1, h2, h3⟩ := ih k (i + 1) acc
        refine ⟨h1, ?_, ?_⟩
        · intro x hx hb
          simp only [List.take_succ_cons, List.mem_cons] at hx
          rcases hx with rfl | hx
          · -- the slot is busy but not earlier than the accumulator
            rcases hacc : acc.1 with _ | a
            · simp [hb, hacc, ltSentinel] at hc
            · simp [hb, hacc, ltSentinel] at hc
              obtain ⟨d, hd, hle⟩ := h1 a hacc
              exact ⟨d, hd, le_trans hle hc⟩
          · exact h2 x hx hb
        · rcases h3 with h3 | ⟨x, hx, hb, hx2⟩
          · exact Or.inl h3
          · exact Or.inr ⟨x, by simp [hx], hb, hx2⟩

theorem earliestDeparture_le (l : List Server) (k : Nat) :
    ∀ sv ∈ l.take k, sv.isBusy = true →
      ∃ d, (earliestDeparture l k).1 = some d ∧ d ≤ sv.busyUntil :=
  (earliestDepartureFrom_spec l k 0 (none, none)).2.1

theorem earliestDeparture_cases (l : List Server) (k : Nat) :
    (earliestDeparture l k).1 = none ∨
      ∃ sv ∈ l.take k, sv.isBusy = true ∧ (earliestDeparture l k).1 = some sv.busyUntil :=
  (earliestDepartureFrom_spec l k 0 (none, none)).2.2

theorem serverReductionFrom_spec (l : List Server) :
    ∀ (k : Nat) (q : List Customer) (l1 : List Server) (q1 : List Customer),
      serverReductionFrom l k q = some (l1, q1) →
      (∀ sv ∈ l1, sv.isBusy = true → sv ∈ l.take k) ∧
      (∀ sv ∈ l1, ∀ c, sv.currentCustomer = some c → sv ∈ l) ∧
      (∀ c ∈ q1, c ∈ q ∨ ∃ sv ∈ l, sv.currentCustomer = some c) := by
  induction l with
  | nil =>
    intro k q l1 q1 h
    simp [serverReductionFrom] at h
    obtain ⟨rfl, rfl⟩ := h
    simp
  | cons sv rest ih =>
    intro k q l1 q1 h
    cases k with
    | succ k =>
      rcases hr : serverReductionFrom rest k q with _ | ⟨rest1, q2⟩
      · simp [serverReductionFrom, hr] at h
      · simp [serverReductionFrom, hr] at h
        obtain ⟨rfl, rfl⟩ := h
        obtain ⟨h1, h2, h3⟩ := ih k q rest1 q2 hr
        refine ⟨?_, ?_, ?_⟩
        · intro x hx hb
          simp only [List.mem_cons] at hx
          rcases hx with rfl | hx
          · simp
          · simp [h1 x hx hb]
        · intro x hx c hc
          simp only [List.mem_cons] at hx
          rcases hx with rfl | hx
          · simp
          · simp [h2 x hx c hc]
        · intro c hc
          rcases h3 c hc with h | ⟨x, hx, hxc⟩
          · exact Or.inl h
          · exact Or.inr ⟨x, by simp [hx], hxc⟩
    | zero =>
      by_cases hb : sv.isBusy = true
      · rcases hcc : sv.currentCustomer with _ | interrupted
        · simp [serverReductionFrom, hb, hcc] at h
        rcases hr : serverReductionFrom rest 0 (q ++ [interrupted]) with _ | ⟨rest1, q2⟩
        · simp [serverReductionFrom, hb, hcc, hr] at h
        · simp [serverReductionFrom, hb, hcc, hr] at h
          obtain ⟨rfl, rfl⟩ := h
          obtain ⟨h1, h2, h3⟩ := ih 0 (q ++ [interrupted]) rest1 q2 hr
          refine ⟨?_, ?_, ?_⟩
          · intro x hx hxb
            simp only [List.mem_cons] at hx
            rcases hx with rfl | hx
            · simp [Server.free] at hxb
            · have := h1 x hx hxb
              simp at this
          · intro x hx c hc
            simp only [List.mem_cons] at hx
            rcases hx with rfl | hx
            · simp [Server.free] at hc
            · simp [h2 x hx c hc]
          · intro c hc
            rcases h3 c hc with h | ⟨x, hx, hxc⟩
            · simp only [List.mem_append, List.mem_singleton] at h
              rcases h with h | rfl
              · exact Or.inl h
              · exact Or.inr ⟨sv, by simp, hcc⟩
            · exact Or.inr ⟨x, by simp [hx], hxc⟩
      · rcases hr : serverReductionFrom rest 0 q with _ | ⟨rest1, q2⟩
        · simp [serverReductionFrom, hb, hr] at h
        · simp [serverReductionFrom, hb, hr] at h
          obtain ⟨rfl, rfl⟩ := h
          obtain ⟨h1, h2, h3⟩ := ih 0 q rest1 q2 hr
          refine ⟨?_, ?_, ?_⟩
          · intro x hx hxb
            simp only [List.mem_cons] at hx
            rcases hx with rfl | hx
            · exact absurd hxb hb
            · have := h1 x hx hxb
              simp at this
          · intro x hx c hc
            simp only [List.mem_cons] at hx
            rcases hx with rfl | hx
            · simp
            · simp [h2 x hx c hc]
          · intro c hc
            rcases h3 c hc with h | ⟨x, hx, hxc⟩
            · exact Or.inl h
            · exact Or.inr ⟨x, by simp [hx], hxc⟩

theorem mem_take_set {l : List Server} {j k : Nat} {x sv : Server}
    (h : sv ∈ (l.set j x).take k) : sv ∈ l.take k ∨ sv = x := by
  rw [List.set_take] at h
  exact List.mem_or_eq_of_mem_set h

end Src1

namespace Src1

theorem advanceClock_fields (k : Nat) (t : ℚ) (s : State) :
    (advanceClock k t s).servers = s.servers ∧ (advanceClock k t s).q = s.q ∧
    (advanceClock k t s).completedCustomers = s.completedCustomers ∧
    (advanceClock k t s).currentTime = t ∧
    (advanceClock k t s).nextArrival = s.nextArrival ∧
    (advanceClock k t s).rng = s.rng ∧
    (advanceClock k t s).totalArrivals = s.totalArrivals := by
  unfold advanceClock
  simp only
  split_ifs <;> simp

theorem advanceClock_mid {k : Nat} {t : ℚ} {s : State} (h : Inv s)
    (h1 : s.currentTime ≤ t) (h2 : t ≤ s.nextArrival)
    (h3 : ∀ sv ∈ s.servers.take k, sv.isBusy = true → t ≤ sv.busyUntil) :
    MidInv k (advanceClock k t s) := by
  obtain ⟨e1, e2, e3, e4, e5, -, -⟩ := advanceClock_fields k t s
  obtain ⟨i1, i2, -, -, i5⟩ := h
  unfold MidInv
  rw [e1, e2, e3, e4, e5]
  refine ⟨i1, ?_, h3, h2, ?_⟩
  · intro sv hsv c hc
    obtain ⟨a, b⟩ := i2 sv hsv c hc
    exact ⟨a, le_trans b h1⟩
  · intro c hc
    exact le_trans (i5 c hc) h1

theorem handleArrival_mid {draws : ℕ → ℚ} (hd : ∀ i, 0 ≤ draws i) {k : Nat} {s s1 : State}
    (h : MidInv k s) (hs : handleArrival draws k s = some s1) : MidInv k s1 := by
  obtain ⟨i1, i2, i3, i4, i5⟩ := h
  unfold handleArrival at hs
  rcases hf : findAvailableServer s.servers k with _ | j
  · simp only [hf, Option.some.injEq] at hs
    subst hs
    refine ⟨i1, i2, i3, ?_, ?_⟩
    · have := hd s.rng
      simp only
      linarith
    · intro c hc
      simp only [List.mem_append, List.mem_singleton] at hc
      rcases hc with hc | rfl
      · exact i5 c hc
      · simp [Customer.mk1]
  · simp only [hf, Option.some.injEq] at hs
    subst hs
    have hdr := hd s.rng
    have hdr1 := hd (s.rng + 1)
    refine ⟨i1, ?_, ?_, ?_, i5⟩
    · intro sv hsv c hc
      rcases List.mem_or_eq_of_mem_set hsv with hsv | rfl
      · exact i2 sv hsv c hc
      · simp only [Option.some.injEq] at hc
        subst hc
        refine ⟨⟨le_refl _, ?_, ?_⟩, le_refl _⟩
        · simp only
          linarith
        · simp
    · intro sv hsv hb
      rcases mem_take_set hsv with hsv | rfl
      · exact i3 sv hsv hb
      · simp only
        linarith
    · simp only
      linarith

theorem handleDeparture_mid {draws : ℕ → ℚ} (hd : ∀ i, 0 ≤ draws i) {k : Nat}
    {ds : Option Nat} {s s1 : State}
    (h : MidInv k s) (hs : handleDeparture draws k ds s = some s1) : MidInv k s1 := by
  obtain ⟨i1, i2, i3, i4, i5⟩ := h
  unfold handleDeparture at hs
  rcases ds with _ | d
  · simp at hs
  rcases hsv : s.servers[d]? with _ | sv
  · simp [hsv] at hs
  rcases hcc : sv.currentCustomer with _ | served
  · simp [hsv, hcc] at hs
  have hmem : sv ∈ s.servers := List.mem_iff_getElem?.mpr ⟨d, hsv⟩
  have hserved := (i2 sv hmem served hcc).1
  have hcompleted : ∀ c ∈ s.completedCustomers ++ [served], c.Served := by
    intro c hc
    simp only [List.mem_append, List.mem_singleton] at hc
    rcases hc with hc | rfl
    · exact i1 c hc
    · exact hserved
  have hocc1 : ∀ x ∈ s.servers.set d sv.free, ∀ c, x.currentCustomer = some c →
      c.Served ∧ c.arrivalTime ≤ s.currentTime := by
    intro x hx c hc
    rcases List.mem_or_eq_of_mem_set hx with hx | rfl
    · exact i2 x hx c hc
    · simp [Server.free] at hc
  have hbusy1 : ∀ x ∈ (s.servers.set d sv.free).take k, x.isBusy = true →
      s.currentTime ≤ x.busyUntil := by
    intro x hx hb
    rcases mem_take_set hx with hx | rfl
    · exact i3 x hx hb
    · simp [Server.free] at hb
  rcases hq : s.q with _ | ⟨nextCustomer, rest⟩
  · simp only [hsv, hcc, hq, Option.some.injEq] at hs
    subst hs
    refine ⟨hcompleted, hocc1, hbusy1, i4, ?_⟩
    intro c hc
    simp only [hq] at hc
    simp at hc
  · have hnc : nextCustomer.arrivalTime ≤ s.currentTime := i5 nextCustomer (by simp [hq])
    have hrest : ∀ c ∈ rest, c.arrivalTime ≤ s.currentTime := by
      intro c hc
      exact i5 c (by simp [hq, hc])
    rcases hf : findAvailableServer (s.servers.set d sv.free) k with _ | j
    · simp only [hsv, hcc, hq, hf, Option.some.injEq] at hs
      subst hs
      refine ⟨hcompleted, hocc1, hbusy1, i4, ?_⟩
      intro c hc
      simp only [List.mem_append, List.mem_singleton] at hc
      rcases hc with hc | rfl
      · exact hrest c hc
      · exact hnc
    · simp only [hsv, hcc, hq, hf, Option.some.injEq] at hs
      subst hs
      have hdr := hd s.rng
      refine ⟨hcompleted, ?_, ?_, i4, hrest⟩
      · intro x hx c hc
        rcases List.mem_or_eq_of_mem_set hx with hx | rfl
        · exact hocc1 x hx c hc
        · simp only [Option.some.injEq] at hc
          subst hc
          refine ⟨⟨hnc, ?_, ?_⟩, hnc⟩
          · simp only
            linarith
          · simp
      · intro x hx hb
        rcases mem_take_set hx with hx | rfl
        · exact hbusy1 x hx hb
        · simp only
          linarith

theorem handleServerReduction_inv {k : Nat} {s s1 : State}
    (h : MidInv k s) (hs : handleServerReduction k s = some s1) : Inv s1 := by
  obtain ⟨i1, i2, i3, i4, i5⟩ := h
  unfold handleServerReduction at hs
  rcases hr : serverReductionFrom s.servers k s.q with _ | ⟨l1, q1⟩
  · simp [hr] at hs
  simp only [hr, Option.some.injEq] at hs
  subst hs
  obtain ⟨r1, r2, r3⟩ := serverReductionFrom_spec s.servers k s.q l1 q1 hr
  refine ⟨i1, ?_, ?_, i4, ?_⟩
  · intro sv hsv c hc
    exact i2 sv (r2 sv hsv c hc) c hc
  · intro sv hsv hb
    exact i3 sv (r1 sv hsv hb) hb
  · intro c hc
    rcases r3 c hc with hc | ⟨sv, hsv, hsc⟩
    · exact i5 c hc
    · exact (i2 sv hsv c hsc).2

theorem minSentinel_bounds {s : State} (k : Nat) (h : Inv s) :
    s.currentTime ≤ minSentinel s.nextArrival (earliestDeparture s.servers k).1 ∧
    minSentinel s.nextArrival (earliestDeparture s.servers k).1 ≤ s.nextArrival ∧
    ∀ sv ∈ s.servers.take k, sv.isBusy = true →
      minSentinel s.nextArrival (earliestDeparture s.servers k).1 ≤ sv.busyUntil := by
  obtain ⟨-, -, i3, i4, -⟩ := h
  refine ⟨?_, ?_, ?_⟩
  · rcases earliestDeparture_cases s.servers k with e | ⟨sv, hsv, hb, e⟩
    · rw [e]
      exact i4
    · rw [e]
      have := i3 sv (List.mem_of_mem_take hsv) hb
      simp only [minSentinel]
      split_ifs
      · exact this
      · exact i4
  · rcases hnd : (earliestDeparture s.servers k).1 with _ | d
    · exact le_refl _
    · simp only [minSentinel]
      split_ifs with hlt
      · exact le_of_lt hlt
      · exact le_refl _
  · intro sv hsv hb
    obtain ⟨d, e, hle⟩ := earliestDeparture_le s.servers k sv hsv hb
    rw [e]
    simp only [minSentinel]
    split_ifs with hlt
    · exact hle
    · exact le_trans (not_lt.mp hlt) hle

theorem multi_init_inv (draws : ℕ → ℚ) (hd : ∀ i, 0 ≤ draws i) : Inv (init draws) := by
  refine ⟨?_, ?_, ?_, hd 0, ?_⟩
  · intro c hc
    simp [init] at hc
  · intro sv hsv c hc
    simp [init, maxServers, List.replicate, Server.mk0] at hsv
    subst hsv
    simp at hc
  · intro sv hsv hb
    simp [init, maxServers, List.replicate, Server.mk0] at hsv
    subst hsv
    simp at hb
  · intro c hc
    simp [init] at hc

theorem handleEvent_mid {draws : ℕ → ℚ} (hd : ∀ i, 0 ≤ draws i) {s s2 : State}
    (h : Inv s) (hs : handleEvent draws s = some s2) :
    MidInv (getActiveServers s.currentTime) s2 := by
  obtain ⟨b1, b2, b3⟩ := minSentinel_bounds (getActiveServers s.currentTime) h
  have hmid := advanceClock_mid h b1 b2 b3
  unfold handleEvent at hs
  simp only at hs
  by_cases harr : isArrivalEvent s = true
  · rw [if_pos harr] at hs
    exact handleArrival_mid hd hmid hs
  · rw [if_neg harr] at hs
    exact handleDeparture_mid hd hmid hs

theorem multi_step_inv {draws : ℕ → ℚ} (hd : ∀ i, 0 ≤ draws i) {s s1 : State}
    (h : Inv s) (hs : step draws s = some s1) : Inv s1 := by
  unfold step at hs
  rcases he : handleEvent draws s with _ | s2
  · simp [he] at hs
  · simp only [he] at hs
    exact handleServerReduction_inv (handleEvent_mid hd h he) hs

theorem multi_stateAfter_inv {draws : ℕ → ℚ} (hd : ∀ i, 0 ≤ draws i) (n : Nat) :
    ∀ s : State, stateAfter draws n = some s → Inv s := by
  induction n with
  | zero =>
    intro s hs
    simp [stateAfter] at hs
    subst hs
    exact multi_init_inv draws hd
  | succ n ih =>
    intro s hs
    rcases hp : stateAfter draws n with _ | s0
    · simp [stateAfter, hp] at hs
    · simp only [stateAfter, hp] at hs
      split_ifs at hs
      exact multi_step_inv hd (ih s0 hp) hs

end Src1

namespace Src1

theorem drawsShrinkIdle_nonneg : ∀ i, 0 ≤ drawsShrinkIdle i := by
  intro i
  unfold drawsShrinkIdle
  split <;> norm_num

end Src1

namespace Src1

theorem displaced_cons_succ (sv : Server) (rest : List Server) (k : Nat) :
    displaced (sv :: rest) (k + 1) = displaced rest k := by
  simp [displaced]

theorem serverReductionFrom_queue (l : List Server) :
    ∀ (k : Nat) (q : List Customer) (l1 : List Server) (q1 : List Customer),
      serverReductionFrom l k q = some (l1, q1) →
      q1 = q ++ displaced l k ∧ ∀ i, i < k → l1[i]? = l[i]? := by
  induction l with
  | nil =>
    intro k q l1 q1 h
    simp [serverReductionFrom] at h
    obtain ⟨rfl, rfl⟩ := h
    simp [displaced]
  | cons sv rest ih =>
    intro k q l1 q1 h
    cases k with
    | succ k =>
      rcases hr : serverReductionFrom rest k q with _ | ⟨rest1, q2⟩
      · simp [serverReductionFrom, hr] at h
      · simp [serverReductionFrom, hr] at h
        obtain ⟨rfl, rfl⟩ := h
        obtain ⟨h1, h2⟩ := ih k q rest1 q2 hr
        refine ⟨by rw [displaced_cons_succ]; exact h1, ?_⟩
        intro i hi
        cases i with
        | zero => simp
        | succ i =>
          simp only [List.getElem?_cons_succ]
          exact h2 i (by omega)
    | zero =>
      by_cases hb : sv.isBusy = true
      · rcases hcc : sv.currentCustomer with _ | interrupted
        · simp [serverReductionFrom, hb, hcc] at h
        rcases hr : serverReductionFrom rest 0 (q ++ [interrupted]) with _ | ⟨rest1, q2⟩
        · simp [serverReductionFrom, hb, hcc, hr] at h
        · simp [serverReductionFrom, hb, hcc, hr] at h
          obtain ⟨rfl, rfl⟩ := h
          obtain ⟨h1, -⟩ := ih 0 (q ++ [interrupted]) rest1 q2 hr
          refine ⟨?_, fun i hi => absurd hi (Nat.not_lt_zero i)⟩
          rw [h1]
          simp [displaced, hb, hcc]
      · rcases hr : serverReductionFrom rest 0 q with _ | ⟨rest1, q2⟩
        · simp [serverReductionFrom, hb, hr] at h
        · simp [serverReductionFrom, hb, hr] at h
          obtain ⟨rfl, rfl⟩ := h
          obtain ⟨h1, -⟩ := ih 0 q rest1 q2 hr
          refine ⟨?_, fun i hi => absurd hi (Nat.not_lt_zero i)⟩
          rw [h1]
          simp [displaced, hb]

theorem mem_displaced {l : List Server} {k i : Nat} {sv : Server} {c : Customer}
    (hi : k ≤ i) (hsv : l[i]? = some sv) (hb : sv.isBusy = true)
    (hc : sv.currentCustomer = some c) : c ∈ displaced l k := by
  unfold displaced
  rw [List.mem_filterMap]
  refine ⟨sv, ?_, hc⟩
  rw [List.mem_filter]
  refine ⟨?_, by simpa using hb⟩
  rw [List.mem_iff_getElem?]
  refine ⟨i - k, ?_⟩
  rw [List.getElem?_drop]
  have : k + (i - k) = i := by omega
  rw [this]
  exact hsv

theorem earliestDepartureFrom_index (l : List Server) :
    ∀ (k i : Nat) (acc : Option ℚ × Option Nat) (j : Nat),
      (earliestDepartureFrom l k i acc).2 = some j →
      acc.2 = some j ∨ (i ≤ j ∧ j < i + k) := by
  induction l with
  | nil =>
    intro k i acc j h
    left
    cases k <;> simpa [earliestDepartureFrom] using h
  | cons sv rest ih =>
    intro k i acc j h
    cases k with
    | zero =>
      left
      simpa [earliestDepartureFrom] using h
    | succ k =>
      by_cases hc : (sv.isBusy && ltSentinel sv.busyUntil acc.1) = true
      · have e : earliestDepartureFrom (sv :: rest) (k + 1) i acc =
            earliestDepartureFrom rest k (i + 1) (some sv.busyUntil, some i) := by
          simp only [earliestDepartureFrom, hc, if_true]
        rw [e] at h
        rcases ih k (i + 1) _ j h with h1 | ⟨h1, h2⟩
        · simp only [Option.some.injEq] at h1
          right
          omega
        · right
          omega
      · have e : earliestDepartureFrom (sv :: rest) (k + 1) i acc =
            earliestDepartureFrom rest k (i + 1) acc := by
          simp only [earliestDepartureFrom, hc]
          simp
        rw [e] at h
        rcases ih k (i + 1) acc j h with h1 | ⟨h1, h2⟩
        · exact Or.inl h1
        · right
          omega

theorem earliestDeparture_index {l : List Server} {k j : Nat}
    (h : (earliestDeparture l k).2 = some j) : j < k := by
  rcases earliestDepartureFrom_index l k 0 (none, none) j h with h1 | ⟨-, h2⟩
  · simp at h1
  · omega

theorem findAvailableServerFrom_of_idle (l : List Server) :
    ∀ (k off d : Nat) (x : Server), l[d]? = some x → x.isBusy = false → d < k →
      ∃ i, i ≤ d ∧ findAvailableServerFrom l k off = some (off + i) ∧
        (∀ j, j < i → ∃ y, l[j]? = some y ∧ y.isBusy = true) ∧
        ∃ y, l[i]? = some y ∧ y.isBusy = false := by
  induction l with
  | nil =>
    intro k off d x hx
    simp at hx
  | cons sv rest ih =>
    intro k off d x hx hidle hd
    cases k with
    | zero => omega
    | succ k =>
      by_cases hb : sv.isBusy = true
      · cases d with
        | zero =>
          simp at hx
          subst hx
          rw [hb] at hidle
          simp at hidle
        | succ d =>
          simp only [List.getElem?_cons_succ] at hx
          obtain ⟨i, hi, hf, hlow, y, hy, hyb⟩ := ih k (off + 1) d x hx hidle (by omega)
          refine ⟨i + 1, by omega, ?_, ?_, y, by simpa using hy, hyb⟩
          · simp only [findAvailableServerFrom, hb]
            simp only [Bool.not_true, Bool.false_eq_true, if_false]
            rw [hf]
            congr 1
            omega
          · intro j hj
            cases j with
            | zero => exact ⟨sv, by simp, hb⟩
            | succ j =>
              obtain ⟨z, hz, hzb⟩ := hlow j (by omega)
              exact ⟨z, by simpa using hz, hzb⟩
      · have hb0 : sv.isBusy = false := by simpa using hb
        refine ⟨0, by omega, ?_, ?_, sv, by simp, hb0⟩
        · simp [findAvailableServerFrom, hb0]
        · intro j hj
          omega

end Src1

namespace Src1

theorem step_queue {draws : ℕ → ℚ} {s s2 s1 : State}
    (he : handleEvent draws s = some s2) (hs : step draws s = some s1) :
    s1.q = s2.q ++ displaced s2.servers (getActiveServers s.currentTime) := by
  unfold step at hs
  simp only [he] at hs
  unfold handleServerReduction at hs
  rcases hr : serverReductionFrom s2.servers (getActiveServers s.currentTime) s2.q
    with _ | ⟨l1, q1⟩
  · simp [hr] at hs
  · simp only [hr, Option.some.injEq] at hs
    subst hs
    exact (serverReductionFrom_queue _ _ _ _ _ hr).1

/-- C5 (as amended): the server-reduction step appends the occupants of the
vacated slots (the busy slots with index at least the `activeServers` of the
iteration, in index order) at the BACK of the waiting queue, behind every
customer that is already waiting after the event handler. -/
theorem reduction_appends_at_back (draws : ℕ → ℚ) (s s1 : State)
    (hs : step draws s = some s1) :
    (handleEvent draws s).map
        (fun s2 => s2.q ++ displaced s2.servers (getActiveServers s.currentTime)) =
      some s1.q := by
  rcases he : handleEvent draws s with _ | s2
  · simp [step, he] at hs
  · simp only [Option.map, Option.some.injEq]
    exact (step_queue he hs).symm

/-- Witness for C5: the sixth iteration of the run on `drawsShrinkQueued`, which
vacates slot 3 while two customers are waiting. -/
theorem reduction_appends_at_back_witness :
    step drawsShrinkQueued (stateAt drawsShrinkQueued 5) =
      some (stateAt drawsShrinkQueued 6) ∧
    (handleEvent drawsShrinkQueued (stateAt drawsShrinkQueued 5)).map
        (fun s2 => s2.q ++ displaced s2.servers
          (getActiveServers (stateAt drawsShrinkQueued 5).currentTime)) =
      some (stateAt drawsShrinkQueued 6).q :=
  ⟨by decide!,
   reduction_appends_at_back drawsShrinkQueued (stateAt drawsShrinkQueued 5)
     (stateAt drawsShrinkQueued 6) (by decide!)⟩

/-- Counterexample to C5 as stated: in the run on `drawsShrinkQueued` the sixth
iteration starts at time 5 with one customer waiting and slot 3 busy, handles
an arrival at time 6 and vacates slot 3; afterwards the displaced customer is
the LAST of the three waiting customers, and the head of the queue is the
customer that arrived at time 5. -/
theorem displaced_not_at_front :
    stateAfter drawsShrinkQueued 5 = some (stateAt drawsShrinkQueued 5) ∧
    stateAfter drawsShrinkQueued 6 = some (stateAt drawsShrinkQueued 6) ∧
    (stateAt drawsShrinkQueued 5).currentTime = 5 ∧
    (stateAt drawsShrinkQueued 5).q = [Customer.mk1 5] ∧
    (stateAt drawsShrinkQueued 5).servers[3]? =
      some { isBusy := true,
             currentCustomer := some fourthCustomer,
             busyUntil := 13 } ∧
    (stateAt drawsShrinkQueued 6).servers[3]? =
      some { isBusy := false, currentCustomer := none, busyUntil := 13 } ∧
    (stateAt drawsShrinkQueued 6).q =
      [Customer.mk1 5, Customer.mk1 6,
       fourthCustomer] ∧
    (stateAt drawsShrinkQueued 6).q.head? ≠
      some fourthCustomer := by
  decide!

/-- C6 (as amended): a customer displaced by the server-reduction step re-enters
the queue as the very record held by its slot: `arrivalTime` is unchanged, and
so are `serviceStartTime`, `serviceTime`, `departureTime` and `serverId`, which
keep the values of the interrupted service (nothing is reset). -/
theorem displaced_keeps_fields (draws : ℕ → ℚ) (s s2 s1 : State)
    (he : handleEvent draws s = some s2) (hs : step draws s = some s1)
    (i : Nat) (sv : Server) (c : Customer)
    (hi : getActiveServers s.currentTime ≤ i) (hsv : s2.servers[i]? = some sv)
    (hb : sv.isBusy = true) (hc : sv.currentCustomer = some c) :
    c ∈ s1.q := by
  rw [step_queue he hs]
  exact List.mem_append_right _ (mem_displaced hi hsv hb hc)

/-- Witness for C6: the sixth iteration of the run on `drawsShrinkIdle`, which
vacates slot 3; its occupant had started service at time 3 for 10 hours. -/
theorem displaced_keeps_fields_witness :
    handleEvent drawsShrinkIdle (stateAt drawsShrinkIdle 5) =
      some (midStateAt drawsShrinkIdle 5) ∧
    step drawsShrinkIdle (stateAt drawsShrinkIdle 5) = some (stateAt drawsShrinkIdle 6) ∧
    fourthCustomer ∈ (stateAt drawsShrinkIdle 6).q :=
  ⟨by decide!, by decide!,
   displaced_keeps_fields drawsShrinkIdle (stateAt drawsShrinkIdle 5)
     (midStateAt drawsShrinkIdle 5) (stateAt drawsShrinkIdle 6) (by decide!) (by decide!) 3
     { isBusy := true,
       currentCustomer := some fourthCustomer,
       busyUntil := 13 }
     fourthCustomer
     (by decide!) (by decide!) rfl rfl⟩

/-- Counterexample to C6 as stated: in the run on `drawsShrinkIdle` the customer
displaced from slot 3 in the sixth iteration is the only waiting customer
afterwards, and its `serviceStartTime`, `serviceTime` and `departureTime` are
3, 10 and 13, not 0. -/
theorem displaced_fields_not_reset :
    stateAfter drawsShrinkIdle 6 = some (stateAt drawsShrinkIdle 6) ∧
    ((stateAt drawsShrinkIdle 5).servers[3]?).map (fun sv => sv.isBusy) = some true ∧
    ((stateAt drawsShrinkIdle 6).servers[3]?).map (fun sv => sv.isBusy) = some false ∧
    (stateAt drawsShrinkIdle 6).q.map
        (fun c => (c.arrivalTime, c.serviceStartTime, c.serviceTime, c.departureTime)) =
      [(3, 3, 10, 13)] ∧
    ¬ ∀ c ∈ (stateAt drawsShrinkIdle 6).q,
        c.serviceStartTime = 0 ∧ c.serviceTime = 0 ∧ c.departureTime = 0 := by
  decide!

/-- C7 (failing input): in the run on `drawsGrow` the third iteration starts at
time 1, when two slots are active and both are busy, and handles an arrival at
time 3.  Four slots are active at time 3 and slot 2 is idle, yet the customer is
appended to the queue and no slot changes. -/
theorem arrival_uses_stale_active_count :
    stateAfter drawsGrow 2 = some (stateAt drawsGrow 2) ∧
    stateAfter drawsGrow 3 = some (stateAt drawsGrow 3) ∧
    (stateAt drawsGrow 2).currentTime = 1 ∧
    isArrivalEvent (stateAt drawsGrow 2) = true ∧
    (stateAt drawsGrow 3).currentTime = 3 ∧
    getActiveServers (stateAt drawsGrow 3).currentTime = 4 ∧
    findAvailableServer (stateAt drawsGrow 2).servers
      (getActiveServers (stateAt drawsGrow 3).currentTime) = some 2 ∧
    (stateAt drawsGrow 3).q = [Customer.mk1 3] ∧
    (stateAt drawsGrow 3).servers = (stateAt drawsGrow 2).servers := by
  decide!

/-- C8 (failing input): in the run on `drawsShrinkIdle` the fifth iteration starts
at time 3 and handles a departure at time 5.  At the end of that iteration the
clock is 5, `getActiveServers` of the clock is 3, and slot 3 is still busy. -/
theorem inactive_slot_busy_after_event :
    stateAfter drawsShrinkIdle 4 = some (stateAt drawsShrinkIdle 4) ∧
    stateAfter drawsShrinkIdle 5 = some (stateAt drawsShrinkIdle 5) ∧
    (stateAt drawsShrinkIdle 4).currentTime = 3 ∧
    (stateAt drawsShrinkIdle 5).currentTime = 5 ∧
    getActiveServers (stateAt drawsShrinkIdle 5).currentTime = 3 ∧
    ((stateAt drawsShrinkIdle 5).servers[3]?).map (fun sv => sv.isBusy) = some true := by
  decide!

end Src1

namespace Src1

/-- C9 (as amended): on every departure event where the queue is non-empty, the
head of the queue is popped and assigned to the lowest-indexed idle slot among
the first `activeServers` slots once the departing slot `d` has been freed.  Its
index `i` is at most `d`: every slot below `i` is busy, and `i < d` only when
slot `i` was already idle before the departure. -/
theorem departure_assigns_lowest_idle (draws : ℕ → ℚ) (s s1 : State) (c : Customer)
    (rest : List Customer) (hdep : isArrivalEvent s = false) (hq : s.q = c :: rest)
    (hs : step draws s = some s1) :
    ∃ d i, (earliestDeparture s.servers (getActiveServers s.currentTime)).2 = some d ∧
      d < getActiveServers s.currentTime ∧ i ≤ d ∧
      (∀ j, j < i → ∃ y, s.servers[j]? = some y ∧ y.isBusy = true) ∧
      (i < d → ∃ y, s.servers[i]? = some y ∧ y.isBusy = false) ∧
      s1.servers[i]? = some (assigned c i s1.currentTime (draws s.rng)) ∧
      ∃ tail, s1.q = rest ++ tail := by
  unfold step at hs
  rcases he : handleEvent draws s with _ | s2
  · simp [he] at hs
  simp only [he] at hs
  unfold handleEvent at he
  simp only [hdep] at he
  simp only [Bool.false_eq_true, if_false] at he
  obtain ⟨e1, e2, -, -, -, e6, -⟩ := advanceClock_fields (getActiveServers s.currentTime)
    (minSentinel s.nextArrival (earliestDeparture s.servers (getActiveServers s.currentTime)).1) s
  unfold handleDeparture at he
  rcases hds : (earliestDeparture s.servers (getActiveServers s.currentTime)).2 with _ | d
  · simp [hds] at he
  simp only [hds, e1] at he
  rcases hsv : s.servers[d]? with _ | sv
  · simp [hsv] at he
  simp only [hsv] at he
  rcases hcc : sv.currentCustomer with _ | served
  · simp [hcc] at he
  simp only [hcc, e2, hq] at he
  have hdk : d < getActiveServers s.currentTime := earliestDeparture_index hds
  have hdlen : d < s.servers.length := by
    rcases List.getElem?_eq_some.mp hsv with ⟨h, -⟩
    exact h
  have hfree : (s.servers.set d sv.free)[d]? = some sv.free := by
    simp [hdlen]
  obtain ⟨i, hid, hf, hlow, y, hy, hyb⟩ := findAvailableServerFrom_of_idle
    (s.servers.set d sv.free) (getActiveServers s.currentTime) 0 d sv.free hfree
    (by simp [Server.free]) hdk
  have hf1 : findAvailableServer (s.servers.set d sv.free) (getActiveServers s.currentTime)
      = some i := by
    unfold findAvailableServer
    rw [hf]
    simp
  simp only [hf1, Option.some.injEq] at he
  have hilen : i < (s.servers.set d sv.free).length := by
    rcases List.getElem?_eq_some.mp hy with ⟨h, -⟩
    exact h
  unfold handleServerReduction at hs
  rcases hr : serverReductionFrom s2.servers (getActiveServers s.currentTime) s2.q
    with _ | ⟨l1, q1⟩
  · simp [hr] at hs
  simp only [hr, Option.some.injEq] at hs
  obtain ⟨hq1, hidx⟩ := serverReductionFrom_queue _ _ _ _ _ hr
  subst hs
  subst he
  refine ⟨d, i, rfl, hdk, hid, ?_, ?_, ?_, ?_⟩
  · intro j hj
    obtain ⟨z, hz, hzb⟩ := hlow j hj
    rw [List.getElem?_set_ne (by omega)] at hz
    exact ⟨z, hz, hzb⟩
  · intro hlt
    rw [List.getElem?_set_ne (by omega)] at hy
    exact ⟨y, hy, hyb⟩
  · simp only
    rw [hidx i (by omega)]
    simp only
    rw [List.getElem?_set_self hilen]
    simp only [assigned, e6]
  · exact ⟨_, hq1⟩

/-- Witness for C9: the seventh iteration of the run on `drawsShrinkIdle`, a
departure from slot 1 while the displaced customer waits and slot 0 is idle. -/
theorem departure_assigns_lowest_idle_witness :
    isArrivalEvent (stateAt drawsShrinkIdle 6) = false ∧
    (stateAt drawsShrinkIdle 6).q = [fourthCustomer] ∧
    step drawsShrinkIdle (stateAt drawsShrinkIdle 6) = some (stateAt drawsShrinkIdle 7) ∧
    ∃ d i, (earliestDeparture (stateAt drawsShrinkIdle 6).servers
          (getActiveServers (stateAt drawsShrinkIdle 6).currentTime)).2 = some d ∧
      d < getActiveServers (stateAt drawsShrinkIdle 6).currentTime ∧ i ≤ d ∧
      (∀ j, j < i → ∃ y, (stateAt drawsShrinkIdle 6).servers[j]? = some y ∧ y.isBusy = true) ∧
      (i < d → ∃ y, (stateAt drawsShrinkIdle 6).servers[i]? = some y ∧ y.isBusy = false) ∧
      (stateAt drawsShrinkIdle 7).servers[i]? =
        some (assigned fourthCustomer i (stateAt drawsShrinkIdle 7).currentTime
          (drawsShrinkIdle (stateAt drawsShrinkIdle 6).rng)) ∧
      ∃ tail, (stateAt drawsShrinkIdle 7).q = [] ++ tail :=
  ⟨by decide!, by decide!, by decide!,
   departure_assigns_lowest_idle drawsShrinkIdle (stateAt drawsShrinkIdle 6)
     (stateAt drawsShrinkIdle 7) fourthCustomer [] (by decide!) (by decide!) (by decide!)⟩

/-- Counterexample to C9 as stated: in the run on `drawsShrinkIdle` the seventh
iteration starts at time 6 with slot 0 idle, slot 1 busy until time 7 and the
displaced customer waiting.  The departure at time 7 frees slot 1
(`departingServer = 1`), and the head of the queue is assigned to slot 0: its
`serverId` is 0 and slot 1 is left idle. -/
theorem head_not_assigned_to_freed_slot :
    stateAfter drawsShrinkIdle 6 = some (stateAt drawsShrinkIdle 6) ∧
    stateAfter drawsShrinkIdle 7 = some (stateAt drawsShrinkIdle 7) ∧
    isArrivalEvent (stateAt drawsShrinkIdle 6) = false ∧
    earliestDeparture (stateAt drawsShrinkIdle 6).servers
      (getActiveServers (stateAt drawsShrinkIdle 6).currentTime) = (some 7, some 1) ∧
    (stateAt drawsShrinkIdle 6).q = [fourthCustomer] ∧
    (stateAt drawsShrinkIdle 6).servers.map (fun sv => sv.isBusy) =
      [false, true, false, false] ∧
    (stateAt drawsShrinkIdle 7).servers.map
        (fun sv => sv.currentCustomer.map (fun c => (c.arrivalTime, c.serverId))) =
      [some (3, 0), none, none, none] ∧
    (stateAt drawsShrinkIdle 7).q = [] := by
  decide!

end Src1

/-! ## Tie-breaking of the event scheduler (all three programs) -/

/-- C10 (as amended): in each of the three programs, when the next arrival time
equals the next departure time (an exact tie), the event test
`nextArrival < nextDeparture` is false and the DEPARTURE handler is the one
dispatched for that event (departure priority). -/
theorem tie_dispatches_departure :
    (∀ (capacity : Int) (draws : ℕ → ℚ) (s : Src2.State),
        s.nextDeparture = some s.nextArrival →
        Src2.isArrivalEvent s = false ∧
        Src2.step capacity draws s = Src2.departure capacity draws s) ∧
    (∀ (draws : ℕ → ℚ) (s : Src3.State),
        s.nextDeparture = some s.nextArrival →
        Src3.isArrivalEvent s = false ∧ Src3.step draws s = Src3.departure draws s) ∧
    (∀ (draws : ℕ → ℚ) (s : Src1.State),
        (Src1.earliestDeparture s.servers (Src1.getActiveServers s.currentTime)).1 =
          some s.nextArrival →
        Src1.isArrivalEvent s = false ∧
        Src1.handleEvent draws s =
          Src1.handleDeparture draws (Src1.getActiveServers s.currentTime)
            (Src1.earliestDeparture s.servers (Src1.getActiveServers s.currentTime)).2
            (Src1.advanceClock (Src1.getActiveServers s.currentTime) s.nextArrival s)) := by
  refine ⟨?_, ?_, ?_⟩
  · intro capacity draws s h
    have hf : Src2.isArrivalEvent s = false := by
      simp [Src2.isArrivalEvent, h, ltSentinel]
    exact ⟨hf, by simp [Src2.step, hf]⟩
  · intro draws s h
    have hf : Src3.isArrivalEvent s = false := by
      simp [Src3.isArrivalEvent, h, ltSentinel]
    exact ⟨hf, by simp [Src3.step, hf]⟩
  · intro draws s h
    have hf : Src1.isArrivalEvent s = false := by
      simp [Src1.isArrivalEvent, h, ltSentinel]
    refine ⟨hf, ?_⟩
    unfold Src1.handleEvent
    simp only [hf, h, minSentinel, lt_self_iff_false, if_false, Bool.false_eq_true]

/-- Witness for C10: the state after the first iteration of the run on `drawsTie`
in each program, where the next arrival and the departure of the first
customer are both due at time 3. -/
theorem tie_dispatches_departure_witness :
    ((Src2.stateAt 3 drawsTie 1).nextDeparture = some (Src2.stateAt 3 drawsTie 1).nextArrival ∧
      Src2.step 3 drawsTie (Src2.stateAt 3 drawsTie 1) =
        Src2.departure 3 drawsTie (Src2.stateAt 3 drawsTie 1)) ∧
    ((Src3.stateAt drawsTie 1).nextDeparture = some (Src3.stateAt drawsTie 1).nextArrival ∧
      Src3.step drawsTie (Src3.stateAt drawsTie 1) =
        Src3.departure drawsTie (Src3.stateAt drawsTie 1)) ∧
    ((Src1.earliestDeparture (Src1.stateAt drawsTie 1).servers
        (Src1.getActiveServers (Src1.stateAt drawsTie 1).currentTime)).1 =
        some (Src1.stateAt drawsTie 1).nextArrival ∧
      Src1.isArrivalEvent (Src1.stateAt drawsTie 1) = false) :=
  ⟨⟨by decide!, (tie_dispatches_departure.1 3 drawsTie (Src2.stateAt 3 drawsTie 1)
      (by decide!)).2⟩,
   ⟨by decide!, (tie_dispatches_departure.2.1 drawsTie (Src3.stateAt drawsTie 1)
      (by decide!)).2⟩,
   ⟨by decide!, (tie_dispatches_departure.2.2 drawsTie (Src1.stateAt drawsTie 1)
      (by decide!)).1⟩⟩

/-- Counterexample to C10 as stated: in the run on `drawsTie` (capacity 3 for the
bounded queue) each program reaches, after its first iteration, a state in which
the next arrival and the next departure are both due at time 3.  The next
iteration processes the departure (one customer completed, still one arrival
counted), whereas the arrival handler would have counted a second arrival. -/
theorem tie_not_arrival :
    (Src2.stateAfter 3 drawsTie 1 = some (Src2.stateAt 3 drawsTie 1) ∧
      (Src2.stateAt 3 drawsTie 1).nextArrival = 3 ∧
      (Src2.stateAt 3 drawsTie 1).nextDeparture = some 3 ∧
      (Src2.step 3 drawsTie (Src2.stateAt 3 drawsTie 1)).map
          (fun s => (s.totalArrivals, s.completedCustomers.length)) = some (1, 1) ∧
      (Src2.arrival 3 drawsTie (Src2.stateAt 3 drawsTie 1)).map
          (fun s => (s.totalArrivals, s.completedCustomers.length)) = some (2, 0)) ∧
    (Src3.stateAfter drawsTie 1 = some (Src3.stateAt drawsTie 1) ∧
      (Src3.stateAt drawsTie 1).nextArrival = 3 ∧
      (Src3.stateAt drawsTie 1).nextDeparture = some 3 ∧
      (Src3.step drawsTie (Src3.stateAt drawsTie 1)).map
          (fun s => (s.totalArrivals, s.completedCustomers.length)) = some (1, 1) ∧
      (Src3.arrival drawsTie (Src3.stateAt drawsTie 1)).map
          (fun s => (s.totalArrivals, s.completedCustomers.length)) = some (2, 0)) ∧
    (Src1.stateAfter drawsTie 1 = some (Src1.stateAt drawsTie 1) ∧
      (Src1.stateAt drawsTie 1).nextArrival = 3 ∧
      Src1.earliestDeparture (Src1.stateAt drawsTie 1).servers
        (Src1.getActiveServers (Src1.stateAt drawsTie 1).currentTime) = (some 3, some 0) ∧
      Src1.isArrivalEvent (Src1.stateAt drawsTie 1) = false ∧
      (Src1.step drawsTie (Src1.stateAt drawsTie 1)).map
          (fun s => (s.totalArrivals, s.completedCustomers.length)) = some (1, 1)) := by
  decide!

/-! ## Reported measures of the bounded-queue simulator (`2.cpp`) -/

namespace Src2

/-- C15 (failing input): the run on `drawsLateArrival` (first arrival at time
1000) leaves the loop with no completed customer; `avgWaitingTime` and
`avgSystemTime` are then computed as `0.0 / 0`, a division by zero whose
result is not a number, and not as the fallback `0.0`.  When every replication
is of this kind (all draws equal to 1000) the two averages returned by
`runMultipleSimulations` are not numbers either. -/
theorem zero_completions_divide_by_zero :
    runSimulation 3 drawsLateArrival 5 = Run.finished endLateArrival ∧
    endLateArrival.completedCustomers.length = 0 ∧
    (performanceMeasures endLateArrival).avgWaitingTime = none ∧
    (performanceMeasures endLateArrival).avgSystemTime = none ∧
    (performanceMeasures endLateArrival).avgWaitingTime ≠ some 0 ∧
    (match runMultipleSimulations 3 (fun _ => 1000) 5 with
      | Run.finished r => (r.avgWaitingTime, r.avgSystemTime, r.probRejection)
      | _ => (some 0, some 0, none)) = (none, none, some 0) := by
  decide!

end Src2

/-! ## Accumulators of the multi-server simulator (`1.cpp`) -/

namespace Src1

theorem length_updateAt {α : Type} (f : α → α) (l : List α) :
    ∀ i, (updateAt f l i).length = l.length := by
  induction l with
  | nil => intro i; rfl
  | cons x xs ih =>
    intro i
    cases i with
    | zero => rfl
    | succ i => simp [updateAt, ih i]

theorem getElem_updateAt_opt {α : Type} (f : α → α) (l : List α) :
    ∀ i j, (updateAt f l i)[j]? = if j = i then (l[j]?).map f else l[j]? := by
  induction l with
  | nil =>
    intro i j
    simp [updateAt]
  | cons x xs ih =>
    intro i j
    cases i with
    | zero =>
      cases j with
      | zero => simp [updateAt]
      | succ j => simp [updateAt]
    | succ i =>
      cases j with
      | zero => simp [updateAt]
      | succ j =>
        simp only [updateAt, List.getElem?_cons_succ, ih i j]
        simp

theorem mem_updateAt {α : Type} (f : α → α) (l : List α) :
    ∀ i r, r ∈ updateAt f l i → r ∈ l ∨ ∃ x ∈ l, r = f x := by
  induction l with
  | nil =>
    intro i r h
    simp [updateAt] at h
  | cons x xs ih =>
    intro i r h
    cases i with
    | zero =>
      simp only [updateAt, List.mem_cons] at h
      rcases h with rfl | h
      · exact Or.inr ⟨x, by simp, rfl⟩
      · exact Or.inl (by simp [h])
    | succ i =>
      simp only [updateAt, List.mem_cons] at h
      rcases h with rfl | h
      · exact Or.inl (by simp)
      · rcases ih i r h with h1 | ⟨y, hy, rfl⟩
        · exact Or.inl (by simp [h1])
        · exact Or.inr ⟨y, by simp [hy], rfl⟩

theorem durations_updateAt (f : PeriodResults → PeriodResults)
    (hf : ∀ x, (f x).periodDuration = x.periodDuration) (l : List PeriodResults) :
    ∀ i, (updateAt f l i).map (fun r => r.periodDuration) =
      l.map (fun r => r.periodDuration) := by
  induction l with
  | nil => intro i; rfl
  | cons x xs ih =>
    intro i
    cases i with
    | zero => simp [updateAt, hf]
    | succ i => simp [updateAt, ih i]

/-- What `advanceClock` does to the period records: an optional update of the
record of the current period by `addQueueLengthTime` and `addAllBusyTime`. -/
theorem advanceClock_records (k : Nat) (t : ℚ) (s : State) :
    ((advanceClock k t s).periodResults = s.periodResults ∧
      (advanceClock k t s).entireDayResults = s.entireDayResults) ∨
    (0 < t - s.currentTime ∧
      (advanceClock k t s).periodResults =
        updateAt (fun r => r.addQueueLengthTime (s.q.length : ℚ) (t - s.currentTime))
          s.periodResults (getPeriod s.currentTime) ∧
      (advanceClock k t s).entireDayResults =
        s.entireDayResults.addQueueLengthTime (s.q.length : ℚ) (t - s.currentTime)) ∨
    (0 < t - s.currentTime ∧
      (advanceClock k t s).periodResults =
        updateAt (fun r => r.addAllBusyTime (t - s.currentTime))
          (updateAt (fun r => r.addQueueLengthTime (s.q.length : ℚ) (t - s.currentTime))
            s.periodResults (getPeriod s.currentTime)) (getPeriod s.currentTime) ∧
      (advanceClock k t s).entireDayResults =
        (s.entireDayResults.addQueueLengthTime (s.q.length : ℚ)
          (t - s.currentTime)).addAllBusyTime (t - s.currentTime)) := by
  unfold advanceClock
  simp only
  by_cases hpos : t - s.currentTime > 0
  · rw [if_pos hpos]
    by_cases hall : countBusyServers s.servers k = k
    · rw [if_pos hall]
      exact Or.inr (Or.inr ⟨hpos, rfl, rfl⟩)
    · rw [if_neg hall]
      exact Or.inr (Or.inl ⟨hpos, rfl, rfl⟩)
  · rw [if_neg hpos]
    exact Or.inl ⟨rfl, rfl⟩

theorem handleArrival_records {draws : ℕ → ℚ} {k : Nat} {s s1 : State}
    (hs : handleArrival draws k s = some s1) :
    s1.periodResults = s.periodResults ∧ s1.entireDayResults = s.entireDayResults ∧
    s1.completedCustomers = s.completedCustomers ∧ s1.currentTime = s.currentTime := by
  unfold handleArrival at hs
  rcases hf : findAvailableServer s.servers k with _ | j
  · simp only [hf, Option.some.injEq] at hs
    subst hs
    exact ⟨rfl, rfl, rfl, rfl⟩
  · simp only [hf, Option.some.injEq] at hs
    subst hs
    exact ⟨rfl, rfl, rfl, rfl⟩

theorem handleDeparture_records {draws : ℕ → ℚ} {k : Nat} {ds : Option Nat} {s s1 : State}
    (hs : handleDeparture draws k ds s = some s1) :
    ∃ sv served, sv ∈ s.servers ∧ sv.currentCustomer = some served ∧
      s1.periodResults =
        updateAt (fun r => (r.addCustomer served).addBusyTime served.serviceTime)
          s.periodResults (getPeriod served.departureTime) ∧
      s1.entireDayResults =
        (s.entireDayResults.addCustomer served).addBusyTime served.serviceTime ∧
      s1.completedCustomers = s.completedCustomers ++ [served] ∧
      s1.currentTime = s.currentTime := by
  unfold handleDeparture at hs
  rcases ds with _ | d
  · simp at hs
  rcases hsv : s.servers[d]? with _ | sv
  · simp [hsv] at hs
  rcases hcc : sv.currentCustomer with _ | served
  · simp [hsv, hcc] at hs
  have hmem : sv ∈ s.servers := List.mem_iff_getElem?.mpr ⟨d, hsv⟩
  refine ⟨sv, served, hmem, hcc, ?_⟩
  rcases hq : s.q with _ | ⟨nextCustomer, rest⟩
  · simp only [hsv, hcc, hq, Option.some.injEq] at hs
    subst hs
    exact ⟨rfl, rfl, rfl, rfl⟩
  · rcases hf : findAvailableServer (s.servers.set d sv.free) k with _ | j
    · simp only [hsv, hcc, hq, hf, Option.some.injEq] at hs
      subst hs
      exact ⟨rfl, rfl, rfl, rfl⟩
    · simp only [hsv, hcc, hq, hf, Option.some.injEq] at hs
      subst hs
      exact ⟨rfl, rfl, rfl, rfl⟩

theorem handleServerReduction_records {k : Nat} {s s1 : State}
    (hs : handleServerReduction k s = some s1) :
    s1.periodResults = s.periodResults ∧ s1.entireDayResults = s.entireDayResults ∧
    s1.completedCustomers = s.completedCustomers ∧ s1.currentTime = s.currentTime := by
  unfold handleServerReduction at hs
  rcases hr : serverReductionFrom s.servers k s.q with _ | ⟨l1, q1⟩
  · simp [hr] at hs
  · simp only [hr, Option.some.injEq] at hs
    subst hs
    exact ⟨rfl, rfl, rfl, rfl⟩

theorem metrics_init (draws : ℕ → ℚ) : MetricsInv (init draws) := by
  refine ⟨by simp [init, PeriodResults.mk1], by simp [init, PeriodResults.mk1], ?_,
    by simp [init, PeriodResults.mk1], by simp [init, PeriodResults.mk1]⟩
  intro r hr
  simp only [init, List.mem_cons, List.mem_singleton, List.not_mem_nil, or_false] at hr
  rcases hr with rfl | rfl | rfl <;> simp [PeriodResults.mk1, init]

theorem advanceClock_metrics (k : Nat) {t : ℚ} {s : State} (h : MetricsInv s)
    (hct : s.currentTime ≤ t) : MetricsInv (advanceClock k t s) := by
  obtain ⟨m1, m2, m3, m4, m5⟩ := h
  have hcur := (advanceClock_fields k t s).2.2.2.1
  unfold MetricsInv
  rw [hcur]
  rcases advanceClock_records k t s with ⟨e1, e2⟩ | ⟨hpos, e1, e2⟩ | ⟨hpos, e1, e2⟩
  · rw [e1, e2]
    exact ⟨m1, m2, m3, m4, le_trans m5 hct⟩
  · rw [e1, e2]
    refine ⟨?_, m2, ?_, m4, le_trans m5 hct⟩
    · refine (durations_updateAt _ ?_ _ _).trans m1
      intro x; rfl
    · intro r hr
      rcases mem_updateAt _ _ _ _ hr with hr | ⟨x, hx, rfl⟩
      · exact m3 r hr
      · exact m3 x hx
  · rw [e1, e2]
    refine ⟨?_, m2, ?_, m4, ?_⟩
    · refine (durations_updateAt _ ?_ _ _).trans ((durations_updateAt _ ?_ _ _).trans m1)
      · intro x; rfl
      · intro x; rfl
    · intro r hr
      simp only [PeriodResults.addAllBusyTime, PeriodResults.addQueueLengthTime]
      rcases mem_updateAt _ _ _ _ hr with hr | ⟨y, hy, rfl⟩
      · have hr3 : 0 ≤ r.totalBusyTime ∧ 0 ≤ r.allBusyTime ∧
            r.allBusyTime ≤ s.entireDayResults.allBusyTime := by
          rcases mem_updateAt _ _ _ _ hr with hr | ⟨x, hx, rfl⟩
          · exact m3 r hr
          · exact m3 x hx
        exact ⟨hr3.1, hr3.2.1, by linarith⟩
      · have hy3 : 0 ≤ y.totalBusyTime ∧ 0 ≤ y.allBusyTime ∧
            y.allBusyTime ≤ s.entireDayResults.allBusyTime := by
          rcases mem_updateAt _ _ _ _ hy with hy | ⟨x, hx, rfl⟩
          · exact m3 y hy
          · exact m3 x hx
        simp only [PeriodResults.addAllBusyTime]
        exact ⟨hy3.1, by linarith, by linarith⟩
    · simp only [PeriodResults.addAllBusyTime, PeriodResults.addQueueLengthTime]
      linarith

theorem handleEvent_metrics {draws : ℕ → ℚ} {s s2 : State}
    (hi : Inv s) (h : MetricsInv s) (hs : handleEvent draws s = some s2) :
    MetricsInv s2 := by
  obtain ⟨b1, b2, b3⟩ := minSentinel_bounds (getActiveServers s.currentTime) hi
  have hmid := advanceClock_mid hi b1 b2 b3
  have hmet := advanceClock_metrics (getActiveServers s.currentTime) h b1
  unfold handleEvent at hs
  simp only at hs
  by_cases harr : isArrivalEvent s = true
  · rw [if_pos harr] at hs
    obtain ⟨e1, e2, -, e4⟩ := handleArrival_records hs
    unfold MetricsInv
    rw [e1, e2, e4]
    exact hmet
  · rw [if_neg harr] at hs
    obtain ⟨sv, served, hsv, hcc, e1, e2, -, e4⟩ := handleDeparture_records hs
    obtain ⟨-, i2, -⟩ := hmid
    obtain ⟨⟨-, hs2, hs3⟩, -⟩ := i2 sv hsv served hcc
    have hst : 0 ≤ served.serviceTime := by rw [hs3]; linarith
    obtain ⟨m1, m2, m3, m4, m5⟩ := hmet
    unfold MetricsInv
    rw [e1, e2, e4]
    refine ⟨?_, m2, ?_, ?_, m5⟩
    · refine (durations_updateAt _ ?_ _ _).trans m1
      intro x; rfl
    · intro r hr
      rcases mem_updateAt _ _ _ _ hr with hr | ⟨x, hx, rfl⟩
      · exact m3 r hr
      · obtain ⟨a, b, c⟩ := m3 x hx
        simp only [PeriodResults.addBusyTime, PeriodResults.addCustomer]
        exact ⟨by linarith, b, c⟩
    · simp only [PeriodResults.addBusyTime, PeriodResults.addCustomer]
      linarith

theorem step_metrics {draws : ℕ → ℚ} {s s1 : State}
    (hi : Inv s) (h : MetricsInv s) (hs : step draws s = some s1) : MetricsInv s1 := by
  unfold step at hs
  rcases he : handleEvent draws s with _ | s2
  · simp [he] at hs
  · simp only [he] at hs
    have h2 := handleEvent_metrics hi h he
    obtain ⟨e1, e2, -, e4⟩ := handleServerReduction_records hs
    unfold MetricsInv
    rw [e1, e2, e4]
    exact h2

theorem stateAfter_metrics {draws : ℕ → ℚ} (hd : ∀ i, 0 ≤ draws i) (n : Nat) :
    ∀ s : State, stateAfter draws n = some s → MetricsInv s := by
  induction n with
  | zero =>
    intro s hs
    simp [stateAfter] at hs
    subst hs
    exact metrics_init draws
  | succ n ih =>
    intro s hs
    rcases hp : stateAfter draws n with _ | s0
    · simp [stateAfter, hp] at hs
    · simp only [stateAfter, hp] at hs
      split_ifs at hs
      exact step_metrics (multi_stateAfter_inv hd n s0 hp) (ih s0 hp) hs

end Src1

namespace Src1

theorem attributed_append (cs : List Customer) (c : Customer) (p : Nat) :
    attributed (cs ++ [c]) p =
      if getPeriod c.departureTime = p then attributed cs p ++ [c] else attributed cs p := by
  unfold attributed
  rw [List.filter_append]
  by_cases h : getPeriod c.departureTime = p
  · simp [h]
  · simp [h]

theorem getElem_updateAt_keep {f : PeriodResults → PeriodResults}
    {l : List PeriodResults} {i p : Nat} {r1 : PeriodResults}
    (h : (updateAt f l i)[p]? = some r1)
    (hc : ∀ x, (f x).completedCustomers = x.completedCustomers)
    (hb : ∀ x, (f x).totalBusyTime = x.totalBusyTime) :
    ∃ r, l[p]? = some r ∧ r1.completedCustomers = r.completedCustomers ∧
      r1.totalBusyTime = r.totalBusyTime := by
  rw [getElem_updateAt_opt] at h
  by_cases hpi : p = i
  · rw [if_pos hpi] at h
    rcases hl : l[p]? with _ | r
    · simp [hl] at h
    · simp only [hl, Option.map, Option.some.injEq] at h
      subst h
      exact ⟨r, rfl, hc r, hb r⟩
  · rw [if_neg hpi] at h
    exact ⟨r1, h, rfl, rfl⟩

theorem attrib_init (draws : ℕ → ℚ) : AttribInv (init draws) := by
  refine ⟨rfl, ?_, rfl, by simp [init, PeriodResults.mk1]⟩
  intro p r hr
  have hmem : r ∈ (init draws).periodResults := List.mem_iff_getElem?.mpr ⟨p, hr⟩
  simp only [init, List.mem_cons, List.mem_singleton, List.not_mem_nil, or_false] at hmem
  rcases hmem with rfl | rfl | rfl <;> simp [PeriodResults.mk1, init, attributed]

theorem advanceClock_attrib (k : Nat) (t : ℚ) {s : State} (h : AttribInv s) :
    AttribInv (advanceClock k t s) := by
  obtain ⟨a1, a2, a3, a4⟩ := h
  have hcomp := (advanceClock_fields k t s).2.2.1
  unfold AttribInv
  rw [hcomp]
  rcases advanceClock_records k t s with ⟨e1, e2⟩ | ⟨-, e1, e2⟩ | ⟨-, e1, e2⟩
  · rw [e1, e2]
    exact ⟨a1, a2, a3, a4⟩
  · rw [e1, e2]
    refine ⟨by rw [length_updateAt]; exact a1, ?_, a3, a4⟩
    intro p r1 hr1
    obtain ⟨r, hr, c1, c2⟩ := getElem_updateAt_keep hr1 (fun x => rfl) (fun x => rfl)
    rw [c1, c2]
    exact a2 p r hr
  · rw [e1, e2]
    refine ⟨by rw [length_updateAt, length_updateAt]; exact a1, ?_, a3, a4⟩
    intro p r1 hr1
    obtain ⟨r2, hr2, c1, c2⟩ :=
      getElem_updateAt_keep hr1 (fun x => rfl) (fun x => rfl)
    obtain ⟨r, hr, c3, c4⟩ :=
      getElem_updateAt_keep hr2 (fun x => rfl) (fun x => rfl)
    rw [c1, c2, c3, c4]
    exact a2 p r hr

theorem handleDeparture_attrib {draws : ℕ → ℚ} {k : Nat} {ds : Option Nat} {s s1 : State}
    (h : AttribInv s) (hs : handleDeparture draws k ds s = some s1) : AttribInv s1 := by
  obtain ⟨a1, a2, a3, a4⟩ := h
  obtain ⟨sv, served, -, -, e1, e2, e3, -⟩ := handleDeparture_records hs
  unfold AttribInv
  rw [e1, e2, e3]
  refine ⟨by rw [length_updateAt]; exact a1, ?_, ?_, ?_⟩
  · intro p r1 hr1
    rw [getElem_updateAt_opt] at hr1
    rw [attributed_append]
    by_cases hp : p = getPeriod served.departureTime
    · rw [if_pos hp] at hr1
      rcases hl : s.periodResults[p]? with _ | r
      · simp [hl] at hr1
      · simp only [hl, Option.map, Option.some.injEq] at hr1
        subst hr1
        obtain ⟨b1, b2⟩ := a2 p r hl
        rw [if_pos hp.symm]
        simp only [PeriodResults.addBusyTime, PeriodResults.addCustomer, List.length_append,
          List.length_singleton, List.map_append, List.sum_append, List.map_cons, List.map_nil,
          List.sum_cons, List.sum_nil, add_zero]
        exact ⟨by rw [b1], by rw [b2]⟩
    · rw [if_neg hp] at hr1
      rw [if_neg (fun h => hp h.symm)]
      exact a2 p r1 hr1
  · simp only [PeriodResults.addBusyTime, PeriodResults.addCustomer, List.length_append,
      List.length_singleton]
    rw [a3]
  · simp only [PeriodResults.addBusyTime, PeriodResults.addCustomer, List.map_append,
      List.sum_append, List.map_cons, List.map_nil, List.sum_cons, List.sum_nil, add_zero]
    rw [a4]

theorem step_attrib {draws : ℕ → ℚ} {s s1 : State} (h : AttribInv s)
    (hs : step draws s = some s1) : AttribInv s1 := by
  unfold step at hs
  rcases he : handleEvent draws s with _ | s2
  · simp [he] at hs
  simp only [he] at hs
  have hmid := advanceClock_attrib (getActiveServers s.currentTime)
    (minSentinel s.nextArrival
      (earliestDeparture s.servers (getActiveServers s.currentTime)).1) h
  have h2 : AttribInv s2 := by
    unfold handleEvent at he
    simp only at he
    by_cases harr : isArrivalEvent s = true
    · rw [if_pos harr] at he
      obtain ⟨e1, e2, e3, -⟩ := handleArrival_records he
      unfold AttribInv
      rw [e1, e2, e3]
      exact hmid
    · rw [if_neg harr] at he
      exact handleDeparture_attrib hmid he
  obtain ⟨e1, e2, e3, -⟩ := handleServerReduction_records hs
  unfold AttribInv
  rw [e1, e2, e3]
  exact h2

theorem stateAfter_attrib {draws : ℕ → ℚ} (n : Nat) :
    ∀ s : State, stateAfter draws n = some s → AttribInv s := by
  induction n with
  | zero =>
    intro s hs
    simp [stateAfter] at hs
    subst hs
    exact attrib_init draws
  | succ n ih =>
    intro s hs
    rcases hp : stateAfter draws n with _ | s0
    · simp [stateAfter, hp] at hs
    · simp only [stateAfter, hp] at hs
      split_ifs at hs
      exact step_attrib (ih s0 hp) hs

theorem duration_pos {s : State} (h : MetricsInv s) {r : PeriodResults}
    (hr : r ∈ s.periodResults) : 0 < r.periodDuration := by
  have : r.periodDuration ∈ s.periodResults.map (fun r => r.periodDuration) :=
    List.mem_map.mpr ⟨r, hr, rfl⟩
  rw [h.1] at this
  simp only [List.mem_cons, List.mem_singleton, List.not_mem_nil, or_false] at this
  rcases this with h1 | h1 | h1 <;> rw [h1] <;> norm_num

theorem serverCount_pos (i : Nat) : (0 : ℚ) < (serverCount i : ℚ) := by
  unfold serverCount
  split_ifs <;> norm_num

theorem drawsBusyPeriod_nonneg : ∀ i, 0 ≤ drawsBusyPeriod i := by
  intro i
  unfold drawsBusyPeriod
  split <;> norm_num

end Src1

namespace Src1

/-- C11 (as amended): for non-negative draws, in every state reached at the head of
the loop (the state in which the loop exits included), the reported utilization
of each period, `periodResults[i].getUtilizationRate(serverCount_i)` with
`serverCount = 2, 4, 3`, and the whole-day utilization
`entireDayResults.totalBusyTime / 25` are computed with non-zero denominators
and are non-negative.  They are not bounded by 1: a whole service time is
credited to the period of the departure. -/
theorem utilization_nonneg (draws : ℕ → ℚ) (hd : ∀ i, 0 ≤ draws i) (n : Nat) (s : State)
    (hs : stateAfter draws n = some s) :
    (∀ i r, s.periodResults[i]? = some r →
      r.getUtilizationRate (serverCount i) =
        some (r.totalBusyTime / (r.periodDuration * (serverCount i : ℚ))) ∧
      0 ≤ r.totalBusyTime / (r.periodDuration * (serverCount i : ℚ))) ∧
    entireDayUtilization s = some (s.entireDayResults.totalBusyTime / 25) ∧
    0 ≤ s.entireDayResults.totalBusyTime / 25 := by
  have hm := stateAfter_metrics hd n s hs
  refine ⟨?_, ?_, ?_⟩
  · intro i r hr
    have hmem : r ∈ s.periodResults := List.mem_iff_getElem?.mpr ⟨i, hr⟩
    have hpos : 0 < r.periodDuration * (serverCount i : ℚ) :=
      mul_pos (duration_pos hm hmem) (serverCount_pos i)
    refine ⟨?_, div_nonneg (hm.2.2.1 r hmem).1 (le_of_lt hpos)⟩
    simp [PeriodResults.getUtilizationRate, divDouble, ne_of_gt hpos]
  · simp [entireDayUtilization, divDouble]
  · exact div_nonneg hm.2.2.2.1 (by norm_num)

/-- Witness for C11: the final state of the run on `drawsBusyPeriod`, whose
whole-day record holds 13 busy hours. -/
theorem utilization_nonneg_witness :
    stateAfter drawsBusyPeriod 11 = some (stateAt drawsBusyPeriod 11) ∧
    entireDayUtilization (stateAt drawsBusyPeriod 11) =
      some ((stateAt drawsBusyPeriod 11).entireDayResults.totalBusyTime / 25) ∧
    0 ≤ (stateAt drawsBusyPeriod 11).entireDayResults.totalBusyTime / 25 :=
  ⟨by decide!,
   (utilization_nonneg drawsBusyPeriod drawsBusyPeriod_nonneg 11 (stateAt drawsBusyPeriod 11)
      (by decide!)).2⟩

/-- Counterexample to C11 as stated: the run on `drawsBusyPeriod` has non-negative
draws and all its departures happen before time 5; it leaves the loop at time
102 after 11 iterations.  The record of the period 2-5h holds 13 busy hours (2
of them served before time 2), so its reported utilization is `13 / 12 > 1`. -/
theorem utilization_exceeds_one :
    runSimulation drawsBusyPeriod 20 = Run.finished (stateAt drawsBusyPeriod 11) ∧
    (stateAt drawsBusyPeriod 11).completedCustomers.map (fun c => c.departureTime) =
      [2, 19 / 4, 19 / 4, 19 / 4, 19 / 4] ∧
    ((stateAt drawsBusyPeriod 11).periodResults[1]?).map (fun r => r.totalBusyTime) =
      some 13 ∧
    ((stateAt drawsBusyPeriod 11).periodResults[1]?).bind
        (fun r => r.getUtilizationRate (serverCount 1)) = some (13 / 12) ∧
    ¬ ((13 : ℚ) / 12 ≤ 1) := by
  decide!

/-- C12 (failing input): in the run on `drawsAllBusy` both active slots are busy
from time 1 and the next event is the arrival at time 6; the whole interval of
5 hours is credited to the record of the period 0-2h, in which it starts, and
is not split at the period boundary.  When the loop exits, the "time when all
servers were busy" of that 2-hour period is 5 hours, and `getProbAllBusy()` of
the record, reported as a probability, is `5 / 2 > 1`.  The same happens with
durations in the range of `main`'s rates: in the run on `drawsAllBusyShort` both
active slots are busy from time 0, the interval from the arrival at time `7/4`
to the departure at time `9/4` is credited whole to the period 0-2h, and the
record ends with `9/4` all-busy hours, `getProbAllBusy() = 9 / 8 > 1`.  The
draws are doubles and no operation rounds: the runs computed with the finite
sentinel and rounding to the nearest double reach the same states. -/
theorem probAllBusy_exceeds_one :
    runSimulation drawsAllBusy 20 = Run.finished (stateAt drawsAllBusy 4) ∧
    Dbl.stateAfter roundDouble drawsAllBusy 4 = some (stateAt drawsAllBusy 4) ∧
    ((stateAt drawsAllBusy 4).periodResults[0]?).map
        (fun r => (r.allBusyTime, r.periodDuration)) = some (5, 2) ∧
    ((stateAt drawsAllBusy 4).periodResults[0]?).bind (fun r => r.getProbAllBusy) =
      some (5 / 2) ∧
    ¬ ((5 : ℚ) / 2 ≤ 1) ∧
    runSimulation drawsAllBusyShort 30 = Run.finished (stateAt drawsAllBusyShort 19) ∧
    Dbl.stateAfter roundDouble drawsAllBusyShort 19 = some (stateAt drawsAllBusyShort 19) ∧
    ((stateAt drawsAllBusyShort 19).periodResults[0]?).map
        (fun r => (r.allBusyTime, r.periodDuration)) = some (9 / 4, 2) ∧
    ((stateAt drawsAllBusyShort 19).periodResults[0]?).bind (fun r => r.getProbAllBusy) =
      some (9 / 8) ∧
    ¬ ((9 : ℚ) / 8 ≤ 1) ∧
    (List.range 24).all (fun i => decide (drawsAllBusyShort i ≤ 9 / 4)) = true := by
  decide!

/-- C16: `getAvgWaitingTime()` returns `totalWaitingTime / completedCustomers` and
`getAvgSystemTime()` returns `totalSystemTime / completedCustomers` when
`completedCustomers > 0`, and both return exactly 0, without dividing, when
`completedCustomers == 0`. -/
theorem averages_guarded (r : PeriodResults) :
    (0 < r.completedCustomers →
      r.getAvgWaitingTime = some (r.totalWaitingTime / (r.completedCustomers : ℚ)) ∧
      r.getAvgSystemTime = some (r.totalSystemTime / (r.completedCustomers : ℚ))) ∧
    (r.completedCustomers = 0 →
      r.getAvgWaitingTime = some 0 ∧ r.getAvgSystemTime = some 0) := by
  constructor
  · intro h
    have hq : ((r.completedCustomers : ℚ)) ≠ 0 := by
      have : (0 : ℚ) < (r.completedCustomers : ℚ) := by exact_mod_cast h
      exact ne_of_gt this
    simp [PeriodResults.getAvgWaitingTime, PeriodResults.getAvgSystemTime, divDouble, h, hq]
  · intro h
    simp [PeriodResults.getAvgWaitingTime, PeriodResults.getAvgSystemTime, h]

/-- Witness for C16: the whole-day record at the end of the run on
`drawsLateDeparture` (one completed customer) and a fresh record (none). -/
theorem averages_guarded_witness :
    (0 < (stateAt drawsLateDeparture 2).entireDayResults.completedCustomers ∧
      (stateAt drawsLateDeparture 2).entireDayResults.getAvgSystemTime =
        some ((stateAt drawsLateDeparture 2).entireDayResults.totalSystemTime /
          ((stateAt drawsLateDeparture 2).entireDayResults.completedCustomers : ℚ))) ∧
    ((PeriodResults.mk1 2).completedCustomers = 0 ∧
      (PeriodResults.mk1 2).getAvgWaitingTime = some 0) :=
  ⟨⟨by decide!,
    ((averages_guarded (stateAt drawsLateDeparture 2).entireDayResults).1 (by decide!)).2⟩,
   ⟨rfl, ((averages_guarded (PeriodResults.mk1 2)).2 rfl).1⟩⟩

/-- C17 (as amended): in every state reached at the head of the loop, each of the
three period records counts exactly the completed customers whose departure
time `d` has `getPeriod(d)` equal to its index, and its busy time is the sum of
their service times; so every completed customer and its busy-time contribution
are in exactly one period record, the one of index `getPeriod(d)`: 0 when
`d < 2`, 1 when `2 ≤ d < 5`, and 2 when `d ≥ 5`, departures processed after the
horizon of 8 hours included. -/
theorem departure_period_attribution (draws : ℕ → ℚ) (n : Nat) (s : State)
    (hs : stateAfter draws n = some s) :
    (∀ p, p < 3 → ∃ r, s.periodResults[p]? = some r ∧
      r.completedCustomers = (attributed s.completedCustomers p).length ∧
      r.totalBusyTime =
        ((attributed s.completedCustomers p).map (fun c => c.serviceTime)).sum) ∧
    s.entireDayResults.completedCustomers = s.completedCustomers.length ∧
    (∀ d : ℚ, getPeriod d < 3 ∧ (getPeriod d = 0 ↔ d < 2) ∧
      (getPeriod d = 1 ↔ 2 ≤ d ∧ d < 5) ∧ (getPeriod d = 2 ↔ 5 ≤ d)) := by
  obtain ⟨a1, a2, a3, -⟩ := stateAfter_attrib n s hs
  refine ⟨?_, a3, ?_⟩
  · intro p hp
    have hlt : p < s.periodResults.length := by omega
    refine ⟨s.periodResults[p], ?_, ?_⟩
    · exact List.getElem?_eq_getElem hlt
    · exact a2 p _ (List.getElem?_eq_getElem hlt)
  · intro d
    unfold getPeriod
    by_cases h2 : d < 2
    · have h5 : d < 5 := by linarith
      simp [h2, h5]
    · by_cases h5 : d < 5
      · simp [h2, h5]
        linarith
      · simp [h2, h5]
        linarith

/-- Witness for C17: the final state of the run on `drawsLateDeparture`, whose
third record counts the one completed customer. -/
theorem departure_period_attribution_witness :
    stateAfter drawsLateDeparture 2 = some (stateAt drawsLateDeparture 2) ∧
    ∃ r, (stateAt drawsLateDeparture 2).periodResults[2]? = some r ∧
      r.completedCustomers =
        (attributed (stateAt drawsLateDeparture 2).completedCustomers 2).length ∧
      r.totalBusyTime =
        ((attributed (stateAt drawsLateDeparture 2).completedCustomers 2).map
          (fun c => c.serviceTime)).sum :=
  ⟨by decide!,
   (departure_period_attribution drawsLateDeparture 2 (stateAt drawsLateDeparture 2)
      (by decide!)).1 2 (by decide)⟩

/-- Counterexample to C17 as stated: in the run on `drawsLateDeparture` the second
iteration starts at time 1 and processes the departure at time 1001.  The
customer and its 1000 busy hours are added to the third record (5-8h), although
1001 lies in none of the intervals 0-2h, 2-5h, 5-8h. -/
theorem departure_after_horizon_attributed :
    runSimulation drawsLateDeparture 20 = Run.finished (stateAt drawsLateDeparture 2) ∧
    (stateAt drawsLateDeparture 2).completedCustomers.map (fun c => c.departureTime) =
      [1001] ∧
    (stateAt drawsLateDeparture 2).periodResults.map
        (fun r => (r.completedCustomers, r.totalBusyTime)) = [(0, 0), (0, 0), (1, 1000)] ∧
    ¬ ((1001 : ℚ) ≤ SIMULATION_TIME) := by
  decide!

end Src1

/-! ## Construction of a simulation object (all three programs) -/

/-- C19 (as amended): construction of a simulation object never fails and validates
nothing: for every arrival rate, service rate and capacity (the values
`lambda ≤ 0`, `mu ≤ 0`, `K < 1` and `lambda ≥ mu` included) the constructor
stores its arguments, and the caller goes on to the event loop. -/
theorem construction_never_fails :
    (∀ (l m : ℚ) (cap : Int) (draws : ℕ → ℚ) (fuel : Nat),
      Src2.Q2.construct l m cap = some { lambda := l, mu := m, capacity := cap } ∧
      Src2.constructAndRun l m cap draws fuel = some (Src2.runSimulation cap draws fuel)) ∧
    (∀ (l m : ℚ) (draws : ℕ → ℚ) (fuel : Nat),
      Src3.Q3.construct l m = some { lambda := l, mu := m } ∧
      Src3.constructAndRun l m draws fuel = some (Src3.runSimulation draws fuel)) ∧
    (∀ (l m : ℚ) (draws : ℕ → ℚ) (fuel : Nat),
      Src1.Q2.construct l m = some { lambda := l, mu := m, maxServers := 4 } ∧
      Src1.constructAndRun l m draws fuel = some (Src1.runSimulation draws fuel)) :=
  ⟨fun _ _ _ _ _ => ⟨rfl, rfl⟩, fun _ _ _ _ => ⟨rfl, rfl⟩, fun _ _ _ _ => ⟨rfl, rfl⟩⟩

/-- Counterexample to C19 as stated: objects are constructed with `lambda = 0`,
with `mu = -1`, with capacity `K = 0` and with `lambda = 15 ≥ mu = 10`; with
`K = 0` the event loop runs and rejects both arrivals of `drawsLongService`, and
with `lambda ≥ mu` the two loops of `3.cpp` run to the end of the 500 arrivals. -/
theorem invalid_configuration_accepted :
    Src2.Q2.construct 0 24 3 = some { lambda := 0, mu := 24, capacity := 3 } ∧
    Src2.Q2.construct 20 (-1) 3 = some { lambda := 20, mu := -1, capacity := 3 } ∧
    (Src2.constructAndRun 20 24 0 Src2.drawsLongService 5).map
        (fun r => match r with
          | Run.finished s => (s.totalArrivals, s.rejectedCustomers)
          | _ => (0, 0)) = some (2, 2) ∧
    (Src3.constructAndRun 15 10 (fun _ => 1) 1000).map
        (fun r => match r with
          | Run.finished s => (s.totalArrivals, s.completedCustomers.length)
          | _ => (0, 0)) = some (500, 500) := by
  decide!

/-! ## Conservation between events (`2.cpp`) -/

namespace Src2

end Src2

/-! ## Departures, clock and waiting line of the multi-server simulator (`1.cpp`) -/

namespace Src1

theorem occ_init (draws : ℕ → ℚ) : OccInv (init draws) := by
  intro sv hsv hb
  simp [init, maxServers, List.replicate, Server.mk0] at hsv
  subst hsv
  simp at hb

theorem step_currentTime {draws : ℕ → ℚ} {s s1 : State} (hs : step draws s = some s1) :
    s1.currentTime = minSentinel s.nextArrival
      (earliestDeparture s.servers (getActiveServers s.currentTime)).1 := by
  unfold step at hs
  rcases he : handleEvent draws s with _ | s2
  · simp [he] at hs
  simp only [he] at hs
  have hct := (advanceClock_fields (getActiveServers s.currentTime)
    (minSentinel s.nextArrival
      (earliestDeparture s.servers (getActiveServers s.currentTime)).1) s).2.2.2.1
  have h2 : s2.currentTime = minSentinel s.nextArrival
      (earliestDeparture s.servers (getActiveServers s.currentTime)).1 := by
    unfold handleEvent at he
    simp only at he
    by_cases harr : isArrivalEvent s = true
    · rw [if_pos harr] at he
      rw [(handleArrival_records he).2.2.2, hct]
    · rw [if_neg harr] at he
      obtain ⟨_, _, -, -, -, -, -, e⟩ := handleDeparture_records he
      rw [e, hct]
  rw [(handleServerReduction_records hs).2.2.2, h2]

end Src1

namespace Src1

theorem drawsGrow_nonneg : ∀ i, 0 ≤ drawsGrow i := by
  intro i
  unfold drawsGrow
  split <;> norm_num

/-- C26: for non-negative draws, in every state reached at the head of the loop the
clock does not go backwards: `nextArrival ≥ currentTime`, every busy slot with
index below `activeServers` has `busyUntil ≥ currentTime`, hence
`nextEventTime ≥ currentTime` (so `timeInterval ≥ 0`), and the clock after the
iteration is `nextEventTime`. -/
theorem clock_monotone (draws : ℕ → ℚ) (hd : ∀ i, 0 ≤ draws i) (n : Nat) (s : State)
    (hs : stateAfter draws n = some s) :
    s.currentTime ≤ s.nextArrival ∧
    (∀ sv ∈ s.servers.take (getActiveServers s.currentTime), sv.isBusy = true →
      s.currentTime ≤ sv.busyUntil) ∧
    s.currentTime ≤ minSentinel s.nextArrival
      (earliestDeparture s.servers (getActiveServers s.currentTime)).1 ∧
    (∀ s1, step draws s = some s1 →
      s1.currentTime = minSentinel s.nextArrival
        (earliestDeparture s.servers (getActiveServers s.currentTime)).1 ∧
      s.currentTime ≤ s1.currentTime) := by
  have hi := multi_stateAfter_inv hd n s hs
  have hb := (minSentinel_bounds (getActiveServers s.currentTime) hi).1
  obtain ⟨-, -, i3, i4, -⟩ := hi
  refine ⟨i4, fun sv hsv hbusy => i3 sv (List.mem_of_mem_take hsv) hbusy, hb, ?_⟩
  intro s1 hs1
  have e := step_currentTime hs1
  exact ⟨e, by rw [e]; exact hb⟩

/-- Witness for C26: the third iteration of the run on `drawsGrow`, which crosses
the change of the active-server count at time 2 (the clock goes from 1 to 3). -/
theorem clock_monotone_witness :
    stateAfter drawsGrow 2 = some (stateAt drawsGrow 2) ∧
    step drawsGrow (stateAt drawsGrow 2) = some (stateAt drawsGrow 3) ∧
    (stateAt drawsGrow 2).currentTime ≤ (stateAt drawsGrow 3).currentTime :=
  ⟨by decide!, by decide!,
   ((clock_monotone drawsGrow drawsGrow_nonneg 2 (stateAt drawsGrow 2) (by decide!)).2.2.2
      (stateAt drawsGrow 3) (by decide!)).2⟩

/-- C27 (failing input): in the run on `drawsOvertake` the fourth iteration starts
at time 3 with one customer waiting although four slots are active and slots 2
and 3 are idle; that iteration assigns the customer arriving at time 4 to slot
2, ahead of the customer that has been waiting since time 3. -/
theorem customer_waits_while_slot_idle :
    stateAfter drawsOvertake 3 = some (stateAt drawsOvertake 3) ∧
    stateAfter drawsOvertake 4 = some (stateAt drawsOvertake 4) ∧
    (stateAt drawsOvertake 3).currentTime = 3 ∧
    getActiveServers (stateAt drawsOvertake 3).currentTime = 4 ∧
    (stateAt drawsOvertake 3).q = [Customer.mk1 3] ∧
    (stateAt drawsOvertake 3).servers.map (fun sv => sv.isBusy) =
      [true, true, false, false] ∧
    (stateAt drawsOvertake 4).q = [Customer.mk1 3] ∧
    (stateAt drawsOvertake 4).servers.map
        (fun sv => sv.currentCustomer.map (fun c => c.arrivalTime)) =
      [some 1, some 1, some 4, none] := by
  decide!

end Src1

/-! ## First-in first-out service (`3.cpp`) -/

namespace Src3

end Src3

namespace Src3

end Src3

namespace Src3

end Src3

/-! ## Laws of `roundDouble` -/

theorem log2Fuel_eq_log (fuel : Nat) : ∀ n, n ≤ fuel → log2Fuel fuel n = Nat.log 2 n := by
  induction fuel with
  | zero =>
    intro n hn
    have h0 : n = 0 := by omega
    subst h0
    simp [log2Fuel]
  | succ fuel ih =>
    intro n hn
    unfold log2Fuel
    by_cases h2 : 2 ≤ n
    · rw [if_pos h2, ih (n / 2) (by omega), Nat.log_of_one_lt_of_le (by norm_num) h2]
    · rw [if_neg h2, Nat.log_of_lt (by omega)]

theorem natCast_log_bounds (n : Nat) (hn : n ≠ 0) :
    (2 : ℚ) ^ (Nat.log 2 n : ℤ) ≤ (n : ℚ) ∧ (n : ℚ) < 2 ^ ((Nat.log 2 n : ℤ) + 1) := by
  have h1 : 2 ^ Nat.log 2 n ≤ n := Nat.pow_log_le_self 2 hn
  have h2 : n < 2 ^ (Nat.log 2 n).succ := Nat.lt_pow_succ_log_self (by norm_num) n
  constructor
  · rw [zpow_natCast]
    exact_mod_cast h1
  · have e : ((Nat.log 2 n : ℤ) + 1) = ((Nat.log 2 n).succ : ℕ) := by push_cast; ring
    rw [e, zpow_natCast]
    exact_mod_cast h2

theorem abs_eq_natAbs_div (x : ℚ) : |x| = (x.num.natAbs : ℚ) / (x.den : ℚ) := by
  have h : |x| = |(x.num : ℚ)| / |(x.den : ℚ)| := by
    rw [← abs_div, Rat.num_div_den]
  rw [h, Nat.abs_cast, ← Int.cast_abs, Int.cast_natAbs]
  
theorem binade_spec (x : ℚ) (hx : x ≠ 0) :
    (2 : ℚ) ^ binade x ≤ |x| ∧ |x| < 2 ^ (binade x + 1) := by
  have hN : x.num.natAbs ≠ 0 := by
    simpa using (Rat.num_ne_zero.mpr hx)
  have hD : x.den ≠ 0 := x.den_nz
  obtain ⟨a1, a2⟩ := natCast_log_bounds _ hN
  obtain ⟨b1, b2⟩ := natCast_log_bounds _ hD
  have habs := abs_eq_natAbs_div x
  have hDpos : (0 : ℚ) < (x.den : ℚ) := by exact_mod_cast Nat.pos_of_ne_zero hD
  have h2 : (2 : ℚ) ≠ 0 := by norm_num
  unfold binade
  rw [log2Fuel_eq_log _ _ le_rfl, log2Fuel_eq_log _ _ le_rfl]
  simp only []
  generalize (Nat.log 2 x.num.natAbs : ℤ) = a at a1 a2 ⊢
  generalize (Nat.log 2 x.den : ℤ) = b at b1 b2 ⊢
  have pa : (0 : ℚ) < 2 ^ a := zpow_pos (by norm_num) a
  have pb : (0 : ℚ) < 2 ^ b := zpow_pos (by norm_num) b
  have ea1 : (2 : ℚ) ^ (a + 1) = 2 ^ a * 2 := by rw [zpow_add₀ h2, zpow_one]
  have eb1 : (2 : ℚ) ^ (b + 1) = 2 ^ b * 2 := by rw [zpow_add₀ h2, zpow_one]
  rw [ea1] at a2
  rw [eb1] at b2
  by_cases hc : (2 : ℚ) ^ (a - b) ≤ |x|
  · rw [if_pos hc]
    refine ⟨hc, ?_⟩
    rw [zpow_add₀ h2, zpow_one, zpow_sub₀ h2, habs, div_mul_eq_mul_div, div_lt_div_iff₀ hDpos pb]
    nlinarith
  · rw [if_neg hc]
    refine ⟨?_, ?_⟩
    · rw [zpow_sub₀ h2, zpow_one, zpow_sub₀ h2, habs, div_div, div_le_div_iff₀ (by positivity) hDpos]
      nlinarith
    · have e : a - b - 1 + 1 = a - b := by ring
      rw [e]
      exact lt_of_not_le hc

theorem binade_unique (x : ℚ) (k : ℤ) (h1 : (2 : ℚ) ^ k ≤ |x|) (h2 : |x| < 2 ^ (k + 1)) :
    binade x = k := by
  have hx : x ≠ 0 := by
    intro h0
    rw [h0, abs_zero] at h1
    exact absurd h1 (not_le.mpr (zpow_pos (by norm_num) k))
  obtain ⟨s1, s2⟩ := binade_spec x hx
  have l1 : binade x < k + 1 :=
    (zpow_lt_zpow_iff_right₀ (by norm_num : (1 : ℚ) < 2)).mp (lt_of_le_of_lt s1 h2)
  have l2 : k < binade x + 1 :=
    (zpow_lt_zpow_iff_right₀ (by norm_num : (1 : ℚ) < 2)).mp (lt_of_le_of_lt h1 s2)
  omega

theorem roundHalfEven_intCast (n : ℤ) : roundHalfEven (n : ℚ) = n := by
  unfold roundHalfEven
  rw [Int.floor_intCast]
  norm_num

theorem roundHalfEven_bounds (x : ℚ) : ⌊x⌋ ≤ roundHalfEven x ∧ roundHalfEven x ≤ ⌊x⌋ + 1 := by
  unfold roundHalfEven
  split_ifs <;> constructor <;> omega

theorem roundHalfEven_mono {x y : ℚ} (h : x ≤ y) : roundHalfEven x ≤ roundHalfEven y := by
  have hf : ⌊x⌋ ≤ ⌊y⌋ := Int.floor_le_floor h
  rcases lt_or_eq_of_le hf with hlt | heq
  · have h1 := (roundHalfEven_bounds x).2
    have h2 := (roundHalfEven_bounds y).1
    omega
  · unfold roundHalfEven
    rw [← heq]
    have hxy : x - (⌊x⌋ : ℚ) ≤ y - (⌊x⌋ : ℚ) := by linarith
    split_ifs <;> first | omega | (exfalso; linarith)

theorem roundHalfEven_neg (x : ℚ) : roundHalfEven (-x) = - roundHalfEven x := by
  by_cases hx : x = (⌊x⌋ : ℚ)
  · rw [hx, ← Int.cast_neg, roundHalfEven_intCast, roundHalfEven_intCast]
  · have h1 : (⌊x⌋ : ℚ) < x := lt_of_le_of_ne (Int.floor_le x) (Ne.symm hx)
    have h2 : x < (⌊x⌋ : ℚ) + 1 := Int.lt_floor_add_one x
    have hfl : ⌊-x⌋ = - ⌊x⌋ - 1 := by
      rw [Int.floor_eq_iff]
      push_cast
      constructor <;> linarith
    unfold roundHalfEven
    rw [hfl]
    push_cast
    split_ifs <;> first | omega | (exfalso; linarith)

theorem roundHalfEven_nonneg {x : ℚ} (h : 0 ≤ x) : 0 ≤ roundHalfEven x := by
  have h1 := roundHalfEven_mono h
  rwa [← Int.cast_zero, roundHalfEven_intCast] at h1

theorem ulp_pos (x : ℚ) : 0 < ulp x := zpow_pos (by norm_num) _

theorem binade_neg (x : ℚ) : binade (-x) = binade x := by
  unfold binade
  rw [Rat.neg_num, Rat.neg_den, Int.natAbs_neg, abs_neg]

theorem ulp_neg (x : ℚ) : ulp (-x) = ulp x := by
  unfold ulp
  rw [binade_neg]

theorem roundDouble_neg (x : ℚ) : roundDouble (-x) = - roundDouble x := by
  unfold roundDouble
  by_cases hx : x = 0
  · simp [hx]
  · have hnx : -x ≠ 0 := neg_ne_zero.mpr hx
    rw [if_neg hx, if_neg hnx, ulp_neg, neg_div, roundHalfEven_neg]
    push_cast
    ring

theorem roundDouble_nonneg {x : ℚ} (h : 0 ≤ x) : 0 ≤ roundDouble x := by
  unfold roundDouble
  split_ifs
  · exact le_rfl
  · have h1 : 0 ≤ x / ulp x := div_nonneg h (ulp_pos x).le
    have h2 : (0 : ℚ) ≤ (roundHalfEven (x / ulp x) : ℚ) := by
      exact_mod_cast roundHalfEven_nonneg h1
    exact mul_nonneg h2 (ulp_pos x).le

theorem two_zpow_53_mul_ulp (x : ℚ) :
    (2 : ℚ) ^ (53 : ℕ) * ulp x = 2 ^ (max (binade x) (-1022) + 1) := by
  unfold ulp
  rw [← zpow_natCast, ← zpow_add₀ (by norm_num : (2 : ℚ) ≠ 0)]
  congr 1
  push_cast
  ring

theorem two_zpow_52_mul_ulp (x : ℚ) :
    (2 : ℚ) ^ (52 : ℕ) * ulp x = 2 ^ (max (binade x) (-1022)) := by
  unfold ulp
  rw [← zpow_natCast, ← zpow_add₀ (by norm_num : (2 : ℚ) ≠ 0)]
  congr 1
  push_cast
  ring

theorem roundHalfEven_quot_le {x : ℚ} (hx : 0 < x) : roundHalfEven (x / ulp x) ≤ 2 ^ 53 := by
  obtain ⟨-, s2⟩ := binade_spec x hx.ne.symm
  rw [abs_of_pos hx] at s2
  have hle : (2 : ℚ) ^ (binade x + 1) ≤ 2 ^ (max (binade x) (-1022) + 1) :=
    zpow_le_zpow_right₀ (by norm_num) (by omega)
  have hq : x / ulp x ≤ ((2 ^ 53 : ℤ) : ℚ) := by
    have e53 : ((2 ^ 53 : ℤ) : ℚ) = (2 : ℚ) ^ (53 : ℕ) := by norm_num
    rw [div_le_iff₀ (ulp_pos x), e53, two_zpow_53_mul_ulp]
    exact (lt_of_lt_of_le s2 hle).le
  have hr := roundHalfEven_mono hq
  rwa [roundHalfEven_intCast] at hr

theorem roundDouble_le_top {x : ℚ} (hx : 0 < x) :
    roundDouble x ≤ 2 ^ (max (binade x) (-1022) + 1) := by
  have hr2 : (roundHalfEven (x / ulp x) : ℚ) ≤ (2 : ℚ) ^ (53 : ℕ) := by
    exact_mod_cast roundHalfEven_quot_le hx
  unfold roundDouble
  rw [if_neg hx.ne.symm, ← two_zpow_53_mul_ulp]
  exact mul_le_mul_of_nonneg_right hr2 (ulp_pos x).le

theorem roundDouble_ge_bot {x : ℚ} (hx : 0 < x) (hb : -1022 ≤ binade x) :
    (2 : ℚ) ^ binade x ≤ roundDouble x := by
  have hx0 : x ≠ 0 := hx.ne.symm
  obtain ⟨s1, -⟩ := binade_spec x hx0
  rw [abs_of_pos hx] at s1
  have hmax : max (binade x) (-1022) = binade x := max_eq_left hb
  have hq : ((2 ^ 52 : ℤ) : ℚ) ≤ x / ulp x := by
    have e52 : ((2 ^ 52 : ℤ) : ℚ) = (2 : ℚ) ^ (52 : ℕ) := by norm_num
    rw [le_div_iff₀ (ulp_pos x), e52, two_zpow_52_mul_ulp, hmax]
    exact s1
  have hr := roundHalfEven_mono hq
  rw [roundHalfEven_intCast] at hr
  have hr2 : (2 : ℚ) ^ (52 : ℕ) ≤ (roundHalfEven (x / ulp x) : ℚ) := by exact_mod_cast hr
  unfold roundDouble
  rw [if_neg hx0]
  have e := two_zpow_52_mul_ulp x
  rw [hmax] at e
  rw [← e]
  exact mul_le_mul_of_nonneg_right hr2 (ulp_pos x).le

theorem binade_mono_pos {x y : ℚ} (hx : 0 < x) (hxy : x ≤ y) : binade x ≤ binade y := by
  have hy : 0 < y := lt_of_lt_of_le hx hxy
  obtain ⟨s1, -⟩ := binade_spec x hx.ne.symm
  obtain ⟨-, t2⟩ := binade_spec y hy.ne.symm
  rw [abs_of_pos hx] at s1
  rw [abs_of_pos hy] at t2
  have l : binade x < binade y + 1 :=
    (zpow_lt_zpow_iff_right₀ (by norm_num : (1 : ℚ) < 2)).mp
      (lt_of_le_of_lt s1 (lt_of_le_of_lt hxy t2))
  omega

theorem roundDouble_mono_pos {x y : ℚ} (hx : 0 < x) (hxy : x ≤ y) :
    roundDouble x ≤ roundDouble y := by
  have hy : 0 < y := lt_of_lt_of_le hx hxy
  have hb := binade_mono_pos hx hxy
  by_cases he : max (binade x) (-1022) = max (binade y) (-1022)
  · have hu : ulp x = ulp y := by unfold ulp; rw [he]
    unfold roundDouble
    rw [if_neg hx.ne.symm, if_neg hy.ne.symm, hu]
    have hq : x / ulp y ≤ y / ulp y := div_le_div_of_nonneg_right hxy (ulp_pos y).le
    have hr : (roundHalfEven (x / ulp y) : ℚ) ≤ (roundHalfEven (y / ulp y) : ℚ) := by
      exact_mod_cast roundHalfEven_mono hq
    exact mul_le_mul_of_nonneg_right hr (ulp_pos y).le
  · have hyb : -1022 ≤ binade y := by
      by_contra hcon
      apply he
      rw [max_eq_right (by omega), max_eq_right (by omega)]
    have hlt : max (binade x) (-1022) + 1 ≤ binade y := by
      rcases le_total (binade x) (-1022) with h1 | h1
      · rw [max_eq_right h1]
        rw [max_eq_right h1, max_eq_left hyb] at he
        omega
      · rw [max_eq_left h1]
        rw [max_eq_left h1, max_eq_left hyb] at he
        omega
    calc roundDouble x ≤ 2 ^ (max (binade x) (-1022) + 1) := roundDouble_le_top hx
      _ ≤ 2 ^ binade y := zpow_le_zpow_right₀ (by norm_num) hlt
      _ ≤ roundDouble y := roundDouble_ge_bot hy hyb

theorem roundDouble_mono : Monotone roundDouble := by
  intro x y hxy
  rcases lt_trichotomy 0 x with hx | hx | hx
  · exact roundDouble_mono_pos hx hxy
  · subst hx
    have h0 : roundDouble 0 = 0 := by simp [roundDouble]
    rw [h0]
    exact roundDouble_nonneg hxy
  · rcases le_or_lt 0 y with hy | hy
    · have h1 : roundDouble x ≤ 0 := by
        have := roundDouble_nonneg (neg_nonneg.mpr hx.le)
        rw [roundDouble_neg] at this
        linarith
      exact le_trans h1 (roundDouble_nonneg hy)
    · have h1 := roundDouble_mono_pos (neg_pos.mpr hy) (neg_le_neg hxy)
      rw [roundDouble_neg, roundDouble_neg] at h1
      linarith

theorem roundDouble_of_quot (y : ℚ) (n : ℤ) (h : y = (n : ℚ) * ulp y) : roundDouble y = y := by
  unfold roundDouble
  split_ifs with h0
  · exact h0.symm
  · have hq : y / ulp y = (n : ℚ) := by
      rw [div_eq_iff (ulp_pos y).ne.symm]
      exact h
    rw [hq, roundHalfEven_intCast]
    exact h.symm

theorem roundDouble_grid_pos (m j : ℤ) (h0 : 0 < m) (hm : m ≤ 2 ^ 53) (hj : -1074 ≤ j) :
    roundDouble ((m : ℚ) * 2 ^ j) = (m : ℚ) * 2 ^ j := by
  have h2 : (2 : ℚ) ≠ 0 := by norm_num
  have hmq : (0 : ℚ) < (m : ℚ) := by exact_mod_cast h0
  have hmq2 : (m : ℚ) ≤ (2 : ℚ) ^ (53 : ℤ) := by
    have : (m : ℚ) ≤ ((2 ^ 53 : ℤ) : ℚ) := by exact_mod_cast hm
    have e53 : ((2 ^ 53 : ℤ) : ℚ) = (2 : ℚ) ^ (53 : ℤ) := by norm_num
    rwa [e53] at this
  have pj : (0 : ℚ) < 2 ^ j := zpow_pos (by norm_num) j
  obtain ⟨y, hy⟩ : ∃ y : ℚ, y = (m : ℚ) * 2 ^ j := ⟨_, rfl⟩
  rw [← hy]
  have hypos : 0 < y := by rw [hy]; exact mul_pos hmq pj
  obtain ⟨s1, s2⟩ := binade_spec y hypos.ne.symm
  rw [abs_of_pos hypos] at s1 s2
  have hb : binade y ≤ 53 + j := by
    have hle : y ≤ (2 : ℚ) ^ (53 + j) := by
      rw [hy, zpow_add₀ h2]
      exact mul_le_mul_of_nonneg_right hmq2 pj.le
    exact (zpow_le_zpow_iff_right₀ (by norm_num : (1 : ℚ) < 2)).mp (le_trans s1 hle)
  by_cases hk : 0 ≤ j - max (binade y) (-1022) + 52
  · apply roundDouble_of_quot y (m * 2 ^ (j - max (binade y) (-1022) + 52).toNat)
    have ek : (((2 : ℤ) ^ (j - max (binade y) (-1022) + 52).toNat : ℤ) : ℚ) =
        (2 : ℚ) ^ (j - max (binade y) (-1022) + 52) := by
      push_cast
      rw [← zpow_natCast, Int.toNat_of_nonneg hk]
    unfold ulp
    rw [Int.cast_mul, ek, mul_assoc, ← zpow_add₀ h2, hy]
    congr 2
    ring
  · have hE : max (binade y) (-1022) = binade y := by
      apply max_eq_left
      by_contra hcon
      rw [max_eq_right (by omega)] at hk
      omega
    rw [hE] at hk
    have hbj : binade y = j + 53 := by omega
    have hm53 : (m : ℚ) = (2 : ℚ) ^ (53 : ℤ) := by
      apply le_antisymm hmq2
      rw [hbj, hy, zpow_add₀ h2, mul_comm] at s1
      exact le_of_mul_le_mul_right s1 pj
    apply roundDouble_of_quot y (2 ^ 52)
    unfold ulp
    rw [hE, hbj, hy, hm53]
    have e52 : ((2 ^ 52 : ℤ) : ℚ) = (2 : ℚ) ^ (52 : ℤ) := by norm_num
    rw [e52, ← zpow_add₀ h2, ← zpow_add₀ h2]
    congr 1
    ring

theorem roundDouble_grid (m j : ℤ) (hm : |m| ≤ 2 ^ 53) (hj : -1074 ≤ j) :
    roundDouble ((m : ℚ) * 2 ^ j) = (m : ℚ) * 2 ^ j := by
  rcases lt_trichotomy 0 m with h | h | h
  · exact roundDouble_grid_pos m j h (le_trans (le_abs_self m) hm) hj
  · subst h
    simp [roundDouble]
  · have h1 := roundDouble_grid_pos (-m) j (by omega) (le_trans (neg_le_abs m) hm) hj
    have e : ((-m : ℤ) : ℚ) * 2 ^ j = - ((m : ℚ) * 2 ^ j) := by push_cast; ring
    rw [e, roundDouble_neg] at h1
    linarith

theorem roundDouble_eq_grid {x : ℚ} (hx : 0 < x) :
    roundDouble x = (roundHalfEven (x / ulp x) : ℚ) * 2 ^ (max (binade x) (-1022) - 52) := by
  unfold roundDouble
  rw [if_neg hx.ne.symm]
  rfl

theorem roundDouble_idem_pos {x : ℚ} (hx : 0 < x) : roundDouble (roundDouble x) = roundDouble x := by
  rw [roundDouble_eq_grid hx]
  apply roundDouble_grid
  · have h1 := roundHalfEven_quot_le hx
    have h2 : 0 ≤ roundHalfEven (x / ulp x) :=
      roundHalfEven_nonneg (div_nonneg hx.le (ulp_pos x).le)
    rw [abs_of_nonneg h2]
    exact h1
  · have := le_max_right (binade x) (-1022)
    omega

theorem roundDouble_idem (x : ℚ) : roundDouble (roundDouble x) = roundDouble x := by
  rcases lt_trichotomy 0 x with h | h | h
  · exact roundDouble_idem_pos h
  · subst h
    simp [roundDouble]
  · have h1 := roundDouble_idem_pos (neg_pos.mpr h)
    rw [roundDouble_neg, roundDouble_neg] at h1
    linarith

theorem roundDouble_zero : roundDouble 0 = 0 := by
  simp [roundDouble]

theorem roundDouble_one : roundDouble 1 = 1 := by
  have h := roundDouble_grid 1 0 (by norm_num) (by norm_num)
  simpa using h

/-! ## Rounded runs: what follows from monotone rounding -/

theorem isRounding_id : IsRounding id :=
  ⟨monotone_id, fun _ => rfl, fun _ _ _ _ => rfl⟩

theorem roundDouble_isRounding : IsRounding roundDouble :=
  ⟨roundDouble_mono, roundDouble_idem, roundDouble_grid⟩

theorem rounding_le_add {fl : ℚ → ℚ} (h : IsRounding fl) {t d : ℚ} (ht : fl t = t)
    (hd : 0 ≤ d) : t ≤ fl (t + d) := by
  have : fl t ≤ fl (t + d) := h.1 (by linarith)
  rwa [ht] at this

theorem rounding_le_grid {fl : ℚ → ℚ} (h : IsRounding fl) {x : ℚ} {m j : ℤ}
    (hm : |m| ≤ 2 ^ 53) (hj : -1074 ≤ j) (hx : x ≤ (m : ℚ) * 2 ^ j) :
    fl x ≤ (m : ℚ) * 2 ^ j := by
  have := h.1 hx
  rwa [h.2.2 m j hm hj] at this

theorem dblMax_pos : (96064 : ℚ) < dblMax := by
  unfold dblMax
  have h1 : (1 : ℚ) ≤ 2 ^ 971 := one_le_pow₀ (by norm_num)
  have h2 : (96064 : ℚ) < 2 ^ 53 - 1 := by norm_num
  nlinarith

/-- For a bound `B` on the draws with `2000 * B` below the sentinel there is a step
`G = c * 2 ^ j ≥ B` whose multiples `k * G`, `k ≤ 2000`, are left unchanged by
rounding and stay below the sentinel up to `k = 1501`. -/
theorem exists_grid_step {B : ℚ} (hB0 : 0 ≤ B) (hB : 2000 * B < dblMax) :
    ∃ c j : ℤ, 0 ≤ c ∧ c ≤ 64 ∧ -1074 ≤ j ∧ B ≤ (c : ℚ) * 2 ^ j ∧
      1501 * ((c : ℚ) * 2 ^ j) < dblMax := by
  have hmax := dblMax_pos
  rcases eq_or_lt_of_le hB0 with h0 | hpos
  · refine ⟨0, 0, le_refl 0, by norm_num, by norm_num, ?_, ?_⟩
    · rw [← h0]; simp
    · simp only [Int.cast_zero, zero_mul, mul_zero]; linarith
  · obtain ⟨s1, s2⟩ := binade_spec B hpos.ne.symm
    rw [abs_of_pos hpos] at s1 s2
    have h2 : (2 : ℚ) ≠ 0 := by norm_num
    obtain ⟨j, hj⟩ : ∃ j : ℤ, j = max (binade B - 5) (-1074) := ⟨_, rfl⟩
    have pj : (0 : ℚ) < 2 ^ j := zpow_pos (by norm_num) j
    have hj1 : binade B - 5 ≤ j := by rw [hj]; exact le_max_left _ _
    have hj2 : -1074 ≤ j := by rw [hj]; exact le_max_right _ _
    have hq64 : B / 2 ^ j < 64 := by
      rw [div_lt_iff₀ pj]
      have e : (64 : ℚ) * 2 ^ j = 2 ^ (j + 6) := by
        rw [zpow_add₀ h2]; norm_num; ring
      rw [e]
      exact lt_of_lt_of_le s2 (zpow_le_zpow_right₀ (by norm_num) (by omega))
    have hc1 : B / 2 ^ j ≤ (⌈B / 2 ^ j⌉ : ℚ) := Int.le_ceil _
    have hc2 : (⌈B / 2 ^ j⌉ : ℚ) < B / 2 ^ j + 1 := Int.ceil_lt_add_one _
    have hc64 : ⌈B / 2 ^ j⌉ ≤ 64 := by
      rw [Int.ceil_le]
      exact_mod_cast hq64.le
    have hc0 : 0 ≤ ⌈B / 2 ^ j⌉ := Int.ceil_nonneg (div_nonneg hB0 pj.le)
    have hG1 : B ≤ (⌈B / 2 ^ j⌉ : ℚ) * 2 ^ j := by
      rw [div_le_iff₀ pj] at hc1
      exact hc1
    have hG2 : (⌈B / 2 ^ j⌉ : ℚ) * 2 ^ j < B + 2 ^ j := by
      have := mul_lt_mul_of_pos_right hc2 pj
      rw [add_mul, div_mul_cancel₀ _ pj.ne.symm, one_mul] at this
      exact this
    refine ⟨⌈B / 2 ^ j⌉, j, hc0, hc64, hj2, hG1, ?_⟩
    rcases le_total (-1074) (binade B - 5) with hcase | hcase
    · have hje : j = binade B - 5 := by rw [hj, max_eq_left hcase]
      have e : (32 : ℚ) * 2 ^ j = 2 ^ binade B := by
        rw [hje, zpow_sub₀ h2]; norm_num; ring
      have : (32 : ℚ) * 2 ^ j ≤ B := by rw [e]; exact s1
      nlinarith
    · have hje : j = -1074 := by rw [hj, max_eq_right hcase]
      have hle : (2 : ℚ) ^ j ≤ 1 := by
        have := zpow_le_zpow_right₀ (by norm_num : (1 : ℚ) ≤ 2) (show j ≤ 0 by omega)
        simpa using this
      have hcq : (⌈B / 2 ^ j⌉ : ℚ) ≤ 64 := by exact_mod_cast hc64
      have hcq0 : (0 : ℚ) ≤ (⌈B / 2 ^ j⌉ : ℚ) := by exact_mod_cast hc0
      have : (⌈B / 2 ^ j⌉ : ℚ) * 2 ^ j ≤ 64 := by nlinarith
      linarith

theorem rounding_le_multiple {fl : ℚ → ℚ} (h : IsRounding fl) {c j : ℤ} (hc0 : 0 ≤ c)
    (hc : c ≤ 64) (hj : -1074 ≤ j) {k : ℕ} (hk : k ≤ 2000) {x : ℚ}
    (hx : x ≤ (c : ℚ) * 2 ^ j * (k : ℚ)) : fl x ≤ (c : ℚ) * 2 ^ j * (k : ℚ) := by
  have e : (c : ℚ) * 2 ^ j * (k : ℚ) = (((k : ℤ) * c : ℤ) : ℚ) * 2 ^ j := by
    push_cast; ring
  rw [e] at hx ⊢
  apply rounding_le_grid h _ hj hx
  have hk0 : (0 : ℤ) ≤ (k : ℤ) := Int.natCast_nonneg k
  have hk2 : (k : ℤ) ≤ 2000 := by exact_mod_cast hk
  rw [abs_of_nonneg (mul_nonneg hk0 hc0)]
  nlinarith

/-! ## Random variates (all three programs) -/

theorem double_below_one {v : ℚ} (hv : roundDouble v = v) (h1 : v < 1) :
    v ≤ 1 - 1 / 2 ^ 53 := by
  rcases lt_or_le v (1 / 2) with hlt | hge
  · have : (1 : ℚ) / 2 ≤ 1 - 1 / 2 ^ 53 := by norm_num
    linarith
  · have hpos : 0 < v := by linarith
    have hb : binade v = -1 := by
      apply binade_unique
      · rw [abs_of_pos hpos]
        have : (2 : ℚ) ^ (-1 : ℤ) = 1 / 2 := by norm_num
        rw [this]
        exact hge
      · rw [abs_of_pos hpos]
        norm_num
        exact h1
    have hu : ulp v = 1 / 2 ^ 53 := by
      unfold ulp
      rw [hb]
      norm_num
    have hg : v = (roundHalfEven (v / ulp v) : ℚ) * ulp v := by
      have := hv
      unfold roundDouble at this
      rw [if_neg hpos.ne.symm] at this
      exact this.symm
    rw [hu] at hg
    have hm : (roundHalfEven (v / (1 / 2 ^ 53)) : ℚ) < ((2 ^ 53 : ℤ) : ℚ) := by
      have h2 : (roundHalfEven (v / (1 / 2 ^ 53)) : ℚ) * (1 / 2 ^ 53) < 1 := by
        rw [← hg]
        exact h1
      push_cast
      have h3 : (0 : ℚ) < 1 / 2 ^ 53 := by norm_num
      rw [← lt_div_iff₀ h3] at h2
      have e : (1 : ℚ) / (1 / 2 ^ 53) = 2 ^ 53 := by norm_num
      rw [e] at h2
      exact h2
    have hm2 : roundHalfEven (v / (1 / 2 ^ 53)) ≤ 2 ^ 53 - 1 := by
      have : roundHalfEven (v / (1 / 2 ^ 53)) < 2 ^ 53 := by exact_mod_cast hm
      omega
    have hm3 : (roundHalfEven (v / (1 / 2 ^ 53)) : ℚ) ≤ 2 ^ 53 - 1 := by exact_mod_cast hm2
    rw [hg]
    have h3 : (0 : ℚ) ≤ 1 / 2 ^ 53 := by norm_num
    calc (roundHalfEven (v / (1 / 2 ^ 53)) : ℚ) * (1 / 2 ^ 53)
        ≤ (2 ^ 53 - 1) * (1 / 2 ^ 53) := mul_le_mul_of_nonneg_right hm3 h3
      _ = 1 - 1 / 2 ^ 53 := by norm_num

theorem roundDouble_one_sub {v : ℚ} (hv : roundDouble v = v) (h0 : 0 ≤ v) (h1 : v < 1) :
    1 / 2 ^ 53 ≤ roundDouble (1 - v) ∧ roundDouble (1 - v) ≤ 1 := by
  have hle := double_below_one hv h1
  have hg : roundDouble (1 / 2 ^ 53) = 1 / 2 ^ 53 := by
    have := roundDouble_grid 1 (-53) (by norm_num) (by norm_num)
    have e : ((1 : ℤ) : ℚ) * 2 ^ (-53 : ℤ) = 1 / 2 ^ 53 := by norm_num
    rwa [e] at this
  constructor
  · have := roundDouble_mono (show (1 : ℚ) / 2 ^ 53 ≤ 1 - v by linarith)
    rwa [hg] at this
  · have := roundDouble_mono (show 1 - v ≤ (1 : ℚ) by linarith)
    rwa [roundDouble_one] at this

/-- C20 (as amended): for every rate `> 0` and every uniform sample `U` in `[0, 1)`,
`getExponential` computes `-ln(1 - U) / rate` and the result is non-negative (it
is 0 for `U = 0`).  This holds over the reals, and with rounding to the
nearest double: when `U` is a double, `1.0 - U` is a double in `[2 ^ (-53), 1]`,
and for every library function `log` that is not positive on `(0, 1]` the
rounded quotient is non-negative. -/
theorem getExponential_nonneg (rate u : ℝ) (hr : 0 < rate) (h0 : 0 ≤ u) (h1 : u < 1)
    (log : ℚ → ℚ) (hlog : ∀ x, 0 < x → x ≤ 1 → log x ≤ 0)
    (r v : ℚ) (hr2 : 0 < r) (hv0 : 0 ≤ v) (hv1 : v < 1) (hv : roundDouble v = v) :
    getExponential Real.log rate u = -Real.log (1 - u) / rate ∧
    0 ≤ getExponential Real.log rate u ∧
    1 / 2 ^ 53 ≤ roundDouble (1 - v) ∧ roundDouble (1 - v) ≤ 1 ∧
    Dbl.getExponential roundDouble log r v = roundDouble (-log (roundDouble (1 - v)) / r) ∧
    0 ≤ Dbl.getExponential roundDouble log r v := by
  have hpos : 0 < 1 - u := by linarith
  have hle : 1 - u ≤ 1 := by linarith
  have hl : Real.log (1 - u) ≤ 0 := Real.log_nonpos (le_of_lt hpos) hle
  obtain ⟨g1, g2⟩ := roundDouble_one_sub hv hv0 hv1
  have g0 : 0 < roundDouble (1 - v) := lt_of_lt_of_le (by norm_num) g1
  have hl2 := hlog _ g0 g2
  refine ⟨rfl, ?_, g1, g2, rfl, ?_⟩
  · unfold getExponential
    exact div_nonneg (by linarith) (le_of_lt hr)
  · unfold Dbl.getExponential
    exact roundDouble_nonneg (div_nonneg (by linarith) (le_of_lt hr2))

/-- Witness for C20: rate 1 and the sample `U = 1/2`, over the reals and with
rounding to the nearest double, with `x - 1` standing for the library function
`log`. -/
theorem getExponential_nonneg_witness :
    (0 : ℝ) < 1 ∧ 0 ≤ getExponential Real.log (1 : ℝ) (1 / 2) ∧
    roundDouble (1 / 2) = 1 / 2 ∧
    0 ≤ Dbl.getExponential roundDouble (fun x => x - 1) 1 (1 / 2) :=
  ⟨by norm_num,
   (getExponential_nonneg 1 (1 / 2) (by norm_num) (by norm_num) (by norm_num)
      (fun x => x - 1) (fun x _ h => sub_nonpos.mpr h) 1 (1 / 2) (by norm_num) (by norm_num)
      (by norm_num) (by decide!)).2.1,
   by decide!,
   (getExponential_nonneg 1 (1 / 2) (by norm_num) (by norm_num) (by norm_num)
      (fun x => x - 1) (fun x _ h => sub_nonpos.mpr h) 1 (1 / 2) (by norm_num) (by norm_num)
      (by norm_num) (by decide!)).2.2.2.2.2⟩

/-- Counterexample to C20 as stated: for rate 1 and the sample `U = 0`, which lies
in `[0, 1)`, `getExponential` returns `-ln(1) / 1 = 0`, which is not strictly
positive; the same with rounding to the nearest double, for every library
function `log` with `log(1.0) = 0`. -/
theorem getExponential_zero :
    (0 : ℝ) < 1 ∧ (0 : ℝ) ≤ 0 ∧ (0 : ℝ) < 1 ∧
    getExponential Real.log (1 : ℝ) 0 = 0 ∧ ¬ 0 < getExponential Real.log (1 : ℝ) 0 ∧
    ∀ log : ℚ → ℚ, log 1 = 0 → Dbl.getExponential roundDouble log 1 0 = 0 ∧
      ¬ 0 < Dbl.getExponential roundDouble log 1 0 := by
  have h : getExponential Real.log (1 : ℝ) 0 = 0 := by simp [getExponential]
  refine ⟨by norm_num, le_refl 0, by norm_num, h, by rw [h]; exact lt_irrefl 0, ?_⟩
  intro log hlog
  have e : Dbl.getExponential roundDouble log 1 0 = 0 := by
    unfold Dbl.getExponential
    rw [sub_zero, roundDouble_one, hlog, neg_zero, zero_div, roundDouble_zero]
  exact ⟨e, by rw [e]; exact lt_irrefl 0⟩

/-! ## The rounded loop of the bounded-queue simulator (`2.cpp`) -/

namespace Src2

end Src2

/-! ## Time-weighted measures of the bounded-queue simulator (`2.cpp`) -/

namespace Src2

end Src2

/-! ## The finite sentinel in the arrival-count simulator (`3.cpp`) -/

namespace Src3

theorem rounded_arrival_spec (fl : ℚ → ℚ) (draws : ℕ → ℚ) {s : State} (h : Inv s) :
    ∃ s1, Dbl.arrival fl draws s = some s1 ∧ Inv s1 ∧
      s1.totalArrivals = s.totalArrivals + 1 ∧ s1.q.length = s.q.length + 1 := by
  obtain ⟨h1, h2⟩ := h
  unfold Dbl.arrival
  rcases hq : s.q with _ | ⟨c, rest⟩
  · simp only [List.nil_append, List.length_singleton, if_true, Dbl.startService, Customer.mk1]
    refine ⟨_, rfl, ?_, rfl, ?_⟩
    · simp [Inv, hq] at *
      omega
    · simp
  · have hlen : ¬ ((c :: rest) ++ [Customer.mk1 s.nextArrival]).length = 1 := by simp
    rw [if_neg hlen]
    refine ⟨_, rfl, ?_, rfl, ?_⟩
    · simp [Inv, hq] at *
      exact ⟨h1, by omega⟩
    · simp

theorem rounded_departure_spec (fl : ℚ → ℚ) (draws : ℕ → ℚ) {s : State} (h : Inv s)
    (hne : s.q ≠ []) :
    ∃ s1, Dbl.departure fl draws s = some s1 ∧ Inv s1 ∧
      s1.totalArrivals = s.totalArrivals ∧ s1.q.length + 1 = s.q.length := by
  obtain ⟨h1, h2⟩ := h
  unfold Dbl.departure
  rcases hnd : s.nextDeparture with _ | t
  · exact absurd (h1.mp hnd) hne
  rcases hq : s.q with _ | ⟨served, rest⟩
  · exact absurd hq hne
  rcases rest with _ | ⟨c, rest1⟩
  · simp only [Dbl.startService]
    refine ⟨_, rfl, ?_, rfl, ?_⟩
    · simp [Inv, hq] at *
      omega
    · simp
  · simp only [Dbl.startService]
    refine ⟨_, rfl, ?_, rfl, ?_⟩
    · simp [Inv, hq] at *
      omega
    · simp

theorem rounded_step_spec (fl : ℚ → ℚ) (draws : ℕ → ℚ) {s : State} (h : Inv s)
    (hna : s.nextArrival < dblMax) :
    ∃ s1, Dbl.step fl draws s = some s1 ∧ Inv s1 ∧
      ((s1.totalArrivals = s.totalArrivals + 1 ∧ s1.q.length = s.q.length + 1) ∨
       (s1.totalArrivals = s.totalArrivals ∧ s1.q.length + 1 = s.q.length)) := by
  unfold Dbl.step
  by_cases harr : Dbl.isArrivalEvent s = true
  · rw [if_pos harr]
    obtain ⟨s1, e, hi, ht, hl⟩ := rounded_arrival_spec fl draws h
    exact ⟨s1, e, hi, Or.inl ⟨ht, hl⟩⟩
  · rw [if_neg harr]
    have hne : s.q ≠ [] := by
      intro hq
      have hnd := h.1.mpr hq
      simp [Dbl.isArrivalEvent, hnd, ltMax, hna] at harr
    obtain ⟨s1, e, hi, ht, hl⟩ := rounded_departure_spec fl draws h hne
    exact ⟨s1, e, hi, Or.inr ⟨ht, hl⟩⟩

theorem timeBound_init {draws : ℕ → ℚ} {G : ℚ} (hd : ∀ i, draws i ≤ G) :
    TimeBound G (init draws) := by
  refine ⟨?_, ?_, ?_⟩
  · simpa [init] using hd 0
  · intro d h
    simp [init] at h
  · simp [init]

theorem timeBound_arrival {fl : ℚ → ℚ} {draws : ℕ → ℚ} {G : ℚ} (hG : 0 ≤ G)
    (hd : ∀ i, draws i ≤ G)
    (hfix : ∀ k : ℕ, k ≤ 2000 → ∀ x, x ≤ G * (k : ℚ) → fl x ≤ G * (k : ℚ))
    {s s1 : State} (hb : TimeBound G s) (hrng : s.rng + 2 ≤ 2000)
    (hs : Dbl.arrival fl draws s = some s1) : TimeBound G s1 := by
  obtain ⟨b1, b2, b3⟩ := hb
  have hr := hd s.rng
  have hr1 := hd (s.rng + 1)
  have f1 : fl (s.nextArrival + draws s.rng) ≤ G * ((s.rng + 1 : ℕ) : ℚ) := by
    apply hfix _ (by omega)
    push_cast
    linarith
  have f2 : fl (s.nextArrival + draws (s.rng + 1)) ≤ G * ((s.rng + 1 : ℕ) : ℚ) := by
    apply hfix _ (by omega)
    push_cast
    linarith
  push_cast at f1 f2
  unfold Dbl.arrival at hs
  rcases hq : s.q with _ | ⟨c, rest⟩
  · simp only [hq, List.nil_append, List.length_singleton, if_true, Dbl.startService,
      Customer.mk1, Option.some.injEq] at hs
    subst hs
    refine ⟨?_, ?_, ?_⟩
    · simp only
      push_cast
      linarith
    · intro d h
      simp only [Option.some.injEq] at h
      subst h
      push_cast
      linarith
    · simp only
      omega
  · have hlen : ¬ ((c :: rest) ++ [Customer.mk1 s.nextArrival]).length = 1 := by simp
    rw [hq] at hs
    rw [if_neg hlen] at hs
    simp only [Option.some.injEq] at hs
    subst hs
    refine ⟨?_, ?_, ?_⟩
    · simp only
      push_cast
      linarith
    · intro d h
      have := b2 d h
      simp only
      push_cast
      linarith
    · simp only
      omega

theorem timeBound_departure {fl : ℚ → ℚ} {draws : ℕ → ℚ} {G : ℚ} (hG : 0 ≤ G)
    (hd : ∀ i, draws i ≤ G)
    (hfix : ∀ k : ℕ, k ≤ 2000 → ∀ x, x ≤ G * (k : ℚ) → fl x ≤ G * (k : ℚ))
    {s s1 : State} (hb : TimeBound G s) (hrng : s.rng + 2 ≤ 2000)
    (hs : Dbl.departure fl draws s = some s1) : TimeBound G s1 := by
  obtain ⟨b1, b2, b3⟩ := hb
  have hr := hd s.rng
  unfold Dbl.departure at hs
  rcases hnd : s.nextDeparture with _ | t
  · simp [hnd] at hs
  rcases hq : s.q with _ | ⟨served, rest⟩
  · simp [hnd, hq] at hs
  have ht := b2 t hnd
  have f1 : fl (t + draws s.rng) ≤ G * ((s.rng + 1 : ℕ) : ℚ) := by
    apply hfix _ (by omega)
    push_cast
    linarith
  push_cast at f1
  rcases rest with _ | ⟨c, rest1⟩
  · simp only [hnd, hq, Dbl.startService, Option.some.injEq] at hs
    subst hs
    refine ⟨b1, ?_, ?_⟩
    · intro d h
      simp at h
    · simp only [List.length_append, List.length_singleton]
      omega
  · simp only [hnd, hq, Dbl.startService, Option.some.injEq] at hs
    subst hs
    refine ⟨?_, ?_, ?_⟩
    · simp only
      push_cast
      linarith
    · intro d h
      simp only [Option.some.injEq] at h
      subst h
      push_cast
      exact f1
    · simp only [List.length_append, List.length_singleton]
      omega

theorem rng_bound {G : ℚ} {s : State} (hi : Inv s) (hb : TimeBound G s)
    (hle : s.totalArrivals ≤ ARRIVALS) (hq : s.totalArrivals < ARRIVALS ∨ s.q ≠ []) :
    s.rng + 2 ≤ 1502 := by
  obtain ⟨-, -, b3⟩ := hb
  have hc := hi.2
  have hql : s.totalArrivals < ARRIVALS ∨ 0 < s.q.length := by
    rcases hq with h | h
    · exact Or.inl h
    · exact Or.inr (List.length_pos.mpr h)
  unfold ARRIVALS at hle hql
  omega

theorem rounded_arrivalLoop_terminates {fl : ℚ → ℚ} {draws : ℕ → ℚ} {G : ℚ} (hG : 0 ≤ G)
    (hd : ∀ i, draws i ≤ G)
    (hfix : ∀ k : ℕ, k ≤ 2000 → ∀ x, x ≤ G * (k : ℚ) → fl x ≤ G * (k : ℚ))
    (hmax : 1501 * G < dblMax) (fuel : Nat) :
    ∀ s : State, Inv s → TimeBound G s → s.totalArrivals ≤ ARRIVALS →
      2 * (ARRIVALS - s.totalArrivals) + s.q.length ≤ fuel →
      ∃ s1, Dbl.arrivalLoop fl draws fuel s = Run.finished s1 ∧ Inv s1 ∧ TimeBound G s1 ∧
        s1.totalArrivals = ARRIVALS := by
  induction fuel with
  | zero =>
    intro s h hb hle hm
    have hg : ¬ s.totalArrivals < ARRIVALS := by omega
    exact ⟨s, by simp [Dbl.arrivalLoop, hg], h, hb, by omega⟩
  | succ fuel ih =>
    intro s h hb hle hm
    by_cases hg : s.totalArrivals < ARRIVALS
    · have hrng := rng_bound h hb hle (Or.inl hg)
      have hna : s.nextArrival < dblMax := by
        have h1 := hb.1
        have h2 : (s.rng : ℚ) ≤ 1501 := by
          have : s.rng ≤ 1501 := by omega
          exact_mod_cast this
        have := mul_le_mul_of_nonneg_left h2 hG
        linarith
      obtain ⟨s1, e, hi, hcase⟩ := rounded_step_spec fl draws h hna
      have hb1 : TimeBound G s1 := by
        have e2 := e
        unfold Dbl.step at e2
        by_cases harr : Dbl.isArrivalEvent s = true
        · rw [if_pos harr] at e2
          exact timeBound_arrival hG hd hfix hb (by omega) e2
        · rw [if_neg harr] at e2
          exact timeBound_departure hG hd hfix hb (by omega) e2
      simp only [Dbl.arrivalLoop, hg, if_true, e]
      apply ih s1 hi hb1
      · omega
      · omega
    · exact ⟨s, by simp [Dbl.arrivalLoop, hg], h, hb, by omega⟩

theorem rounded_drainLoop_terminates {fl : ℚ → ℚ} {draws : ℕ → ℚ} {G : ℚ} (hG : 0 ≤ G)
    (hd : ∀ i, draws i ≤ G)
    (hfix : ∀ k : ℕ, k ≤ 2000 → ∀ x, x ≤ G * (k : ℚ) → fl x ≤ G * (k : ℚ))
    (fuel : Nat) :
    ∀ s : State, Inv s → TimeBound G s → s.totalArrivals ≤ ARRIVALS → s.q.length ≤ fuel →
      ∃ s1, Dbl.drainLoop fl draws fuel s = Run.finished s1 ∧ Inv s1 ∧ s1.q = [] ∧
        s1.totalArrivals = s.totalArrivals := by
  induction fuel with
  | zero =>
    intro s h hb hle hm
    have hq : s.q = [] := List.length_eq_zero.mp (by omega)
    exact ⟨s, by simp [Dbl.drainLoop, hq], h, hq, rfl⟩
  | succ fuel ih =>
    intro s h hb hle hm
    by_cases hq : s.q = []
    · exact ⟨s, by simp [Dbl.drainLoop, hq], h, hq, rfl⟩
    · obtain ⟨s1, e, hi, ht, hl⟩ := rounded_departure_spec fl draws h hq
      have hrng := rng_bound h hb hle (Or.inr hq)
      have hb1 : TimeBound G s1 := timeBound_departure hG hd hfix hb (by omega) e
      have hg : (!s.q.isEmpty) = true := by
        cases hs : s.q with
        | nil => exact absurd hs hq
        | cons a l => rfl
      simp only [Dbl.drainLoop, hg, if_true, e]
      obtain ⟨s2, e2, hi2, hq2, ht2⟩ := ih s1 hi hb1 (by omega) (by omega)
      exact ⟨s2, e2, hi2, hq2, by omega⟩

theorem rounded_runSimulation_finished {fl : ℚ → ℚ} (hfl : IsRounding fl) {draws : ℕ → ℚ}
    {B : ℚ} (hd : ∀ i, 0 ≤ draws i ∧ draws i ≤ B) (hB : 4 * (ARRIVALS : ℚ) * B < dblMax)
    {fuel : Nat} (hf : 2 * ARRIVALS ≤ fuel) :
    ∃ s, Dbl.runSimulation fl draws fuel = Run.finished s ∧ s.q = [] ∧
      s.totalArrivals = ARRIVALS ∧ s.completedCustomers.length = ARRIVALS := by
  have hB0 : 0 ≤ B := le_trans (hd 0).1 (hd 0).2
  have hB2 : 2000 * B < dblMax := by
    have e : (4 : ℚ) * (ARRIVALS : ℚ) = 2000 := by norm_num [ARRIVALS]
    rwa [e] at hB
  obtain ⟨c, j, hc0, hc, hj, hBG, hmax⟩ := exists_grid_step hB0 hB2
  have hG : (0 : ℚ) ≤ (c : ℚ) * 2 ^ j :=
    mul_nonneg (by exact_mod_cast hc0) (zpow_pos (by norm_num) j).le
  have hdG : ∀ i, draws i ≤ (c : ℚ) * 2 ^ j := fun i => le_trans (hd i).2 hBG
  have hfix : ∀ k : ℕ, k ≤ 2000 → ∀ x, x ≤ (c : ℚ) * 2 ^ j * (k : ℚ) →
      fl x ≤ (c : ℚ) * 2 ^ j * (k : ℚ) :=
    fun k hk x hx => rounding_le_multiple hfl hc0 hc hj hk hx
  obtain ⟨s1, e1, hi1, hb1, ht1⟩ := rounded_arrivalLoop_terminates hG hdG hfix hmax fuel
    (init draws) (counted_init_inv draws) (timeBound_init hdG) (by simp [init])
    (by simp [init]; omega)
  have hlen : s1.q.length ≤ fuel := by
    have := hi1.2
    omega
  obtain ⟨s2, e2, hi2, hq2, ht2⟩ := rounded_drainLoop_terminates hG hdG hfix fuel s1 hi1 hb1
    (by omega) hlen
  refine ⟨s2, ?_, hq2, by omega, ?_⟩
  · simp only [Dbl.runSimulation, e1, e2]
  · have := hi2.2
    simp [hq2] at this
    omega

theorem drawsTinyService_bounds :
    ∀ i, 0 ≤ Dbl.drawsTinyService i ∧ Dbl.drawsTinyService i ≤ 1 := by
  intro i
  unfold Dbl.drawsTinyService
  split_ifs <;> norm_num

/-- C3 (as amended): let every operation on doubles be rounded by `fl`, a monotone
rounding that leaves the doubles unchanged (exact arithmetic and rounding to the
nearest double are such).  For non-negative draws that are at most `B`, where
`4 * ARRIVALS * B` is below `numeric_limits<double>::max()` (so that no event time
reaches the sentinel), the two loops of `Q3::runSimulation` terminate (a bound of
`2 * ARRIVALS` iterations per loop is enough) without fault, exactly `ARRIVALS`
arrivals are generated, and every customer is drained: at the end the queue is
empty and `completedCustomers.size() == totalArrivals == ARRIVALS`. -/
theorem terminates_drains_below_max (fl : ℚ → ℚ) (hfl : IsRounding fl) (draws : ℕ → ℚ)
    (B : ℚ) (fuel : Nat) (hd : ∀ i, 0 ≤ draws i ∧ draws i ≤ B)
    (hB : 4 * (ARRIVALS : ℚ) * B < dblMax) (hf : 2 * ARRIVALS ≤ fuel) :
    ∃ s, Dbl.runSimulation fl draws fuel = Run.finished s ∧ s.q = [] ∧
      s.totalArrivals = ARRIVALS ∧ s.completedCustomers.length = ARRIVALS :=
  rounded_runSimulation_finished hfl hd hB hf

/-- Witness for C3: rounding to the nearest double, the draws of
`Dbl.drawsTinyService`, which are at most 1, the bound `B = 1` and 1000
iterations per loop. -/
theorem terminates_drains_below_max_witness :
    (∀ i : ℕ, 0 ≤ Dbl.drawsTinyService i ∧ Dbl.drawsTinyService i ≤ 1) ∧
    4 * (ARRIVALS : ℚ) * 1 < dblMax ∧ 2 * ARRIVALS ≤ 1000 ∧
    ∃ s, Dbl.runSimulation roundDouble Dbl.drawsTinyService 1000 = Run.finished s ∧ s.q = [] ∧
      s.totalArrivals = ARRIVALS ∧ s.completedCustomers.length = ARRIVALS :=
  ⟨drawsTinyService_bounds, by decide!, by decide,
   terminates_drains_below_max roundDouble roundDouble_isRounding Dbl.drawsTinyService 1 1000
     drawsTinyService_bounds (by decide!) (by decide)⟩

/-- Counterexample to C3 as stated: the draws all equal to
`numeric_limits<double>::max()` are non-negative and finite; the first arrival
is then due at the value of the sentinel, the test `nextArrival < nextDeparture`
is false, and the departure branch runs on the empty queue (`q.front()` of an
empty queue): the run faults in its first iteration. -/
theorem max_draw_faults :
    drawsMax 0 = dblMax ∧ 0 ≤ dblMax ∧ roundDouble dblMax = dblMax ∧
    (init drawsMax).q = [] ∧ Dbl.isArrivalEvent (init drawsMax) = false ∧
    Dbl.step roundDouble drawsMax (init drawsMax) = none ∧
    Dbl.runSimulation roundDouble drawsMax 1000 = Run.fault := by
  decide!

end Src3

/-! ## Idle time and empty-queue time under rounding (`3.cpp`) -/

namespace Src3

end Src3

namespace Src3

end Src3

namespace Src3

end Src3

namespace Src3

end Src3

namespace Src3

end Src3

/-! ## The finite sentinel in the multi-server simulator (`1.cpp`) -/

namespace Src1

theorem rounded_scan_found (l : List Server) :
    ∀ (k i : Nat) (acc : Option ℚ × Option Nat),
      Dbl.earliestDepartureFrom l k i acc = acc ∨
      ∃ j sv, i ≤ j ∧ j < i + k ∧ l[j - i]? = some sv ∧ sv.isBusy = true ∧
        Dbl.earliestDepartureFrom l k i acc = (some sv.busyUntil, some j) := by
  induction l with
  | nil =>
    intro k i acc
    left
    cases k <;> simp [Dbl.earliestDepartureFrom]
  | cons sv rest ih =>
    intro k i acc
    cases k with
    | zero =>
      left
      simp [Dbl.earliestDepartureFrom]
    | succ k =>
      by_cases hc : (sv.isBusy && ltMax sv.busyUntil acc.1) = true
      · have e : Dbl.earliestDepartureFrom (sv :: rest) (k + 1) i acc =
            Dbl.earliestDepartureFrom rest k (i + 1) (some sv.busyUntil, some i) := by
          simp only [Dbl.earliestDepartureFrom, hc, if_true]
        rw [e]
        simp only [Bool.and_eq_true] at hc
        right
        rcases ih k (i + 1) (some sv.busyUntil, some i) with h | ⟨j, x, h1, h2, h3, h4, h5⟩
        · exact ⟨i, sv, le_refl i, by omega, by simp, hc.1, h⟩
        · refine ⟨j, x, by omega, by omega, ?_, h4, h5⟩
          have hj : j - i = (j - (i + 1)) + 1 := by omega
          rw [hj, List.getElem?_cons_succ]
          exact h3
      · have e : Dbl.earliestDepartureFrom (sv :: rest) (k + 1) i acc =
            Dbl.earliestDepartureFrom rest k (i + 1) acc := by
          simp only [Dbl.earliestDepartureFrom, hc]
          simp
        rw [e]
        rcases ih k (i + 1) acc with h | ⟨j, x, h1, h2, h3, h4, h5⟩
        · exact Or.inl h
        · right
          refine ⟨j, x, by omega, by omega, ?_, h4, h5⟩
          have hj : j - i = (j - (i + 1)) + 1 := by omega
          rw [hj, List.getElem?_cons_succ]
          exact h3

/-- When the departure branch is taken and the next arrival is due before the
sentinel, the scan has found a busy slot below `activeServers` whose `busyUntil`
is the time of the event. -/
theorem rounded_departure_scan {s : State} (hna : s.nextArrival < dblMax)
    (hdep : Dbl.isArrivalEvent s = false) :
    ∃ d sv, d < getActiveServers s.currentTime ∧ s.servers[d]? = some sv ∧
      sv.isBusy = true ∧
      Dbl.earliestDeparture s.servers (getActiveServers s.currentTime) =
        (some sv.busyUntil, some d) ∧
      minMax s.nextArrival
        (Dbl.earliestDeparture s.servers (getActiveServers s.currentTime)).1 =
          sv.busyUntil := by
  rcases rounded_scan_found s.servers (getActiveServers s.currentTime) 0 (none, none)
    with h | ⟨j, sv, -, h2, h3, h4, h5⟩
  · have : (Dbl.earliestDeparture s.servers (getActiveServers s.currentTime)).1 = none := by
      unfold Dbl.earliestDeparture
      rw [h]
    simp [Dbl.isArrivalEvent, this, ltMax, hna] at hdep
  · have he : Dbl.earliestDeparture s.servers (getActiveServers s.currentTime) =
        (some sv.busyUntil, some j) := h5
    refine ⟨j, sv, by omega, by simpa using h3, h4, he, ?_⟩
    have hlt : ¬ s.nextArrival < sv.busyUntil := by
      simpa [Dbl.isArrivalEvent, he, ltMax] using hdep
    rw [he]
    simp only [minMax]
    split_ifs with h
    · rfl
    · exact le_antisymm (not_lt.mp h) (not_lt.mp hlt)

theorem advanceClock_rounded_state (fl : ℚ → ℚ) (k : Nat) (t : ℚ) (s : State) :
    (Dbl.advanceClock fl k t s).servers = s.servers ∧
    (Dbl.advanceClock fl k t s).q = s.q ∧
    (Dbl.advanceClock fl k t s).completedCustomers = s.completedCustomers ∧
    (Dbl.advanceClock fl k t s).currentTime = t ∧
    (Dbl.advanceClock fl k t s).nextArrival = s.nextArrival := by
  unfold Dbl.advanceClock
  simp only
  split_ifs <;> exact ⟨rfl, rfl, rfl, rfl, rfl⟩

theorem rounded_handleArrival_occ {fl : ℚ → ℚ} {draws : ℕ → ℚ} {k : Nat} {s s1 : State}
    (h : OccInv s) (hs : Dbl.handleArrival fl draws k s = some s1) : OccInv s1 := by
  unfold Dbl.handleArrival at hs
  rcases hf : findAvailableServer s.servers k with _ | j
  · simp only [hf, Option.some.injEq] at hs
    subst hs
    exact h
  · simp only [hf, Option.some.injEq] at hs
    subst hs
    intro sv hsv hb
    rcases List.mem_or_eq_of_mem_set hsv with hsv | rfl
    · exact h sv hsv hb
    · exact ⟨_, rfl, rfl⟩

theorem rounded_handleDeparture_occ {fl : ℚ → ℚ} {draws : ℕ → ℚ} {k : Nat} {ds : Option Nat}
    {s s1 : State} (h : OccInv s) (hs : Dbl.handleDeparture fl draws k ds s = some s1) :
    OccInv s1 := by
  unfold Dbl.handleDeparture at hs
  rcases ds with _ | d
  · simp at hs
  rcases hsv : s.servers[d]? with _ | sv
  · simp [hsv] at hs
  rcases hcc : sv.currentCustomer with _ | served
  · simp [hsv, hcc] at hs
  have h1 : ∀ x ∈ s.servers.set d sv.free, x.isBusy = true →
      ∃ c, x.currentCustomer = some c ∧ c.departureTime = x.busyUntil := by
    intro x hx hb
    rcases List.mem_or_eq_of_mem_set hx with hx | rfl
    · exact h x hx hb
    · simp [Server.free] at hb
  rcases hq : s.q with _ | ⟨nextCustomer, rest⟩
  · simp only [hsv, hcc, hq, Option.some.injEq] at hs
    subst hs
    exact h1
  · rcases hf : findAvailableServer (s.servers.set d sv.free) k with _ | j
    · simp only [hsv, hcc, hq, hf, Option.some.injEq] at hs
      subst hs
      exact h1
    · simp only [hsv, hcc, hq, hf, Option.some.injEq] at hs
      subst hs
      intro x hx hb
      rcases List.mem_or_eq_of_mem_set hx with hx | rfl
      · exact h1 x hx hb
      · exact ⟨_, rfl, rfl⟩

theorem rounded_step_occ {fl : ℚ → ℚ} {draws : ℕ → ℚ} {s s1 : State} (h : OccInv s)
    (hs : Dbl.step fl draws s = some s1) : OccInv s1 := by
  unfold Dbl.step at hs
  rcases he : Dbl.handleEvent fl draws s with _ | s2
  · simp [he] at hs
  simp only [he] at hs
  have hsrv := (advanceClock_rounded_state fl (getActiveServers s.currentTime)
    (minMax s.nextArrival
      (Dbl.earliestDeparture s.servers (getActiveServers s.currentTime)).1) s).1
  have hmid : OccInv (Dbl.advanceClock fl (getActiveServers s.currentTime)
      (minMax s.nextArrival
        (Dbl.earliestDeparture s.servers (getActiveServers s.currentTime)).1) s) := by
    unfold OccInv
    rw [hsrv]
    exact h
  have h2 : OccInv s2 := by
    unfold Dbl.handleEvent at he
    simp only at he
    by_cases harr : Dbl.isArrivalEvent s = true
    · rw [if_pos harr] at he
      exact rounded_handleArrival_occ hmid he
    · rw [if_neg harr] at he
      exact rounded_handleDeparture_occ hmid he
  unfold handleServerReduction at hs
  rcases hr : serverReductionFrom s2.servers (getActiveServers s.currentTime) s2.q
    with _ | ⟨l1, q1⟩
  · simp [hr] at hs
  simp only [hr, Option.some.injEq] at hs
  subst hs
  obtain ⟨r1, -, -⟩ := serverReductionFrom_spec _ _ _ _ _ hr
  intro sv hsv hb
  exact h2 sv (List.mem_of_mem_take (r1 sv hsv hb)) hb

theorem rounded_stateAfter_occ {fl : ℚ → ℚ} {draws : ℕ → ℚ} (n : Nat) :
    ∀ s : State, Dbl.stateAfter fl draws n = some s → OccInv s := by
  induction n with
  | zero =>
    intro s hs
    simp [Dbl.stateAfter] at hs
    subst hs
    exact occ_init draws
  | succ n ih =>
    intro s hs
    rcases hp : Dbl.stateAfter fl draws n with _ | s0
    · simp [Dbl.stateAfter, hp] at hs
    · simp only [Dbl.stateAfter, hp] at hs
      split_ifs at hs
      exact rounded_step_occ (ih s0 hp) hs

theorem rounded_handleDeparture_result (fl : ℚ → ℚ) (draws : ℕ → ℚ) (k : Nat) {d : Nat}
    {s : State} {sv : Server} {served : Customer} (hsv : s.servers[d]? = some sv)
    (hcc : sv.currentCustomer = some served)
    (hf : ∃ i, findAvailableServer (s.servers.set d sv.free) k = some i) :
    ∃ s2, Dbl.handleDeparture fl draws k (some d) s = some s2 ∧ s2.q = s.q.tail ∧
      s2.currentTime = s.currentTime ∧
      s2.completedCustomers = s.completedCustomers ++ [served] := by
  obtain ⟨i, hi⟩ := hf
  unfold Dbl.handleDeparture
  simp only [hsv, hcc]
  rcases hq : s.q with _ | ⟨c, rest⟩
  · exact ⟨_, rfl, rfl, rfl, rfl⟩
  · simp only [hi]
    exact ⟨_, rfl, rfl, rfl, rfl⟩

theorem rounded_handleEvent_departure (fl : ℚ → ℚ) (draws : ℕ → ℚ) {s : State}
    (hdep : Dbl.isArrivalEvent s = false) :
    Dbl.handleEvent fl draws s =
      Dbl.handleDeparture fl draws (getActiveServers s.currentTime)
        (Dbl.earliestDeparture s.servers (getActiveServers s.currentTime)).2
        (Dbl.advanceClock fl (getActiveServers s.currentTime)
          (minMax s.nextArrival
            (Dbl.earliestDeparture s.servers (getActiveServers s.currentTime)).1) s) := by
  unfold Dbl.handleEvent
  simp only [hdep]
  simp only [Bool.false_eq_true, if_false]

/-- C22 (as amended): whatever the draws and the rounding `fl` of the operations on
doubles, in every state reached at the head of the loop, when the departure
branch is taken and the next arrival is due before
`numeric_limits<double>::max()` (the value of the sentinel), `departingServer` is
a valid index below `activeServers`, that slot is busy and holds an occupant
(`currentCustomer` is not null), and the occupant's `departureTime` equals the
slot's `busyUntil` and the new `currentTime`; the handler does not fault. -/
theorem departure_slot_occupied_below_max (fl : ℚ → ℚ) (draws : ℕ → ℚ)
    (n : Nat) (s : State) (hs : Dbl.stateAfter fl draws n = some s)
    (hna : s.nextArrival < dblMax) (hdep : Dbl.isArrivalEvent s = false) :
    ∃ d sv c,
      (Dbl.earliestDeparture s.servers (getActiveServers s.currentTime)).2 = some d ∧
      d < getActiveServers s.currentTime ∧ d < s.servers.length ∧
      s.servers[d]? = some sv ∧ sv.isBusy = true ∧ sv.currentCustomer = some c ∧
      c.departureTime = sv.busyUntil ∧
      minMax s.nextArrival
        (Dbl.earliestDeparture s.servers (getActiveServers s.currentTime)).1 =
          c.departureTime ∧
      ∃ s2, Dbl.handleEvent fl draws s = some s2 ∧ s2.currentTime = c.departureTime ∧
        s2.completedCustomers = s.completedCustomers ++ [c] := by
  obtain ⟨d, sv, hdk, hsv, hb, he, hmin⟩ := rounded_departure_scan hna hdep
  have hmem : sv ∈ s.servers := List.mem_iff_getElem?.mpr ⟨d, hsv⟩
  obtain ⟨c, hc, hcd⟩ := rounded_stateAfter_occ n s hs sv hmem hb
  have hdlen : d < s.servers.length := by
    rcases List.getElem?_eq_some.mp hsv with ⟨h, -⟩
    exact h
  have hds : (Dbl.earliestDeparture s.servers (getActiveServers s.currentTime)).2 = some d := by
    rw [he]
  refine ⟨d, sv, c, hds, hdk, hdlen, hsv, hb, hc, hcd, by rw [hmin, hcd], ?_⟩
  obtain ⟨e1, -, e3, e4, -⟩ := advanceClock_rounded_state fl (getActiveServers s.currentTime)
    (minMax s.nextArrival
      (Dbl.earliestDeparture s.servers (getActiveServers s.currentTime)).1) s
  have hfree : (s.servers.set d sv.free)[d]? = some sv.free := by
    simp [hdlen]
  obtain ⟨i, -, hf, -, -⟩ := findAvailableServerFrom_of_idle
    (s.servers.set d sv.free) (getActiveServers s.currentTime) 0 d sv.free hfree
    (by simp [Server.free]) hdk
  have hf1 : findAvailableServer (s.servers.set d sv.free) (getActiveServers s.currentTime)
      = some i := by
    unfold findAvailableServer
    rw [hf]
    simp
  obtain ⟨s3, h3, -, hct3, hcomp3⟩ := rounded_handleDeparture_result fl draws
    (getActiveServers s.currentTime) (by rw [e1]; exact hsv) hc
    (by rw [e1]; exact ⟨i, hf1⟩)
  refine ⟨s3, ?_, ?_, ?_⟩
  · rw [rounded_handleEvent_departure fl draws hdep, hds]
    exact h3
  · rw [hct3, e4, hmin, hcd]
  · rw [hcomp3, e3]

/-- Witness for C22: the seventh iteration of the run on `drawsShrinkIdle`, computed
with rounding to the nearest double: a departure from slot 1 at time 7, the
next arrival being due at time 103. -/
theorem departure_slot_occupied_below_max_witness :
    Dbl.stateAfter roundDouble drawsShrinkIdle 6 = some (stateAt drawsShrinkIdle 6) ∧
    (stateAt drawsShrinkIdle 6).nextArrival < dblMax ∧
    Dbl.isArrivalEvent (stateAt drawsShrinkIdle 6) = false ∧
    ∃ d sv c, (Dbl.earliestDeparture (stateAt drawsShrinkIdle 6).servers
          (getActiveServers (stateAt drawsShrinkIdle 6).currentTime)).2 = some d ∧
      d < getActiveServers (stateAt drawsShrinkIdle 6).currentTime ∧
      d < (stateAt drawsShrinkIdle 6).servers.length ∧
      (stateAt drawsShrinkIdle 6).servers[d]? = some sv ∧ sv.isBusy = true ∧
      sv.currentCustomer = some c ∧ c.departureTime = sv.busyUntil ∧
      minMax (stateAt drawsShrinkIdle 6).nextArrival
        (Dbl.earliestDeparture (stateAt drawsShrinkIdle 6).servers
          (getActiveServers (stateAt drawsShrinkIdle 6).currentTime)).1 = c.departureTime ∧
      ∃ s2, Dbl.handleEvent roundDouble drawsShrinkIdle (stateAt drawsShrinkIdle 6) = some s2 ∧
        s2.currentTime = c.departureTime ∧
        s2.completedCustomers = (stateAt drawsShrinkIdle 6).completedCustomers ++ [c] :=
  ⟨by decide!, by decide!, by decide!,
   departure_slot_occupied_below_max roundDouble drawsShrinkIdle 6 (stateAt drawsShrinkIdle 6)
     (by decide!) (by decide!) (by decide!)⟩

/-- Counterexample to C22 as stated: the draws all equal to
`numeric_limits<double>::max()` are non-negative and finite.  In the first
iteration no slot is busy, so the scan leaves `departingServer = -1` and
`nextDeparture` at the sentinel; the first arrival is due at the value of the
sentinel, so the test `nextArrival < nextDeparture` is false and the departure
branch is taken without any occupied slot: the handler indexes `servers[-1]`. -/
theorem departure_without_slot :
    drawsMax 0 = dblMax ∧ 0 ≤ dblMax ∧ roundDouble dblMax = dblMax ∧
    Dbl.stateAfter roundDouble drawsMax 0 = some (init drawsMax) ∧
    (init drawsMax).currentTime < SIMULATION_TIME ∧
    (init drawsMax).servers.map (fun sv => sv.isBusy) = [false, false, false, false] ∧
    Dbl.isArrivalEvent (init drawsMax) = false ∧
    (Dbl.earliestDeparture (init drawsMax).servers
      (getActiveServers (init drawsMax).currentTime)).2 = none ∧
    Dbl.handleEvent roundDouble drawsMax (init drawsMax) = none ∧
    Dbl.stateAfter roundDouble drawsMax 1 = none := by
  decide!

end Src1

/-! ## Order of the timestamps under rounding (`1.cpp`) -/

namespace Src1

theorem ltMax_eq_decide (a : ℚ) (x : Option ℚ) : ltMax a x = decide (a < x.getD dblMax) := by
  cases x <;> rfl

theorem minMax_eq_ite (a : ℚ) (x : Option ℚ) :
    minMax a x = if x.getD dblMax < a then x.getD dblMax else a := by
  cases x <;> rfl

theorem rounded_scan_le (l : List Server) :
    ∀ (k i : Nat) (acc : Option ℚ × Option Nat),
      (Dbl.earliestDepartureFrom l k i acc).1.getD dblMax ≤ acc.1.getD dblMax ∧
      ∀ sv ∈ l.take k, sv.isBusy = true →
        (Dbl.earliestDepartureFrom l k i acc).1.getD dblMax ≤ sv.busyUntil := by
  induction l with
  | nil =>
    intro k i acc
    refine ⟨?_, ?_⟩
    · cases k <;> simp [Dbl.earliestDepartureFrom]
    · intro sv hsv
      simp at hsv
  | cons sv rest ih =>
    intro k i acc
    cases k with
    | zero =>
      refine ⟨by simp [Dbl.earliestDepartureFrom], ?_⟩
      intro x hx
      simp at hx
    | succ k =>
      by_cases hc : (sv.isBusy && ltMax sv.busyUntil acc.1) = true
      · have e : Dbl.earliestDepartureFrom (sv :: rest) (k + 1) i acc =
            Dbl.earliestDepartureFrom rest k (i + 1) (some sv.busyUntil, some i) := by
          simp only [Dbl.earliestDepartureFrom, hc, if_true]
        rw [e]
        obtain ⟨h1, h2⟩ := ih k (i + 1) (some sv.busyUntil, some i)
        simp only [Option.getD_some] at h1
        simp only [Bool.and_eq_true, ltMax_eq_decide, decide_eq_true_eq] at hc
        refine ⟨le_trans h1 (le_of_lt hc.2), ?_⟩
        intro x hx hb
        simp only [List.take_succ_cons, List.mem_cons] at hx
        rcases hx with rfl | hx
        · exact h1
        · exact h2 x hx hb
      · have e : Dbl.earliestDepartureFrom (sv :: rest) (k + 1) i acc =
            Dbl.earliestDepartureFrom rest k (i + 1) acc := by
          simp only [Dbl.earliestDepartureFrom, hc]
          simp
        rw [e]
        obtain ⟨h1, h2⟩ := ih k (i + 1) acc
        refine ⟨h1, ?_⟩
        intro x hx hb
        simp only [List.take_succ_cons, List.mem_cons] at hx
        rcases hx with rfl | hx
        · simp only [hb, Bool.true_and, ltMax_eq_decide, decide_eq_true_eq, not_lt] at hc
          exact le_trans h1 hc
        · exact h2 x hx hb

theorem rounded_init_inv (fl : ℚ → ℚ) (draws : ℕ → ℚ) (hd : ∀ i, 0 ≤ draws i)
    (hr : ∀ i, fl (draws i) = draws i) : Dbl.RoundedInv fl (init draws) := by
  refine ⟨?_, ?_, ?_, hd 0, ?_, hr 0, ?_⟩
  · intro c hc
    simp [init] at hc
  · intro sv hsv c hc
    simp [init, maxServers, List.replicate, Server.mk0] at hsv
    subst hsv
    simp at hc
  · intro sv hsv hb
    simp [init, maxServers, List.replicate, Server.mk0] at hsv
    subst hsv
    simp at hb
  · intro c hc
    simp [init] at hc
  · intro sv hsv hb
    simp [init, maxServers, List.replicate, Server.mk0] at hsv
    subst hsv
    simp at hb

theorem rounded_advanceClock_mid {fl : ℚ → ℚ} (k : Nat) {t : ℚ} {s : State}
    (h : Dbl.RoundedInv fl s) (h1 : s.currentTime ≤ t) (h2 : t ≤ s.nextArrival)
    (h3 : ∀ sv ∈ s.servers.take k, sv.isBusy = true → t ≤ sv.busyUntil) (h4 : fl t = t) :
    Dbl.RoundedMid fl k (Dbl.advanceClock fl k t s) := by
  obtain ⟨e1, e2, e3, e4, e5⟩ := advanceClock_rounded_state fl k t s
  obtain ⟨i1, i2, -, -, i5, i6, i7⟩ := h
  unfold Dbl.RoundedMid
  rw [e1, e2, e3, e4, e5]
  refine ⟨i1, ?_, h3, h2, ?_, i6, i7, h4⟩
  · intro sv hsv c hc
    obtain ⟨a, b⟩ := i2 sv hsv c hc
    exact ⟨a, le_trans b h1⟩
  · intro c hc
    exact le_trans (i5 c hc) h1

theorem rounded_handleArrival_mid {fl : ℚ → ℚ} (hfl : IsRounding fl) {draws : ℕ → ℚ}
    (hd : ∀ i, 0 ≤ draws i) {k : Nat} {s s1 : State}
    (h : Dbl.RoundedMid fl k s) (hs : Dbl.handleArrival fl draws k s = some s1) :
    Dbl.RoundedMid fl k s1 := by
  obtain ⟨i1, i2, i3, i4, i5, i6, i7, i8⟩ := h
  have hdr := hd s.rng
  have hdr1 := hd (s.rng + 1)
  have g0 : s.currentTime ≤ fl (s.currentTime + draws s.rng) := rounding_le_add hfl i8 hdr
  have g1 : s.currentTime ≤ fl (s.currentTime + draws (s.rng + 1)) :=
    rounding_le_add hfl i8 hdr1
  unfold Dbl.handleArrival at hs
  rcases hf : findAvailableServer s.servers k with _ | j
  · simp only [hf, Option.some.injEq] at hs
    subst hs
    refine ⟨i1, i2, i3, g0, ?_, hfl.2.1 _, i7, i8⟩
    intro c hc
    simp only [List.mem_append, List.mem_singleton] at hc
    rcases hc with hc | rfl
    · exact i5 c hc
    · simp [Customer.mk1]
  · simp only [hf, Option.some.injEq] at hs
    subst hs
    refine ⟨i1, ?_, ?_, g1, i5, hfl.2.1 _, ?_, i8⟩
    · intro sv hsv c hc
      rcases List.mem_or_eq_of_mem_set hsv with hsv | rfl
      · exact i2 sv hsv c hc
      · simp only [Option.some.injEq] at hc
        subst hc
        exact ⟨⟨le_refl _, g0⟩, le_refl _⟩
    · intro sv hsv hb
      rcases mem_take_set hsv with hsv | rfl
      · exact i3 sv hsv hb
      · exact g0
    · intro sv hsv hb
      rcases List.mem_or_eq_of_mem_set hsv with hsv | rfl
      · exact i7 sv hsv hb
      · exact hfl.2.1 _

theorem rounded_handleDeparture_mid {fl : ℚ → ℚ} (hfl : IsRounding fl) {draws : ℕ → ℚ}
    (hd : ∀ i, 0 ≤ draws i) {k : Nat} {ds : Option Nat} {s s1 : State}
    (h : Dbl.RoundedMid fl k s) (hs : Dbl.handleDeparture fl draws k ds s = some s1) :
    Dbl.RoundedMid fl k s1 := by
  obtain ⟨i1, i2, i3, i4, i5, i6, i7, i8⟩ := h
  have hdr := hd s.rng
  have g0 : s.currentTime ≤ fl (s.currentTime + draws s.rng) := rounding_le_add hfl i8 hdr
  unfold Dbl.handleDeparture at hs
  rcases ds with _ | d
  · simp at hs
  rcases hsv : s.servers[d]? with _ | sv
  · simp [hsv] at hs
  rcases hcc : sv.currentCustomer with _ | served
  · simp [hsv, hcc] at hs
  have hmem : sv ∈ s.servers := List.mem_iff_getElem?.mpr ⟨d, hsv⟩
  have hserved := (i2 sv hmem served hcc).1
  have hcompleted : ∀ c ∈ s.completedCustomers ++ [served], c.Ordered := by
    intro c hc
    simp only [List.mem_append, List.mem_singleton] at hc
    rcases hc with hc | rfl
    · exact i1 c hc
    · exact hserved
  have hocc1 : ∀ x ∈ s.servers.set d sv.free, ∀ c, x.currentCustomer = some c →
      c.Ordered ∧ c.arrivalTime ≤ s.currentTime := by
    intro x hx c hc
    rcases List.mem_or_eq_of_mem_set hx with hx | rfl
    · exact i2 x hx c hc
    · simp [Server.free] at hc
  have hbusy1 : ∀ x ∈ (s.servers.set d sv.free).take k, x.isBusy = true →
      s.currentTime ≤ x.busyUntil := by
    intro x hx hb
    rcases mem_take_set hx with hx | rfl
    · exact i3 x hx hb
    · simp [Server.free] at hb
  have hrep1 : ∀ x ∈ s.servers.set d sv.free, x.isBusy = true →
      fl x.busyUntil = x.busyUntil := by
    intro x hx hb
    rcases List.mem_or_eq_of_mem_set hx with hx | rfl
    · exact i7 x hx hb
    · simp [Server.free] at hb
  rcases hq : s.q with _ | ⟨nextCustomer, rest⟩
  · simp only [hsv, hcc, hq, Option.some.injEq] at hs
    subst hs
    refine ⟨hcompleted, hocc1, hbusy1, i4, ?_, i6, hrep1, i8⟩
    intro c hc
    simp only [hq] at hc
    simp at hc
  · have hnc : nextCustomer.arrivalTime ≤ s.currentTime := i5 nextCustomer (by simp [hq])
    have hrest : ∀ c ∈ rest, c.arrivalTime ≤ s.currentTime := by
      intro c hc
      exact i5 c (by simp [hq, hc])
    rcases hf : findAvailableServer (s.servers.set d sv.free) k with _ | j
    · simp only [hsv, hcc, hq, hf, Option.some.injEq] at hs
      subst hs
      refine ⟨hcompleted, hocc1, hbusy1, i4, ?_, i6, hrep1, i8⟩
      intro c hc
      simp only [List.mem_append, List.mem_singleton] at hc
      rcases hc with hc | rfl
      · exact hrest c hc
      · exact hnc
    · simp only [hsv, hcc, hq, hf, Option.some.injEq] at hs
      subst hs
      refine ⟨hcompleted, ?_, ?_, i4, hrest, i6, ?_, i8⟩
      · intro x hx c hc
        rcases List.mem_or_eq_of_mem_set hx with hx | rfl
        · exact hocc1 x hx c hc
        · simp only [Option.some.injEq] at hc
          subst hc
          exact ⟨⟨hnc, g0⟩, hnc⟩
      · intro x hx hb
        rcases mem_take_set hx with hx | rfl
        · exact hbusy1 x hx hb
        · exact g0
      · intro x hx hb
        rcases List.mem_or_eq_of_mem_set hx with hx | rfl
        · exact hrep1 x hx hb
        · exact hfl.2.1 _

theorem rounded_reduction_inv {fl : ℚ → ℚ} {k : Nat} {s s1 : State}
    (h : Dbl.RoundedMid fl k s) (hs : handleServerReduction k s = some s1) :
    Dbl.RoundedInv fl s1 := by
  obtain ⟨i1, i2, i3, i4, i5, i6, i7, -⟩ := h
  unfold handleServerReduction at hs
  rcases hr : serverReductionFrom s.servers k s.q with _ | ⟨l1, q1⟩
  · simp [hr] at hs
  simp only [hr, Option.some.injEq] at hs
  subst hs
  obtain ⟨r1, r2, r3⟩ := serverReductionFrom_spec s.servers k s.q l1 q1 hr
  refine ⟨i1, ?_, ?_, i4, ?_, i6, ?_⟩
  · intro sv hsv c hc
    exact i2 sv (r2 sv hsv c hc) c hc
  · intro sv hsv hb
    exact i3 sv (r1 sv hsv hb) hb
  · intro c hc
    rcases r3 c hc with hc | ⟨sv, hsv, hsc⟩
    · exact i5 c hc
    · exact (i2 sv hsv c hsc).2
  · intro sv hsv hb
    exact i7 sv (List.mem_of_mem_take (r1 sv hsv hb)) hb

theorem rounded_handleEvent_mid {fl : ℚ → ℚ} (hfl : IsRounding fl) {draws : ℕ → ℚ}
    (hd : ∀ i, 0 ≤ draws i) {s s2 : State}
    (h : Dbl.RoundedInv fl s) (hs : Dbl.handleEvent fl draws s = some s2) :
    Dbl.RoundedMid fl (getActiveServers s.currentTime) s2 := by
  have h0 := h
  obtain ⟨-, -, i3, i4, -, i6, i7⟩ := h
  have hscan := (rounded_scan_le s.servers (getActiveServers s.currentTime) 0 (none, none)).2
  unfold Dbl.handleEvent at hs
  simp only at hs
  by_cases harr : Dbl.isArrivalEvent s = true
  · rw [if_pos harr] at hs
    have hlt : s.nextArrival <
        (Dbl.earliestDeparture s.servers (getActiveServers s.currentTime)).1.getD dblMax := by
      simpa [Dbl.isArrivalEvent, ltMax_eq_decide] using harr
    have ht : minMax s.nextArrival
        (Dbl.earliestDeparture s.servers (getActiveServers s.currentTime)).1 =
        s.nextArrival := by
      rw [minMax_eq_ite, if_neg (not_lt.mpr (le_of_lt hlt))]
    rw [ht] at hs
    have hmid := rounded_advanceClock_mid (getActiveServers s.currentTime) h0 i4
      (le_refl _)
      (fun sv hsv hb => le_trans (le_of_lt hlt) (hscan sv hsv hb)) i6
    exact rounded_handleArrival_mid hfl hd hmid hs
  · rw [if_neg harr] at hs
    have hdep : Dbl.isArrivalEvent s = false := by simpa using harr
    rcases rounded_scan_found s.servers (getActiveServers s.currentTime) 0 (none, none)
      with hnone | ⟨j, sv, -, hj2, hj3, hj4, hj5⟩
    · have e2 : (Dbl.earliestDeparture s.servers (getActiveServers s.currentTime)).2 = none := by
        unfold Dbl.earliestDeparture
        rw [hnone]
      rw [e2] at hs
      simp [Dbl.handleDeparture] at hs
    · have he : Dbl.earliestDeparture s.servers (getActiveServers s.currentTime) =
          (some sv.busyUntil, some j) := hj5
      have hmem : sv ∈ s.servers := List.mem_iff_getElem?.mpr ⟨j, by simpa using hj3⟩
      have hle : ¬ s.nextArrival < sv.busyUntil := by
        simpa [Dbl.isArrivalEvent, he, ltMax] using hdep
      have ht : minMax s.nextArrival
          (Dbl.earliestDeparture s.servers (getActiveServers s.currentTime)).1 =
          sv.busyUntil := by
        rw [he]
        simp only [minMax]
        split_ifs with hx
        · rfl
        · exact le_antisymm (not_lt.mp hx) (not_lt.mp hle)
      have hv : (Dbl.earliestDeparture s.servers (getActiveServers s.currentTime)).1.getD dblMax =
          sv.busyUntil := by
        rw [he]
        rfl
      rw [ht] at hs
      have hmid := rounded_advanceClock_mid (getActiveServers s.currentTime) h0
        (i3 sv hmem hj4) (not_lt.mp hle)
        (fun x hx hb => by rw [← hv]; exact hscan x hx hb) (i7 sv hmem hj4)
      exact rounded_handleDeparture_mid hfl hd hmid hs

theorem rounded_step_inv {fl : ℚ → ℚ} (hfl : IsRounding fl) {draws : ℕ → ℚ}
    (hd : ∀ i, 0 ≤ draws i) {s s1 : State}
    (h : Dbl.RoundedInv fl s) (hs : Dbl.step fl draws s = some s1) : Dbl.RoundedInv fl s1 := by
  unfold Dbl.step at hs
  rcases he : Dbl.handleEvent fl draws s with _ | s2
  · simp [he] at hs
  · simp only [he] at hs
    exact rounded_reduction_inv (rounded_handleEvent_mid hfl hd h he) hs

theorem rounded_stateAfter_inv {fl : ℚ → ℚ} (hfl : IsRounding fl) {draws : ℕ → ℚ}
    (hd : ∀ i, 0 ≤ draws i) (hr : ∀ i, fl (draws i) = draws i) (n : Nat) :
    ∀ s : State, Dbl.stateAfter fl draws n = some s → Dbl.RoundedInv fl s := by
  induction n with
  | zero =>
    intro s hs
    simp [Dbl.stateAfter] at hs
    subst hs
    exact rounded_init_inv fl draws hd hr
  | succ n ih =>
    intro s hs
    rcases hp : Dbl.stateAfter fl draws n with _ | s0
    · simp [Dbl.stateAfter, hp] at hs
    · simp only [Dbl.stateAfter, hp] at hs
      split_ifs at hs
      exact rounded_step_inv hfl hd (ih s0 hp) hs

end Src1

/-! ## Stored departure times under rounding (`1.cpp`) -/

namespace Src1

theorem sum_init (fl : ℚ → ℚ) (draws : ℕ → ℚ) : SumInv fl (init draws) := by
  refine ⟨?_, ?_⟩
  · intro c hc
    simp [init] at hc
  · intro sv hsv c hc
    simp [init, maxServers, List.replicate, Server.mk0] at hsv
    subst hsv
    simp at hc

theorem handleArrival_sum {fl : ℚ → ℚ} {draws : ℕ → ℚ} {k : Nat} {s s1 : State}
    (h : SumInv fl s) (hs : Dbl.handleArrival fl draws k s = some s1) : SumInv fl s1 := by
  obtain ⟨h1, h2⟩ := h
  unfold Dbl.handleArrival at hs
  rcases hf : findAvailableServer s.servers k with _ | j
  · simp only [hf, Option.some.injEq] at hs
    subst hs
    exact ⟨h1, h2⟩
  · simp only [hf, Option.some.injEq] at hs
    subst hs
    refine ⟨h1, ?_⟩
    intro sv hsv c hc
    rcases List.mem_or_eq_of_mem_set hsv with hsv | rfl
    · exact h2 sv hsv c hc
    · simp only [Option.some.injEq] at hc
      subst hc
      rfl

theorem handleDeparture_sum {fl : ℚ → ℚ} {draws : ℕ → ℚ} {k : Nat} {ds : Option Nat}
    {s s1 : State} (h : SumInv fl s) (hs : Dbl.handleDeparture fl draws k ds s = some s1) :
    SumInv fl s1 := by
  obtain ⟨h1, h2⟩ := h
  unfold Dbl.handleDeparture at hs
  rcases ds with _ | d
  · simp at hs
  rcases hsv : s.servers[d]? with _ | sv
  · simp [hsv] at hs
  rcases hcc : sv.currentCustomer with _ | served
  · simp [hsv, hcc] at hs
  have hmem : sv ∈ s.servers := List.mem_iff_getElem?.mpr ⟨d, hsv⟩
  have hserved := h2 sv hmem served hcc
  have hcomp : ∀ c ∈ s.completedCustomers ++ [served],
      c.departureTime = fl (c.serviceStartTime + c.serviceTime) := by
    intro c hc
    rcases List.mem_append.mp hc with hc | hc
    · exact h1 c hc
    · rw [List.mem_singleton.mp hc]
      exact hserved
  have hfree : ∀ x ∈ s.servers.set d sv.free, ∀ c, x.currentCustomer = some c →
      c.departureTime = fl (c.serviceStartTime + c.serviceTime) := by
    intro x hx c hc
    rcases List.mem_or_eq_of_mem_set hx with hx | rfl
    · exact h2 x hx c hc
    · simp [Server.free] at hc
  rcases hq : s.q with _ | ⟨nextCustomer, rest⟩
  · simp only [hsv, hcc, hq, Option.some.injEq] at hs
    subst hs
    exact ⟨hcomp, hfree⟩
  · rcases hf : findAvailableServer (s.servers.set d sv.free) k with _ | j
    · simp only [hsv, hcc, hq, hf, Option.some.injEq] at hs
      subst hs
      exact ⟨hcomp, hfree⟩
    · simp only [hsv, hcc, hq, hf, Option.some.injEq] at hs
      subst hs
      refine ⟨hcomp, ?_⟩
      intro x hx c hc
      rcases List.mem_or_eq_of_mem_set hx with hx | rfl
      · exact hfree x hx c hc
      · simp only [Option.some.injEq] at hc
        subst hc
        rfl

theorem step_sum {fl : ℚ → ℚ} {draws : ℕ → ℚ} {s s1 : State} (h : SumInv fl s)
    (hs : Dbl.step fl draws s = some s1) : SumInv fl s1 := by
  unfold Dbl.step at hs
  rcases he : Dbl.handleEvent fl draws s with _ | s2
  · simp [he] at hs
  simp only [he] at hs
  obtain ⟨e1, -, e2, -, -⟩ := advanceClock_rounded_state fl (getActiveServers s.currentTime)
    (minMax s.nextArrival
      (Dbl.earliestDeparture s.servers (getActiveServers s.currentTime)).1) s
  have hmid : SumInv fl (Dbl.advanceClock fl (getActiveServers s.currentTime)
      (minMax s.nextArrival
        (Dbl.earliestDeparture s.servers (getActiveServers s.currentTime)).1) s) := by
    unfold SumInv
    rw [e1, e2]
    exact h
  have h2 : SumInv fl s2 := by
    unfold Dbl.handleEvent at he
    simp only at he
    by_cases harr : Dbl.isArrivalEvent s = true
    · rw [if_pos harr] at he
      exact handleArrival_sum hmid he
    · rw [if_neg harr] at he
      exact handleDeparture_sum hmid he
  unfold handleServerReduction at hs
  rcases hr : serverReductionFrom s2.servers (getActiveServers s.currentTime) s2.q
    with _ | ⟨l1, q1⟩
  · simp [hr] at hs
  simp only [hr, Option.some.injEq] at hs
  subst hs
  obtain ⟨-, r2, -⟩ := serverReductionFrom_spec _ _ _ _ _ hr
  exact ⟨h2.1, fun sv hsv c hc => h2.2 sv (r2 sv hsv c hc) c hc⟩

theorem stateAfter_sum (fl : ℚ → ℚ) (draws : ℕ → ℚ) (n : Nat) :
    ∀ s : State, Dbl.stateAfter fl draws n = some s → SumInv fl s := by
  induction n with
  | zero =>
    intro s hs
    simp [Dbl.stateAfter] at hs
    subst hs
    exact sum_init fl draws
  | succ n ih =>
    intro s hs
    rcases hp : Dbl.stateAfter fl draws n with _ | s0
    · simp [Dbl.stateAfter, hp] at hs
    · simp only [Dbl.stateAfter, hp] at hs
      split_ifs at hs
      exact step_sum (ih s0 hp) hs

theorem drawsShrinkIdle_doubles :
    ∀ i, roundDouble (drawsShrinkIdle i) = drawsShrinkIdle i := by
  intro i
  unfold drawsShrinkIdle
  split <;> decide!

/-- C4 (as amended): let every operation on doubles be rounded by `fl`, a monotone
rounding that leaves its own results and the doubles unchanged (exact
arithmetic and rounding to the nearest double are such), and let the draws be
non-negative doubles.  In every state reached at the head of the loop (the
state in which the loop exits included), every customer in
`completedCustomers`, whether served once or displaced by a server reduction
and served again, satisfies `arrivalTime ≤ serviceStartTime ≤ departureTime`, and
its `departureTime` is the rounded sum `serviceStartTime + serviceTime`. -/
theorem completed_timestamps_ordered (fl : ℚ → ℚ) (hfl : IsRounding fl) (draws : ℕ → ℚ)
    (hd : ∀ i, 0 ≤ draws i) (hr : ∀ i, fl (draws i) = draws i) (n : Nat) (s : State)
    (hs : Dbl.stateAfter fl draws n = some s) (c : Customer) (hc : c ∈ s.completedCustomers) :
    c.arrivalTime ≤ c.serviceStartTime ∧ c.serviceStartTime ≤ c.departureTime ∧
    c.departureTime = fl (c.serviceStartTime + c.serviceTime) :=
  ⟨((rounded_stateAfter_inv hfl hd hr n s hs).1 c hc).1,
   ((rounded_stateAfter_inv hfl hd hr n s hs).1 c hc).2,
   (stateAfter_sum fl draws n s hs).1 c hc⟩

/-- Witness for C4: in the run on `drawsShrinkIdle`, computed with rounding to the
nearest double, the customer displaced from slot 3 at time 6 is served again on
slot 0 from time 7 to time 8 and is the fourth completed customer. -/
theorem completed_timestamps_ordered_witness :
    Dbl.stateAfter roundDouble drawsShrinkIdle 8 = some (stateAt drawsShrinkIdle 8) ∧
    (stateAt drawsShrinkIdle 8).completedCustomers[3]? =
      some { arrivalTime := 3, serviceStartTime := 7, serviceTime := 1, departureTime := 8,
             serverId := 0 } ∧
    (3 : ℚ) ≤ 7 ∧ (7 : ℚ) ≤ 8 ∧ (8 : ℚ) = roundDouble (7 + 1) :=
  ⟨by decide!, by decide!,
   completed_timestamps_ordered roundDouble roundDouble_isRounding drawsShrinkIdle
     drawsShrinkIdle_nonneg drawsShrinkIdle_doubles 8 (stateAt drawsShrinkIdle 8) (by decide!)
     { arrivalTime := 3, serviceStartTime := 7, serviceTime := 1, departureTime := 8,
       serverId := 0 }
     (by decide!)⟩

/-- Counterexample to C4 as stated: the run on `Dbl.drawsShortService`, computed with
rounding to the nearest double.  The customer arrives at time 1 and is served
for `2 ^ (-53)` hours; the sum `1 + 2 ^ (-53)` rounds to 1, so the customer is
completed with `departureTime = serviceStartTime = 1`, and its `serviceTime`,
`2 ^ (-53)`, is not `departureTime - serviceStartTime = 0`.  The draws are
doubles. -/
theorem service_time_rounded_away :
    (Dbl.stateAfter roundDouble Dbl.drawsShortService 2).map (fun s => s.completedCustomers) =
      some [{ arrivalTime := 1, serviceStartTime := 1, serviceTime := 1 / 2 ^ 53,
              departureTime := 1, serverId := 0 }] ∧
    (1 : ℚ) / 2 ^ 53 ≠ 1 - 1 ∧ (1 : ℚ) / 2 ^ 53 ≠ roundDouble (1 - 1) ∧
    (List.range 3).map (fun i => roundDouble (Dbl.drawsShortService i)) =
      [1, 1 / 2 ^ 53, 100] := by
  decide!

end Src1
